import Mathlib

/-!
# splitfilesrc: a virtual byte stream over an ordered set of file parts

A shallow embedding of `gst/multifile/gstsplitfilesrc.c` and the properties of
its discovery, catalog construction and read path. The namespace
`AudioPanorama` embeds the selection of the processing function and the simple
16-bit transforms of `gst/audiofx/audiopanorama.c`.

Conventions of the embedding:

* a C string (`gchar *`) is the list of its bytes, without the terminating NUL;
  a `NULL` pointer is `none`;
* `guint64` values are natural numbers below `2 ^ 64`, `guint` values natural
  numbers below `2 ^ 32`; every arithmetic operation of the source is followed
  by the reduction the C type performs (`gsize` is taken as 64 bits wide);
* the array `src->parts` together with its length `src->num_parts` is a list;
  `g_new0 (T, 0)` is `NULL` in GLib, so the empty list stands for `NULL`;
* an array access outside the array, or a call through a `NULL` object, has no
  defined result: the embedded function returns `none` there;
* GLib/GIO calls are described by the environment `Env`, which holds what the
  directory, the pattern matcher and the files answer.
-/

namespace SplitFileSrc

/-! ## C strings and `strcmp` -/

/-- The bytes of a `gchar *` string, terminating NUL excluded. -/
abbrev GStr := List Nat

/-- Bytes of an ASCII literal, for writing examples. -/
def cstr (s : String) : GStr := s.toList.map Char.toNat

/-- C `strcmp`: compares byte by byte (as unsigned values), a string that ends
first is smaller.  Only the sign of the result is specified by C. -/
def strcmp : GStr → GStr → Int
  | [], [] => 0
  | [], _ :: _ => -1
  | _ :: _, [] => 1
  | a :: as, b :: bs =>
    if a < b then -1 else if b < a then 1 else strcmp as bs

/-- Comparison function `gst_split_file_src_array_sortfunc`:
`return strcmp (*a, *b);` -/
def gst_split_file_src_array_sortfunc (a b : GStr) : Int :=
  strcmp a b

/-- GLib `g_ptr_array_sort (array, compare_func)`: rearranges the array in
ascending order of `compare_func`.  The order used here has no two distinct
equivalent elements (see `strcmp_antisymm`), hence every correct sorting
routine returns the same array (see `g_ptr_array_sort_unique`). -/
def g_ptr_array_sort (files : List GStr) (compare_func : GStr → GStr → Int) : List GStr :=
  files.insertionSort (fun a b => compare_func a b ≤ 0)

/-! ## Errors -/

/-- Error domains used by the element. -/
inductive GErrorDomain
  | G_FILE_ERROR
  | G_IO_ERROR
  deriving DecidableEq, Repr

/-- A `GError`: domain, numeric code and message. -/
structure GError where
  domain : GErrorDomain
  code : Nat
  message : String
  deriving DecidableEq, Repr

/-- Value of `G_FILE_ERROR_NOENT` in GLib's `GFileError`. -/
def G_FILE_ERROR_NOENT : Nat := 4
/-- Value of `G_FILE_ERROR_INVAL` in GLib's `GFileError`. -/
def G_FILE_ERROR_INVAL : Nat := 17
/-- Value of `G_IO_ERROR_CANCELLED` in GIO's `GIOErrorEnum`. -/
def G_IO_ERROR_CANCELLED : Nat := 19

/-- A `GCancellable`: whether `g_cancellable_cancel` has been called on it. -/
structure GCancellable where
  cancelled : Bool
  deriving DecidableEq, Repr

/-- What GIO does with the `cancellable` argument of a blocking call: a
cancelled token makes the call fail with `G_IO_ERROR_CANCELLED`; `NULL` is
ignored. -/
def g_cancellable_set_error_if_cancelled (cancel : Option GCancellable) : Option GError :=
  match cancel with
  | some c =>
    if c.cancelled then some ⟨.G_IO_ERROR, G_IO_ERROR_CANCELLED, "Operation was cancelled"⟩
    else none
  | none => none

/-! ## The environment: directory, pattern matcher, files -/

/-- A file as GIO presents it: its bytes, and the failure (if any) each kind of
call on it reports. -/
structure GFile where
  data : List Nat
  open_err : Option GError := none
  info_err : Option GError := none
  seek_err : Option GError := none
  read_err : Option GError := none

/-- The answers of the library calls the element makes. -/
structure Env where
  /-- Whether `G_OS_WIN32` is defined (then the match mode is `MATCH_MODE_UTF8`). -/
  G_OS_WIN32 : Bool
  g_utf8_validate : GStr → Bool
  g_path_get_basename : GStr → GStr
  g_path_get_dirname : GStr → GStr
  /-- Result of `g_dir_open` followed by `g_dir_read_name` until it returns
  `NULL`: the entry names in the order the directory enumerates them. -/
  g_dir_open : GStr → Except GError (List GStr)
  /-- Result of `pattern_spec_new (basename, mode)` followed by
  `pattern_match_string (pspec, name)` (patternspec.c). -/
  pattern_match_string : GStr → GStr → Bool
  /-- Result of `g_build_filename (dirname, name, NULL)`. -/
  g_build_filename : GStr → GStr → GStr
  /-- The file behind a path. -/
  file : GStr → GFile

/-! ## Discovery: `gst_split_file_src_find_files` -/

/-- The `while ((name = g_dir_read_name (dir)))` loop of
`gst_split_file_src_find_files`: appends the full path of every matching entry
to `files`. -/
def find_files_loop (env : Env) (dirname basename : GStr) : List GStr → List GStr → List GStr
  | [], files => files
  | name :: names, files =>
    if env.pattern_match_string basename name then
      find_files_loop env dirname basename names (files ++ [env.g_build_filename dirname name])
    else
      find_files_loop env dirname basename names files

/-- Function `gst_split_file_src_find_files`: the sorted paths of the matching entries,
or the error stored in `*err` when it returns `NULL`. -/
def gst_split_file_src_find_files (env : Env) (dirname basename : Option GStr) :
    Except GError (List GStr) :=
  match dirname, basename with
  | some dirname, some basename =>
    match env.g_dir_open dirname with
    | .error e => .error e
    | .ok names =>
      if env.G_OS_WIN32 && !env.g_utf8_validate basename then
        .error ⟨.G_FILE_ERROR, G_FILE_ERROR_INVAL, "Filename pattern must be UTF-8 on Windows."⟩
      else
        let files := find_files_loop env dirname basename names []
        if files.length = 0 then
          .error ⟨.G_FILE_ERROR, G_FILE_ERROR_NOENT, "Found no files matching the pattern."⟩
        else
          .ok (g_ptr_array_sort files gst_split_file_src_array_sortfunc)
  | _, _ => .error ⟨.G_FILE_ERROR, G_FILE_ERROR_INVAL, "No filename specified."⟩

/-! ## Element state -/

/-- An open `GFileInputStream`, identified by the path it was opened on. -/
abbrev GFileInputStream := GStr

/-- Modelled from the spec: the declaration of `GstFilePart` is in
gstsplitfilesrc.h, which is not among the sources.  The fields are the four the
code reads and writes, the spec's Part: read handle, path, and the inclusive
offsets `start` and `stop` (`guint64`). -/
structure GstFilePart where
  stream : Option GFileInputStream
  path : Option GStr
  start : Nat
  stop : Nat
  deriving DecidableEq, Repr

/-- Modelled from the spec: the declaration of `GstSplitFileSrc` is in
gstsplitfilesrc.h, which is not among the sources.  The fields are those the
code uses: `location`, the array `parts` (with `num_parts` its length), the
cursor hint `cur_part` and the cancellation token `cancellable`. -/
structure GstSplitFileSrc where
  location : Option GStr
  parts : List GstFilePart
  cur_part : Nat
  cancellable : Option GCancellable
  deriving DecidableEq, Repr

/-- Field `src->num_parts`: the number of elements of `src->parts`. -/
def GstSplitFileSrc.num_parts (src : GstSplitFileSrc) : Nat :=
  src.parts.length

/-- What `g_new0 (GstFilePart, n)` fills every element with. -/
def GstFilePart.zero : GstFilePart :=
  { stream := none, path := none, start := 0, stop := 0 }

/-- Reference-count events on the objects the element owns. -/
inductive RefEvent
  /-- Successful `g_file_read`: a new stream holding one reference. -/
  | stream_new (s : GFileInputStream)
  /-- Call `g_object_unref (stream)`: the stream is closed. -/
  | stream_unref (s : GFileInputStream)
  /-- Call `g_cancellable_new ()`. -/
  | cancellable_new
  /-- Call `g_object_unref (src->cancellable)` with the value the field held;
  `none` is a release of an absent object. -/
  | cancellable_unref (c : Option GCancellable)
  deriving DecidableEq, Repr

/-- The `GST_ELEMENT_ERROR (src, RESOURCE, ...)` codes the element posts. -/
inductive GstResourceError
  | OPEN_READ
  | SEEK
  | READ
  deriving DecidableEq, Repr

/-- 64-bit unsigned subtraction `a - b`. -/
def sub64 (a b : Nat) : Nat :=
  (a % 2 ^ 64 + (2 ^ 64 - b % 2 ^ 64)) % 2 ^ 64

/-- 64-bit unsigned addition `a + b`. -/
def add64 (a b : Nat) : Nat :=
  (a + b) % 2 ^ 64

/-! ## Catalog construction: `gst_split_file_src_start` -/

/-- GIO `g_file_read (file, cancel, &err)` on `g_file_new_for_path (path)`. -/
def g_file_read (env : Env) (path : GStr) (cancel : Option GCancellable) :
    Except GError GFileInputStream :=
  match g_cancellable_set_error_if_cancelled cancel with
  | some e => .error e
  | none =>
    match (env.file path).open_err with
    | some e => .error e
    | none => .ok path

/-- GIO `g_file_input_stream_query_info (stream, "standard::*", NULL, &err)`
followed by `g_file_info_get_size (info)`: the size of the file. -/
def g_file_input_stream_query_info (env : Env) (stream : GFileInputStream) :
    Except GError Nat :=
  match (env.file stream).info_err with
  | some e => .error e
  | none => .ok (env.file stream).data.length

/-- How the `for` loop of `gst_split_file_src_start` ends. -/
inductive StartLoop
  /-- All parts opened. -/
  | done (parts : List GstFilePart) (events : List RefEvent)
  /-- Left through `goto open_read_error`. -/
  | open_read_error (err : GError) (parts : List GstFilePart) (events : List RefEvent)
  /-- Left through `goto query_info_error`. -/
  | query_info_error (err : GError) (parts : List GstFilePart) (events : List RefEvent)

/-- The `for (i = 0; i < src->num_parts; ++i)` loop of
`gst_split_file_src_start`; the first argument is `files[i], files[i+1], ...`. -/
def start_loop (env : Env) (cancel : Option GCancellable) :
    List GStr → Nat → Nat → List GstFilePart → List RefEvent → StartLoop
  | [], _, _, parts, events => .done parts events
  | path :: files, i, offset, parts, events =>
    match g_file_read env path cancel with
    | .error err => .open_read_error err parts events
    | .ok stream =>
      match g_file_input_stream_query_info env stream with
      | .error err =>
        .query_info_error err parts (events ++ [.stream_new stream, .stream_unref stream])
      | .ok size =>
        start_loop env cancel files (i + 1) (add64 offset size)
          (parts.set i
            { stream := some stream, path := some path, start := offset,
              stop := sub64 (add64 offset size) 1 })
          (events ++ [.stream_new stream])

/-- What a call of `gst_split_file_src_start` leaves behind. -/
structure StartResult where
  ret : Bool
  src : GstSplitFileSrc
  events : List RefEvent
  posted : Option GstResourceError

/-- Function `gst_split_file_src_start`.  The result is `none` where the source
dereferences a `NULL` error (`files` non-`NULL` but empty, which
`gst_split_file_src_find_files` never returns). -/
def gst_split_file_src_start (env : Env) (src : GstSplitFileSrc) : Option StartResult :=
  let located : Bool :=
    match src.location with
    | some location => decide (location ≠ [])
    | none => false
  let basename := if located then src.location.map env.g_path_get_basename else none
  let dirname := if located then src.location.map env.g_path_get_dirname else none
  match gst_split_file_src_find_files env dirname basename with
  | .error err =>
    some { ret := false, src := src, events := [],
           posted := if err.code = G_IO_ERROR_CANCELLED then none else some .OPEN_READ }
  | .ok [] => none
  | .ok (file :: files) =>
    let src1 := { src with parts := List.replicate (file :: files).length GstFilePart.zero }
    match start_loop env src1.cancellable (file :: files) 0 0 src1.parts [] with
    | .done parts events =>
      some { ret := true,
             src := { src1 with parts := parts, cur_part := 0, cancellable := some ⟨false⟩ },
             events := events ++ [.cancellable_new],
             posted := none }
    | .open_read_error err parts events =>
      some { ret := false, src := { src1 with parts := parts }, events := events,
             posted := if err.code = G_IO_ERROR_CANCELLED then none else some .OPEN_READ }
    | .query_info_error err parts events =>
      some { ret := false, src := { src1 with parts := parts }, events := events,
             posted := if err.code = G_IO_ERROR_CANCELLED then none else some .OPEN_READ }

/-! ## Teardown, cancel, size -/

/-- The `for` loop of `gst_split_file_src_stop`: one `g_object_unref` for every
part whose stream is not `NULL`. -/
def stop_loop : List GstFilePart → List RefEvent
  | [] => []
  | part :: parts =>
    match part.stream with
    | some s => .stream_unref s :: stop_loop parts
    | none => stop_loop parts

/-- Function `gst_split_file_src_stop`: return value, state, and the releases
it performed. -/
def gst_split_file_src_stop (src : GstSplitFileSrc) : Bool × GstSplitFileSrc × List RefEvent :=
  (true,
   { src with parts := [], cancellable := none },
   stop_loop src.parts ++ [.cancellable_unref src.cancellable])

/-- Function `gst_split_file_src_unlock`: its body is compiled out (`#if 0`). -/
def gst_split_file_src_unlock (src : GstSplitFileSrc) : Bool × GstSplitFileSrc :=
  (true, src)

/-- Function `gst_split_file_src_get_size`: the value stored in `*size` (the
function always returns `TRUE`); `none` when `num_parts - 1` is outside the
array. -/
def gst_split_file_src_get_size (src : GstSplitFileSrc) : Option Nat :=
  match src.parts[(src.num_parts + (2 ^ 32 - 1)) % 2 ^ 32]? with
  | some part => some (add64 part.stop 1)
  | none => none

/-! ## Locating a part: `gst_split_file_src_find_part_for_offset` -/

/-- The `for` loop of `gst_split_file_src_find_part_for_offset`; the first
list is `part[0], part[1], ...` from the pointer `part` on. -/
def find_part_loop (offset : Nat) : List GstFilePart → Nat → Option Nat
  | [], _ => none
  | part :: parts, i =>
    if offset ≥ part.start ∧ offset ≤ part.stop then some i
    else find_part_loop offset parts (i + 1)

/-- Function `gst_split_file_src_find_part_for_offset`: the return value and the
content of `*part_number` afterwards. -/
def gst_split_file_src_find_part_for_offset (src : GstSplitFileSrc) (offset : Nat)
    (part_number : Nat) : Bool × Nat :=
  match find_part_loop offset src.parts 0 with
  | some i => (true, i)
  | none => (false, part_number)

/-! ## Reading: `gst_split_file_src_create` -/

/-- Result codes of `gst_split_file_src_create`. -/
inductive GstFlowReturn
  | GST_FLOW_OK
  | GST_FLOW_EOS
  | GST_FLOW_FLUSHING
  | GST_FLOW_ERROR
  deriving DecidableEq, Repr

/-- A `GstBuffer` as handed to the caller: its size (`gst_buffer_get_size`),
the bytes stored through `map.data` from the start of the buffer on, and the
two offset fields. -/
structure GstBuffer where
  size : Nat
  data : List Nat
  offset : Nat
  offset_end : Nat
  deriving DecidableEq, Repr

/-- A call into the I/O layer made by `gst_split_file_src_create`, with the
value of `src->cur_part` at the call. -/
inductive IoCall
  /-- Call `g_seekable_seek (stream, pos, G_SEEK_SET, ...)`. -/
  | seek (part : Nat) (stream : GFileInputStream) (pos : Nat)
  /-- Call `g_input_stream_read_all (stream, data, count, ...)`. -/
  | read (part : Nat) (stream : GFileInputStream) (count : Nat)
  deriving DecidableEq, Repr

/-- What a call of `gst_split_file_src_create` leaves behind: the flow return,
`*buffer` (set on `GST_FLOW_OK` only), `src->cur_part`, the I/O calls made,
the element error posted, and whether the allocated buffer was released with
`gst_buffer_unref`. -/
structure CreateResult where
  ret : GstFlowReturn
  buffer : Option GstBuffer
  cur_part : Nat
  io : List IoCall
  posted : Option GstResourceError
  buf_unref : Bool
  deriving DecidableEq, Repr

/-- GIO `g_seekable_seek (seekable, pos, G_SEEK_SET, cancel, &err)` on a file
input stream: `none` is success. -/
def g_seekable_seek (env : Env) (stream : GFileInputStream) (cancel : Option GCancellable) :
    Option GError :=
  match g_cancellable_set_error_if_cancelled cancel with
  | some e => some e
  | none => (env.file stream).seek_err

/-- GIO `g_input_stream_read_all (stream, data, count, &read, cancel, &err)` on
a stream positioned at `pos`: the bytes stored, which are `count` bytes or all
that is left before the end of the file. -/
def g_input_stream_read_all (env : Env) (stream : GFileInputStream) (pos count : Nat)
    (cancel : Option GCancellable) : Except GError (List Nat) :=
  match g_cancellable_set_error_if_cancelled cancel with
  | some e => .error e
  | none =>
    match (env.file stream).read_err with
    | some e => .error e
    | none => .ok (((env.file stream).data.drop pos).take count)

/-- The `while (size > 0)` loop of `gst_split_file_src_create` and the code
after it.  `buf_offset` is `GST_BUFFER_OFFSET (buf)`, `buf_size` the size the
buffer was allocated with; `rest` holds `parts[cur_idx + 1], ...`, `cur` is the
local copy `cur_part`, `cur_idx` is `src->cur_part`, `data` the bytes stored so
far. -/
def create_loop (env : Env) (num_parts : Nat) (cancel : Option GCancellable)
    (buf_offset buf_size : Nat) (rest : List GstFilePart) (cur_idx : Nat) (cur : GstFilePart)
    (size offset : Nat) (data : List Nat) (io : List IoCall) : Option CreateResult :=
  if size = 0 then
    some { ret := .GST_FLOW_OK,
           buffer := some { size := buf_size, data := data, offset := buf_offset,
                            offset_end := offset },
           cur_part := cur_idx, io := io, posted := none, buf_unref := false }
  else
    match cur.stream with
    | none => none
    | some stream =>
      let read_offset := sub64 offset cur.start
      let io := io ++ [.seek cur_idx stream read_offset]
      match g_seekable_seek env stream cancel with
      | some err =>
        if err.code = G_IO_ERROR_CANCELLED then
          some { ret := .GST_FLOW_FLUSHING, buffer := none, cur_part := cur_idx, io := io,
                 posted := none, buf_unref := true }
        else
          some { ret := .GST_FLOW_ERROR, buffer := none, cur_part := cur_idx, io := io,
                 posted := some .SEEK, buf_unref := true }
      | none =>
        let bytes_to_end_of_part := sub64 (add64 (sub64 cur.stop cur.start) 1) read_offset
        let to_read := (min size bytes_to_end_of_part) % 2 ^ 32
        let io := io ++ [.read cur_idx stream to_read]
        match g_input_stream_read_all env stream read_offset to_read cancel with
        | .error err =>
          if err.code = G_IO_ERROR_CANCELLED then
            some { ret := .GST_FLOW_FLUSHING, buffer := none, cur_part := cur_idx, io := io,
                   posted := none, buf_unref := true }
          else
            some { ret := .GST_FLOW_ERROR, buffer := none, cur_part := cur_idx, io := io,
                   posted := some .READ, buf_unref := true }
        | .ok bytes =>
          let read := bytes.length
          let data := data ++ bytes
          let size := (size % 2 ^ 32 + (2 ^ 32 - read % 2 ^ 32)) % 2 ^ 32
          let offset := add64 offset read
          if size = 0 then
            some { ret := .GST_FLOW_OK,
                   buffer := some { size := buf_size, data := data, offset := buf_offset,
                                    offset_end := offset },
                   cur_part := cur_idx, io := io, posted := none, buf_unref := false }
          else if read < to_read then
            if cur_idx = (num_parts + (2 ^ 32 - 1)) % 2 ^ 32 then
              some { ret := .GST_FLOW_OK,
                     buffer := some { size := sub64 offset buf_offset, data := data,
                                      offset := buf_offset, offset_end := offset },
                     cur_part := cur_idx, io := io, posted := none, buf_unref := false }
            else
              some { ret := .GST_FLOW_ERROR, buffer := none, cur_part := cur_idx, io := io,
                     posted := some .READ, buf_unref := true }
          else
            match rest with
            | [] => none
            | next :: rest =>
              create_loop env num_parts cancel buf_offset buf_size rest (cur_idx + 1) next
                size offset data io

/-- Function `gst_split_file_src_create (basesrc, offset, size, &buffer)`.  The
result is `none` where the source reads `src->parts` outside the array or calls
through a `NULL` stream. -/
def gst_split_file_src_create (env : Env) (src : GstSplitFileSrc) (offset size : Nat) :
    Option CreateResult :=
  match src.parts[src.cur_part]? with
  | none => none
  | some cur_part =>
    if offset < cur_part.start ∨ offset > cur_part.stop then
      match gst_split_file_src_find_part_for_offset src offset src.cur_part with
      | (false, _) =>
        some { ret := .GST_FLOW_EOS, buffer := none, cur_part := src.cur_part, io := [],
               posted := none, buf_unref := false }
      | (true, found) =>
        match src.parts[found]? with
        | none => none
        | some cur_part =>
          create_loop env src.num_parts src.cancellable offset size
            (src.parts.drop (found + 1)) found cur_part size offset [] []
    else
      create_loop env src.num_parts src.cancellable offset size
        (src.parts.drop (src.cur_part + 1)) src.cur_part cur_part size offset [] []

/-- State of the element after a call of `gst_split_file_src_create`: only the
cursor hint changes. -/
def GstSplitFileSrc.after (src : GstSplitFileSrc) (r : CreateResult) : GstSplitFileSrc :=
  { src with cur_part := r.cur_part }

/-! ## Catalog invariants used in the statements -/

/-- The catalog `gst_split_file_src_start` builds for the paths `files` when
every open and size query succeeds, `offset` being the running offset. -/
def catalog (env : Env) : Nat → List GStr → List GstFilePart
  | _, [] => []
  | offset, path :: files =>
    { stream := some path, path := some path, start := offset,
      stop := sub64 (add64 offset (env.file path).data.length) 1 } ::
      catalog env (add64 offset (env.file path).data.length) files

/-- The parts cover consecutive ranges beginning at `first`, each of at least
one byte, and the end of the last one fits a `guint64`: `p.start = first`,
`p.start <= p.stop`, and the next part begins at `p.stop + 1`. -/
def ContiguousFrom : Nat → List GstFilePart → Prop
  | _, [] => True
  | first, p :: parts =>
    p.start = first ∧ p.start ≤ p.stop ∧ p.stop + 1 < 2 ^ 64 ∧ ContiguousFrom (p.stop + 1) parts

/-- The offset one past the last part of a catalog beginning at `first`. -/
def catalog_end : Nat → List GstFilePart → Nat
  | first, [] => first
  | _, p :: parts => catalog_end (p.stop + 1) parts

/-- Value of `total_size`: one past the `stop` of the last part (0 for no part). -/
def total_size (src : GstSplitFileSrc) : Nat :=
  catalog_end 0 src.parts

/-- The bytes of the file behind a part, as the environment holds them. -/
def part_bytes (env : Env) (p : GstFilePart) : List Nat :=
  match p.stream with
  | some stream => (env.file stream).data
  | none => []

/-- The concatenation of all part files in catalog order. -/
def virtual_bytes (env : Env) (parts : List GstFilePart) : List Nat :=
  (parts.map (part_bytes env)).flatten

/-- The files behind the parts are as they were when the catalog was built:
every part has an open stream on a file whose size is still the recorded
`stop - start + 1`, and seeks and reads on it do not fail. -/
def Unchanged (env : Env) (parts : List GstFilePart) : Prop :=
  ∀ p ∈ parts, ∃ stream, p.stream = some stream ∧
    (env.file stream).data.length = p.stop + 1 - p.start ∧
    (env.file stream).seek_err = none ∧ (env.file stream).read_err = none

/-- A started element whose catalog is contiguous from 0 with every part of
size at least 1, and whose cursor hint and part count are in range. -/
structure Built (src : GstSplitFileSrc) : Prop where
  contiguous : ContiguousFrom 0 src.parts
  hint : src.cur_part < src.num_parts
  count : src.num_parts < 2 ^ 32

/-! ## A concrete directory: parts `a`, `b`, `c` of 10, 10 and 5 bytes -/

/-- The files of the examples, by the last byte of the path: `a` holds bytes
0..9, `b` bytes 10..19, `c` bytes 20..24; `e` is empty; any other file cannot
be opened. -/
def example_file (path : GStr) : GFile :=
  match path.getLast? with
  | some 97 => { data := [0, 1, 2, 3, 4, 5, 6, 7, 8, 9] }
  | some 98 => { data := [10, 11, 12, 13, 14, 15, 16, 17, 18, 19] }
  | some 99 => { data := [20, 21, 22, 23, 24] }
  | some 101 => { data := [] }
  | _ => { data := [], open_err := some ⟨.G_IO_ERROR, 14, "Permission denied"⟩ }

/-- An example environment.  Directory `/d` enumerates `c`, `readme`, `a`, `b`
in that order, directory `/z` enumerates `e`, `a`, directory `/y` enumerates
`u`, `a`, directory `/n` enumerates `readme`; no other directory exists.  A
pattern matches the names of its own length (as a pattern made of `?` does);
paths are joined with `/`. -/
def example_env : Env :=
  { G_OS_WIN32 := false
    g_utf8_validate := fun _ => true
    g_path_get_basename := fun location =>
      (location.reverse.takeWhile (fun c => c != 47)).reverse
    g_path_get_dirname := fun location =>
      ((location.reverse.dropWhile (fun c => c != 47)).drop 1).reverse
    g_dir_open := fun dirname =>
      if dirname = cstr "/d" then .ok [cstr "c", cstr "readme", cstr "a", cstr "b"]
      else if dirname = cstr "/z" then .ok [cstr "e", cstr "a"]
      else if dirname = cstr "/y" then .ok [cstr "u", cstr "a"]
      else if dirname = cstr "/n" then .ok [cstr "readme"]
      else .error ⟨.G_FILE_ERROR, G_FILE_ERROR_NOENT, "No such file or directory"⟩
    pattern_match_string := fun basename name => basename.length == name.length
    g_build_filename := fun dirname name => dirname ++ [47] ++ name
    file := example_file }

/-- A freshly initialised element with the given `location`. -/
def new_src (location : Option GStr) : GstSplitFileSrc :=
  { location := location, parts := [], cur_part := 0, cancellable := none }

/-- The catalog of the example: what `gst_split_file_src_start` builds for
location `/d/?`. -/
def example_parts : List GstFilePart :=
  [ { stream := some (cstr "/d/a"), path := some (cstr "/d/a"), start := 0, stop := 9 },
    { stream := some (cstr "/d/b"), path := some (cstr "/d/b"), start := 10, stop := 19 },
    { stream := some (cstr "/d/c"), path := some (cstr "/d/c"), start := 20, stop := 24 } ]

/-- The started example element with cursor hint `hint`. -/
def example_src (hint : Nat) : GstSplitFileSrc :=
  { location := some (cstr "/d/?"), parts := example_parts, cur_part := hint,
    cancellable := some ⟨false⟩ }

/-! ## Further notions used in the statements -/

/-- The `dirname` that `gst_split_file_src_start` passes to
`gst_split_file_src_find_files`: `g_path_get_dirname (src->location)` when the
location is neither `NULL` nor empty, else `NULL`. -/
def start_dirname (env : Env) (src : GstSplitFileSrc) : Option GStr :=
  match src.location with
  | some location => if location ≠ [] then some (env.g_path_get_dirname location) else none
  | none => none

/-- The `basename` that `gst_split_file_src_start` passes to
`gst_split_file_src_find_files`. -/
def start_basename (env : Env) (src : GstSplitFileSrc) : Option GStr :=
  match src.location with
  | some location => if location ≠ [] then some (env.g_path_get_basename location) else none
  | none => none

/-- Two answers of `g_dir_open` for the same directory snapshot: the same
entries in some order, or the same failure. -/
def SameListing : Except GError (List GStr) → Except GError (List GStr) → Prop
  | .ok names, .ok names1 => names.Perm names1
  | .error e, .error e1 => e = e1
  | _, _ => False

/-- The environment `env` with the file whose path ends in byte `last`
replaced by `change` of it. -/
def with_file (env : Env) (last : Nat) (change : GFile → GFile) : Env :=
  { env with
    file := fun path =>
      if path.getLast? = some last then change (env.file path) else env.file path }

/-- The directory `/d` of the example enumerated in another order. -/
def example_dir_open_permuted (dirname : GStr) : Except GError (List GStr) :=
  if dirname = cstr "/d" then .ok [cstr "a", cstr "b", cstr "readme", cstr "c"]
  else example_env.g_dir_open dirname

/-! ## Notions on the I/O trace of a read -/

/-- The calls of a read stay inside the parts: the trace is a sequence of
iterations, each a seek followed by a read on the same part (a last seek may
stand alone when it failed); in every iteration the seek position
`read_offset` is at most the recorded size `stop + 1 - start` of the part, and
the count `to_read` is the smaller of the bytes still to read and the bytes
from `read_offset` to the recorded end of the part; `size` is the number of
bytes still to read when the iteration begins. -/
def trace_in_bounds (parts : List GstFilePart) : Nat → List IoCall → Prop
  | _, [] => True
  | _, [.seek i _ pos] => ∃ part, parts[i]? = some part ∧ pos ≤ part.stop + 1 - part.start
  | size, .seek i _ pos :: .read j _ count :: calls =>
    j = i ∧
    (∃ part, parts[i]? = some part ∧ pos ≤ part.stop + 1 - part.start ∧
      count = min size (part.stop + 1 - part.start - pos)) ∧
    trace_in_bounds parts (size - count) calls
  | _, _ => False

/-- The sum of the counts `to_read` of the reads of a trace: an upper bound of
the number of bytes stored in the buffer. -/
def requested : List IoCall → Nat
  | [] => 0
  | .seek _ _ _ :: calls => requested calls
  | .read _ _ count :: calls => count + requested calls

end SplitFileSrc

namespace AudioPanorama

/-!
## audiopanorama: the simple 16-bit transforms and the choice of the transform

A shallow embedding of the parts of `gst/audiofx/audiopanorama.c` that select
the processing function and that pan 16-bit samples with the simple method.

* `gint`, `glong` and `gint16` values are integers; the cast `(gint16)` reduces
  to the 16-bit range;
* the arithmetic of `gdouble` is a parameter of the embedding (`GDouble`): the
  transforms are written against the operations the source uses, whatever
  rounding they perform;
* the sample arrays are lists; reading past the end of the input has no
  defined result (`none`).
-/

/-- The processing functions of the element. -/
inductive GstAudioPanoramaProcessFunc
  | gst_audio_panorama_transform_m2s_int
  | gst_audio_panorama_transform_m2s_int_simple
  | gst_audio_panorama_transform_m2s_float
  | gst_audio_panorama_transform_m2s_float_simple
  | gst_audio_panorama_transform_s2s_int
  | gst_audio_panorama_transform_s2s_int_simple
  | gst_audio_panorama_transform_s2s_float
  | gst_audio_panorama_transform_s2s_float_simple
  deriving DecidableEq, Repr

def METHOD_PSYCHOACOUSTIC : Int := 0

def METHOD_SIMPLE : Int := 1

def NUM_METHODS : Int := 2

/-- Table with processing functions: `[channels][format][method]`. -/
def panorama_process_functions : List (List (List GstAudioPanoramaProcessFunc)) :=
  [ [ [.gst_audio_panorama_transform_m2s_int, .gst_audio_panorama_transform_m2s_int_simple],
      [.gst_audio_panorama_transform_m2s_float,
       .gst_audio_panorama_transform_m2s_float_simple] ],
    [ [.gst_audio_panorama_transform_s2s_int, .gst_audio_panorama_transform_s2s_int_simple],
      [.gst_audio_panorama_transform_s2s_float,
       .gst_audio_panorama_transform_s2s_float_simple] ] ]

/-- The element `xs[i]` of a C array for a `gint` index; outside the array
there is no defined result. -/
def at_index {α : Type} (xs : List α) (i : Int) : Option α :=
  if i < 0 then none else xs[i.toNat]?

/-- The element `table[c][f][m]` of a three-dimensional C array. -/
def at_index3 {α : Type} (table : List (List (List α))) (c f m : Int) : Option α :=
  (at_index table c).bind fun plane => (at_index plane f).bind fun row => at_index row m

/-- The fields of the element read or written by the embedded functions. -/
structure GstAudioPanorama where
  method : Int
  process : Option GstAudioPanoramaProcessFunc
  deriving DecidableEq, Repr

/-- The fields of `GstAudioInfo` read by `set_process_function`. -/
structure GstAudioInfo where
  channels : Int
  is_float : Bool
  deriving DecidableEq, Repr

/-- Embedding of `gst_audio_panorama_set_process_function`: the returned
`gboolean` and the element afterwards. `channels - 1` is computed in `gint`;
where it leaves the range of `gint`, or where the table is indexed outside its
bounds, there is no defined result. -/
def gst_audio_panorama_set_process_function (filter : GstAudioPanorama)
    (info : GstAudioInfo) : Option (Bool × GstAudioPanorama) :=
  if info.channels - 1 < -(2 ^ 31) ∨ 2 ^ 31 ≤ info.channels then none
  else
    let channel_index := info.channels - 1
    if channel_index > 1 ∨ channel_index < 0 then
      some (false, { filter with process := none })
    else
      let format_index : Int := if info.is_float then 1 else 0
      let method_index := filter.method
      let method_index :=
        if method_index ≥ NUM_METHODS ∨ method_index < 0 then METHOD_PSYCHOACOUSTIC
        else method_index
      match at_index3 panorama_process_functions channel_index format_index method_index with
      | none => none
      | some f => some (true, { filter with process := some f })

/-- The operations on `gdouble` used by the simple transforms: the conversions
`(gdouble) x` and `(glong) d`, the product, sum and difference, the constants
`0.0` and `1.0`, and the comparison `>`. -/
structure GDouble (D : Type) where
  of_int : Int → D
  to_glong : D → Int
  mul : D → D → D
  add : D → D → D
  sub : D → D → D
  zero : D
  one : D
  gt : D → D → Bool

def G_MININT16 : Int := -32768

def G_MAXINT16 : Int := 32767

/-- The GLib macro `CLAMP (x, low, high)`. -/
def CLAMP (x low high : Int) : Int :=
  if x > high then high else if x < low then low else x

/-- The cast `(gint16) x` of a `glong`. -/
def to_gint16 (x : Int) : Int :=
  (x + 32768) % 65536 - 32768

/-- The loop `for (i = 0; i < num_samples; i++)` of a mono to stereo transform:
each pass reads one sample and writes the two that `body` computes. -/
def m2s_loop (body : Int → Int × Int) : Nat → List Int → Option (List Int)
  | 0, _ => some []
  | _ + 1, [] => none
  | n + 1, s :: idata =>
    (m2s_loop body n idata).map fun odata => (body s).1 :: (body s).2 :: odata

/-- The loop of a stereo to stereo transform: each pass reads the left and the
right sample and writes the two that `body` computes. -/
def s2s_loop (body : Int → Int → Int × Int) : Nat → List Int → Option (List Int)
  | 0, _ => some []
  | n + 1, l :: r :: idata =>
    (s2s_loop body n idata).map fun odata => (body l r).1 :: (body l r).2 :: odata
  | _ + 1, _ => none

/-- Embedding of `gst_audio_panorama_transform_m2s_int_simple`; `panorama` is
`filter->panorama` as a `gdouble`, the result is what `odata` holds. -/
def gst_audio_panorama_transform_m2s_int_simple {D : Type} (fp : GDouble D) (panorama : D)
    (idata : List Int) (num_samples : Nat) : Option (List Int) :=
  if fp.gt panorama fp.zero then
    let pan := fp.sub fp.one panorama
    m2s_loop (fun sample =>
      let rval := sample
      let lval := fp.to_glong (fp.mul (fp.of_int rval) pan)
      (to_gint16 (CLAMP lval G_MININT16 G_MAXINT16), to_gint16 rval)) num_samples idata
  else
    let pan := fp.add fp.one panorama
    m2s_loop (fun sample =>
      let lval := sample
      let rval := fp.to_glong (fp.mul (fp.of_int lval) pan)
      (to_gint16 lval, to_gint16 (CLAMP rval G_MININT16 G_MAXINT16))) num_samples idata

/-- Embedding of `gst_audio_panorama_transform_s2s_int_simple`. -/
def gst_audio_panorama_transform_s2s_int_simple {D : Type} (fp : GDouble D) (panorama : D)
    (idata : List Int) (num_samples : Nat) : Option (List Int) :=
  if fp.gt panorama fp.zero then
    let pan := fp.sub fp.one panorama
    s2s_loop (fun left right =>
      let lival := fp.of_int left
      let rival := fp.of_int right
      let lval := fp.to_glong (fp.mul lival pan)
      let rval := fp.to_glong rival
      (to_gint16 (CLAMP lval G_MININT16 G_MAXINT16), to_gint16 rval)) num_samples idata
  else
    let pan := fp.add fp.one panorama
    s2s_loop (fun left right =>
      let lival := fp.of_int left
      let rival := fp.of_int right
      let lval := fp.to_glong lival
      let rval := fp.to_glong (fp.mul rival pan)
      (to_gint16 lval, to_gint16 (CLAMP rval G_MININT16 G_MAXINT16))) num_samples idata

/-- An arithmetic of `gdouble` without rounding, over the rationals: `(glong)`
truncates towards zero. -/
def exact_double : GDouble ℚ where
  of_int := fun x => (x : ℚ)
  to_glong := fun d => Int.tdiv d.num d.den
  mul := fun a b => a * b
  add := fun a b => a + b
  sub := fun a b => a - b
  zero := 0
  one := 1
  gt := fun a b => decide (a > b)

end AudioPanorama

namespace SplitFileSrc

/-! ## The order of `strcmp` -/

theorem strcmp_total (a b : GStr) : strcmp a b ≤ 0 ∨ strcmp b a ≤ 0 := by
  induction a generalizing b with
  | nil => cases b <;> simp [strcmp]
  | cons x xs ih =>
    cases b with
    | nil => simp [strcmp]
    | cons y ys =>
      simp only [strcmp]
      rcases Nat.lt_trichotomy x y with h | h | h
      · simp [h]
      · subst h; simpa using ih ys
      · right; simp [h]

theorem strcmp_antisymm (a b : GStr) (h1 : strcmp a b ≤ 0) (h2 : strcmp b a ≤ 0) : a = b := by
  induction a generalizing b with
  | nil =>
    cases b with
    | nil => rfl
    | cons y ys => simp [strcmp] at h2
  | cons x xs ih =>
    cases b with
    | nil => simp [strcmp] at h1
    | cons y ys =>
      simp only [strcmp] at h1 h2
      rcases Nat.lt_trichotomy x y with h | h | h
      · have : ¬ y < x := by omega
        simp [h, this] at h2
      · subst h; simp at h1 h2; rw [ih ys h1 h2]
      · have : ¬ x < y := by omega
        simp [h, this] at h1

theorem strcmp_trans (a b c : GStr) (h1 : strcmp a b ≤ 0) (h2 : strcmp b c ≤ 0) :
    strcmp a c ≤ 0 := by
  induction a generalizing b c with
  | nil => cases c <;> simp [strcmp]
  | cons x xs ih =>
    cases b with
    | nil => simp [strcmp] at h1
    | cons y ys =>
      cases c with
      | nil => simp [strcmp] at h2
      | cons z zs =>
        simp only [strcmp] at h1 h2 ⊢
        by_cases hxy : x < y
        · by_cases hyz : y < z
          · have : x < z := by omega
            simp [this]
          · by_cases hzy : z < y
            · simp [hyz, hzy] at h2
            · have : y = z := by omega
              subst this; simp [hxy]
        · by_cases hyx : y < x
          · simp [hxy, hyx] at h1
          · have : x = y := by omega
            subst this
            simp only [hxy, if_false] at h1
            by_cases hxz : x < z
            · simp [hxz]
            · by_cases hzx : z < x
              · simp [hxz, hzx] at h2
              · simp only [hxz, hzx, if_false] at h2 ⊢
                exact ih ys zs h1 h2

/-- The array `g_ptr_array_sort` returns is in ascending `strcmp` order. -/
theorem g_ptr_array_sort_sorted (files : List GStr) :
    List.Sorted (fun a b => gst_split_file_src_array_sortfunc a b ≤ 0)
      (g_ptr_array_sort files gst_split_file_src_array_sortfunc) := by
  haveI : IsTotal GStr (fun a b => gst_split_file_src_array_sortfunc a b ≤ 0) :=
    ⟨fun a b => strcmp_total a b⟩
  haveI : IsTrans GStr (fun a b => gst_split_file_src_array_sortfunc a b ≤ 0) :=
    ⟨fun a b c => strcmp_trans a b c⟩
  exact List.sorted_insertionSort _ files

/-- The array `g_ptr_array_sort` returns is a rearrangement of its input. -/
theorem g_ptr_array_sort_perm (files : List GStr) :
    (g_ptr_array_sort files gst_split_file_src_array_sortfunc).Perm files :=
  List.perm_insertionSort _ files

/-- Any rearrangement of `files` in ascending `strcmp` order is the array
`g_ptr_array_sort` returns: the model does not depend on the sorting routine. -/
theorem g_ptr_array_sort_unique (files sorted : List GStr) (hp : sorted.Perm files)
    (hs : List.Sorted (fun a b => gst_split_file_src_array_sortfunc a b ≤ 0) sorted) :
    sorted = g_ptr_array_sort files gst_split_file_src_array_sortfunc := by
  haveI : IsAntisymm GStr (fun a b => gst_split_file_src_array_sortfunc a b ≤ 0) :=
    ⟨fun a b => strcmp_antisymm a b⟩
  exact List.eq_of_perm_of_sorted (hp.trans (g_ptr_array_sort_perm files).symm) hs
    (g_ptr_array_sort_sorted files)

/-! ## Discovery -/

/-- The directory loop collects, in enumeration order, the joined paths of the
matching entries. -/
theorem find_files_loop_eq (env : Env) (dirname basename : GStr) (names files : List GStr) :
    find_files_loop env dirname basename names files =
      files ++ (names.filter (env.pattern_match_string basename)).map
        (env.g_build_filename dirname) := by
  induction names generalizing files with
  | nil => simp [find_files_loop]
  | cons name names ih =>
    by_cases h : env.pattern_match_string basename name = true
    · simp [find_files_loop, h, ih]
    · simp [find_files_loop, h, ih]

/-- What a successful `gst_split_file_src_find_files` returns. -/
theorem find_files_ok (env : Env) (dirname basename : Option GStr) (files : List GStr)
    (h : gst_split_file_src_find_files env dirname basename = .ok files) :
    ∃ d b names, dirname = some d ∧ basename = some b ∧ env.g_dir_open d = .ok names ∧
      files = g_ptr_array_sort
        ((names.filter (env.pattern_match_string b)).map (env.g_build_filename d))
        gst_split_file_src_array_sortfunc ∧
      (names.filter (env.pattern_match_string b)) ≠ [] := by
  unfold gst_split_file_src_find_files at h
  split at h
  · rename_i d b
    split at h
    · simp at h
    · rename_i names hdir
      refine ⟨d, b, names, rfl, rfl, hdir, ?_⟩
      simp only [find_files_loop_eq, List.nil_append] at h
      split at h
      · simp at h
      · split at h
        · simp at h
        · rename_i hlen
          injection h with h
          refine ⟨h.symm, ?_⟩
          intro hnil
          simp [hnil] at hlen
  · simp at h

/-- C9: with a directory that opens, a valid pattern and at least one matching
entry, `gst_split_file_src_find_files` returns a non-empty path list in which
every adjacent pair is in ascending byte-wise order:
`strcmp (result[i], result[i+1]) <= 0`. -/
theorem find_files_sorted (env : Env) (dirname basename : GStr) (names : List GStr)
    (hdir : env.g_dir_open dirname = .ok names)
    (hutf8 : env.G_OS_WIN32 = true → env.g_utf8_validate basename = true)
    (hmatch : ∃ name ∈ names, env.pattern_match_string basename name = true) :
    ∃ files, gst_split_file_src_find_files env (some dirname) (some basename) = .ok files ∧
      files ≠ [] ∧
      ∀ (i : Nat) (h : i + 1 < files.length),
        strcmp (files.get ⟨i, by omega⟩) (files.get ⟨i + 1, h⟩) ≤ 0 := by
  obtain ⟨name, hmem, hname⟩ := hmatch
  have hne : (names.filter (env.pattern_match_string basename)).map
      (env.g_build_filename dirname) ≠ [] := by
    intro h
    have : name ∈ names.filter (env.pattern_match_string basename) :=
      List.mem_filter.mpr ⟨hmem, hname⟩
    rw [List.map_eq_nil_iff] at h
    rw [h] at this
    simp at this
  have hw : (env.G_OS_WIN32 && !env.g_utf8_validate basename) = false := by
    cases hW : env.G_OS_WIN32
    · simp
    · simp [hutf8 hW]
  refine ⟨g_ptr_array_sort ((names.filter (env.pattern_match_string basename)).map
      (env.g_build_filename dirname)) gst_split_file_src_array_sortfunc, ?_, ?_, ?_⟩
  · simp only [gst_split_file_src_find_files, hdir, hw, find_files_loop_eq, List.nil_append]
    have hlen : ¬ ((names.filter (env.pattern_match_string basename)).map
        (env.g_build_filename dirname)).length = 0 := by
      intro h0
      exact hne (List.length_eq_zero.mp h0)
    simp only [hlen, if_false]
    simp
  · intro h
    have hp := g_ptr_array_sort_perm ((names.filter (env.pattern_match_string basename)).map
      (env.g_build_filename dirname))
    rw [h] at hp
    exact hne hp.symm.eq_nil
  · intro i h
    have hs := g_ptr_array_sort_sorted ((names.filter (env.pattern_match_string basename)).map
      (env.g_build_filename dirname))
    have hc := List.Sorted.rel_get_of_lt hs (a := ⟨i, by omega⟩) (b := ⟨i + 1, h⟩)
      (by simp [Fin.lt_def])
    exact hc

/-- Witness of C9 on directory `/d` with pattern `?`. -/
theorem find_files_sorted_witness :
    ∃ files, gst_split_file_src_find_files example_env (some (cstr "/d")) (some (cstr "?"))
        = .ok files ∧ files ≠ [] ∧
      ∀ (i : Nat) (h : i + 1 < files.length),
        strcmp (files.get ⟨i, by omega⟩) (files.get ⟨i + 1, h⟩) ≤ 0 :=
  find_files_sorted example_env (cstr "/d") (cstr "?")
    [cstr "c", cstr "readme", cstr "a", cstr "b"] rfl (by decide)
    ⟨cstr "c", by decide, by decide⟩

/-- C10: the paths `gst_split_file_src_find_files` returns are, as a multiset,
exactly the directory entries whose name matches the pattern, each joined with
the directory name; every returned path comes from a matching entry, and
(the join being injective) the path of a non-matching entry is not returned. -/
theorem find_files_content (env : Env) (dirname basename : GStr) (names files : List GStr)
    (hdir : env.g_dir_open dirname = .ok names)
    (h : gst_split_file_src_find_files env (some dirname) (some basename) = .ok files) :
    files.Perm ((names.filter (env.pattern_match_string basename)).map
        (env.g_build_filename dirname)) ∧
      (∀ path ∈ files, ∃ name ∈ names, env.pattern_match_string basename name = true ∧
        path = env.g_build_filename dirname name) ∧
      (Function.Injective (env.g_build_filename dirname) →
        ∀ name ∈ names, env.pattern_match_string basename name = false →
          env.g_build_filename dirname name ∉ files) := by
  obtain ⟨d, b, names1, hd, hb, hdir1, hfiles, -⟩ := find_files_ok env _ _ files h
  injection hd with hd
  injection hb with hb
  subst hd hb
  rw [hdir] at hdir1
  injection hdir1 with hn
  subst hn
  have hperm : files.Perm ((names.filter (env.pattern_match_string basename)).map
      (env.g_build_filename dirname)) := by
    rw [hfiles]; exact g_ptr_array_sort_perm _
  have hfrom : ∀ path ∈ files, ∃ name ∈ names, env.pattern_match_string basename name = true ∧
      path = env.g_build_filename dirname name := by
    intro path hp
    have := (hperm.mem_iff).mp hp
    obtain ⟨name, hname, rfl⟩ := List.mem_map.mp this
    obtain ⟨hin, hm⟩ := List.mem_filter.mp hname
    exact ⟨name, hin, hm, rfl⟩
  refine ⟨hperm, hfrom, ?_⟩
  intro hinj name _ hno hin
  obtain ⟨name1, _, hm, heq⟩ := hfrom _ hin
  have := hinj heq
  subst this
  rw [hm] at hno
  exact Bool.noConfusion hno

/-- Witness of C10 on directory `/d` with pattern `?`: entries `c`, `readme`,
`a`, `b` give the paths `/d/a`, `/d/b`, `/d/c`. -/
theorem find_files_content_witness :
    gst_split_file_src_find_files example_env (some (cstr "/d")) (some (cstr "?")) =
        .ok [cstr "/d/a", cstr "/d/b", cstr "/d/c"] ∧
      [cstr "/d/a", cstr "/d/b", cstr "/d/c"].Perm
        (([cstr "c", cstr "readme", cstr "a", cstr "b"].filter
          (example_env.pattern_match_string (cstr "?"))).map
          (example_env.g_build_filename (cstr "/d"))) :=
  ⟨rfl, (find_files_content example_env (cstr "/d") (cstr "?")
    [cstr "c", cstr "readme", cstr "a", cstr "b"] [cstr "/d/a", cstr "/d/b", cstr "/d/c"]
    rfl rfl).1⟩

/-! ## Catalog construction -/

theorem g_file_read_ok (env : Env) (path : GStr) (cancel : Option GCancellable)
    (stream : GFileInputStream) (h : g_file_read env path cancel = .ok stream) :
    stream = path := by
  unfold g_file_read at h
  split at h
  · simp at h
  · split at h
    · simp at h
    · injection h with h; exact h.symm

theorem query_info_ok (env : Env) (stream : GFileInputStream) (size : Nat)
    (h : g_file_input_stream_query_info env stream = .ok size) :
    size = (env.file stream).data.length := by
  unfold g_file_input_stream_query_info at h
  split at h
  · simp at h
  · injection h with h; exact h.symm

/-- When the loop of `gst_split_file_src_start` runs to its end, it has
replaced the zeroed elements by the catalog of the paths. -/
theorem start_loop_done (env : Env) (cancel : Option GCancellable) :
    ∀ (files : List GStr) (i offset : Nat) (built zeros : List GstFilePart)
      (events : List RefEvent) (parts : List GstFilePart) (events1 : List RefEvent),
      built.length = i → files.length ≤ zeros.length →
      start_loop env cancel files i offset (built ++ zeros) events = .done parts events1 →
      parts = built ++ catalog env offset files ++ zeros.drop files.length := by
  intro files
  induction files with
  | nil =>
    intro i offset built zeros events parts events1 _ _ h
    simp only [start_loop] at h
    injection h with h1 h2
    simp [catalog, ← h1]
  | cons path files ih =>
    intro i offset built zeros events parts events1 hi hlen h
    cases zeros with
    | nil => simp at hlen
    | cons z zs =>
      simp only [start_loop] at h
      split at h
      · simp at h
      · rename_i stream hopen
        have hs := g_file_read_ok env path cancel stream hopen
        subst hs
        split at h
        · simp at h
        · rename_i size hq
          have hsz := query_info_ok env _ size hq
          subst hsz
          have hset : ∀ x : GstFilePart, (built ++ z :: zs).set i x = (built ++ [x]) ++ zs := by
            intro x
            rw [List.set_append_right _ _ (by omega)]
            simp [hi]
          rw [hset] at h
          have := ih (i + 1) _ _ zs _ parts events1 (by simp [hi])
            (by simpa using hlen) h
          rw [this]
          simp [catalog]

/-- A successful `gst_split_file_src_start` leaves the catalog of the
discovered paths, cursor hint 0 and a fresh cancellation token. -/
theorem start_ok (env : Env) (src : GstSplitFileSrc) (r : StartResult)
    (h : gst_split_file_src_start env src = some r) (hret : r.ret = true) :
    ∃ files, files ≠ [] ∧ r.src.parts = catalog env 0 files ∧ r.src.cur_part = 0 ∧
      r.src.cancellable = some ⟨false⟩ ∧ r.src.location = src.location := by
  unfold gst_split_file_src_start at h
  simp only at h
  split at h
  · injection h with h; subst h; simp at hret
  · simp at h
  · rename_i file files _
    split at h
    · rename_i parts events hloop
      injection h with h
      subst h
      have := start_loop_done env src.cancellable (file :: files) 0 0 []
        (List.replicate (file :: files).length GstFilePart.zero) [] parts events rfl
        (by simp) (by simpa using hloop)
      refine ⟨file :: files, by simp, ?_, rfl, rfl, rfl⟩
      simp only [this]
      simp
    · injection h with h; subst h; simp at hret
    · injection h with h; subst h; simp at hret

theorem stop_succ (offset size : Nat) :
    (sub64 (add64 offset size) 1 + 1) % 2 ^ 64 = add64 offset size := by
  unfold sub64 add64
  omega

theorem catalog_length (env : Env) (offset : Nat) (files : List GStr) :
    (catalog env offset files).length = files.length := by
  induction files generalizing offset with
  | nil => rfl
  | cons path files ih => simp [catalog, ih]

/-- In the catalog built from offset `offset`, the first part starts at
`offset` and each part starts one past the `stop` of its predecessor, in
64-bit arithmetic. -/
theorem catalog_adjacent (env : Env) :
    ∀ (files : List GStr) (offset i : Nat) (h : i + 1 < (catalog env offset files).length),
      (((catalog env offset files).get ⟨i, by omega⟩).stop + 1) % 2 ^ 64 =
        ((catalog env offset files).get ⟨i + 1, h⟩).start := by
  intro files
  induction files with
  | nil => intro offset i h; simp [catalog] at h
  | cons path files ih =>
    intro offset i h
    cases files with
    | nil => simp [catalog] at h
    | cons path2 files2 =>
      cases i with
      | zero =>
        simp only [catalog, List.get_eq_getElem, List.getElem_cons_zero,
          List.getElem_cons_succ]
        exact stop_succ _ _
      | succ j =>
        have hj : j + 1 < (catalog env (add64 offset (env.file path).data.length)
            (path2 :: files2)).length := by
          simp only [catalog, List.length_cons] at h ⊢
          omega
        have := ih (add64 offset (env.file path).data.length) j hj
        simpa [catalog] using this

theorem catalog_head (env : Env) (offset : Nat) (files : List GStr) (hne : files ≠ []) :
    ∃ first, (catalog env offset files).head? = some first ∧ first.start = offset := by
  cases files with
  | nil => exact absurd rfl hne
  | cons path files => exact ⟨_, rfl, rfl⟩

/-- The sizes of the files behind the parts of a catalog are the sizes of the
files it was built from. -/
theorem catalog_sizes (env : Env) (offset : Nat) (files : List GStr) :
    (catalog env offset files).map (fun p => (part_bytes env p).length) =
      files.map (fun path => (env.file path).data.length) := by
  induction files generalizing offset with
  | nil => rfl
  | cons path files ih =>
    rw [catalog, List.map_cons, ih, List.map_cons]
    rfl

/-- One past the `stop` of the last part is, in 64-bit arithmetic, the running
offset plus the sum of the file sizes. -/
theorem catalog_last (env : Env) :
    ∀ (files : List GStr) (offset : Nat), files ≠ [] →
      ∃ last, (catalog env offset files).getLast? = some last ∧
        (last.stop + 1) % 2 ^ 64 =
          (offset + (files.map (fun path => (env.file path).data.length)).sum) % 2 ^ 64 := by
  intro files
  induction files with
  | nil => intro offset hne; exact absurd rfl hne
  | cons path files ih =>
    intro offset _
    cases files with
    | nil =>
      refine ⟨_, rfl, ?_⟩
      simp only [List.map_cons, List.map_nil, List.sum_cons, List.sum_nil, Nat.add_zero]
      exact stop_succ _ _
    | cons path2 files2 =>
      obtain ⟨last, hlast, hsum⟩ := ih (add64 offset (env.file path).data.length) (by simp)
      refine ⟨last, ?_, ?_⟩
      · simp only [catalog, List.getLast?_cons_cons] at hlast ⊢
        exact hlast
      · rw [hsum]
        simp only [List.map_cons, List.sum_cons, add64]
        omega

theorem getLast_index (parts : List GstFilePart) (hpos : 0 < parts.length)
    (hlt : parts.length < 2 ^ 32) :
    parts[(parts.length + (2 ^ 32 - 1)) % 2 ^ 32]? = parts.getLast? := by
  have : (parts.length + (2 ^ 32 - 1)) % 2 ^ 32 = parts.length - 1 := by omega
  rw [this, List.getLast?_eq_getElem?]

/-- C5: in every catalog produced by a successful `gst_split_file_src_start`,
`parts[0].start == 0` and `parts[i].stop + 1 == parts[i+1].start` for every
`i` in `[0, num_parts - 1)`, in 64-bit unsigned arithmetic. -/
theorem start_contiguity (env : Env) (src : GstSplitFileSrc) (r : StartResult)
    (h : gst_split_file_src_start env src = some r) (hret : r.ret = true) :
    (∃ first, r.src.parts.head? = some first ∧ first.start = 0) ∧
      ∀ (i : Nat) (hi : i + 1 < r.src.num_parts),
        ((r.src.parts.get ⟨i, by unfold GstSplitFileSrc.num_parts at hi; omega⟩).stop + 1)
          % 2 ^ 64 = (r.src.parts.get ⟨i + 1, hi⟩).start := by
  obtain ⟨files, hne, hparts, -⟩ := start_ok env src r h hret
  have key : ∀ parts : List GstFilePart, parts = catalog env 0 files →
      (∃ first, parts.head? = some first ∧ first.start = 0) ∧
      ∀ (i : Nat) (hi : i + 1 < parts.length),
        ((parts.get ⟨i, by omega⟩).stop + 1) % 2 ^ 64 = (parts.get ⟨i + 1, hi⟩).start := by
    intro parts hp
    subst hp
    exact ⟨catalog_head env 0 files hne, fun i hi => catalog_adjacent env files 0 i hi⟩
  exact key r.src.parts hparts

/-- Witness of C5: the catalog built for `/d/?` (parts of 10, 10 and 5 bytes). -/
theorem start_contiguity_witness :
    (∃ first, (example_src 0).parts.head? = some first ∧ first.start = 0) ∧
      ∀ (i : Nat) (hi : i + 1 < (example_src 0).num_parts),
        (((example_src 0).parts.get
            ⟨i, by unfold GstSplitFileSrc.num_parts at hi; omega⟩).stop + 1)
          % 2 ^ 64 = ((example_src 0).parts.get ⟨i + 1, hi⟩).start :=
  start_contiguity example_env (new_src (some (cstr "/d/?")))
    { ret := true, src := example_src 0,
      events := [.stream_new (cstr "/d/a"), .stream_new (cstr "/d/b"),
        .stream_new (cstr "/d/c"), .cancellable_new],
      posted := none } rfl rfl

/-- C6: after a successful `gst_split_file_src_start`,
`gst_split_file_src_get_size` reports `parts[n-1].stop + 1`, and that value is
the sum of the sizes of the part files, as a 64-bit unsigned value. -/
theorem get_size_additive (env : Env) (src : GstSplitFileSrc) (r : StartResult)
    (h : gst_split_file_src_start env src = some r) (hret : r.ret = true)
    (hcount : r.src.num_parts < 2 ^ 32) :
    ∃ last, r.src.parts.getLast? = some last ∧
      gst_split_file_src_get_size r.src = some ((last.stop + 1) % 2 ^ 64) ∧
      (last.stop + 1) % 2 ^ 64 =
        ((r.src.parts.map (fun p => (part_bytes env p).length)).sum) % 2 ^ 64 := by
  obtain ⟨files, hne, hparts, -⟩ := start_ok env src r h hret
  obtain ⟨last, hlast, hsum⟩ := catalog_last env files 0 hne
  have hpos : 0 < r.src.parts.length := by
    rw [hparts, catalog_length]
    exact List.length_pos.mpr hne
  refine ⟨last, by rw [hparts]; exact hlast, ?_, ?_⟩
  · unfold gst_split_file_src_get_size
    unfold GstSplitFileSrc.num_parts at hcount ⊢
    rw [getLast_index _ hpos hcount, hparts, hlast]
    rfl
  · rw [hsum, hparts, catalog_sizes]
    simp

/-- Witness of C6: for parts of 10, 10 and 5 bytes the size reported is 25. -/
theorem get_size_additive_witness :
    gst_split_file_src_get_size (example_src 0) = some 25 ∧
      ∃ last, (example_src 0).parts.getLast? = some last ∧
        gst_split_file_src_get_size (example_src 0) = some ((last.stop + 1) % 2 ^ 64) ∧
        (last.stop + 1) % 2 ^ 64 =
          (((example_src 0).parts.map (fun p => (part_bytes example_env p).length)).sum)
            % 2 ^ 64 :=
  ⟨by decide,
   get_size_additive example_env (new_src (some (cstr "/d/?")))
    { ret := true, src := example_src 0,
      events := [.stream_new (cstr "/d/a"), .stream_new (cstr "/d/b"),
        .stream_new (cstr "/d/c"), .cancellable_new],
      posted := none } rfl rfl (by decide)⟩

/-- When every file holds at least one byte and the sizes do not overflow 64
bits, the catalog is contiguous from the running offset, ends at the running
offset plus the sum of the sizes, and records for every part the size of its
file. -/
theorem catalog_spec (env : Env) :
    ∀ (files : List GStr) (offset : Nat),
      (∀ path ∈ files, 1 ≤ (env.file path).data.length) →
      offset + (files.map (fun path => (env.file path).data.length)).sum < 2 ^ 64 →
      ContiguousFrom offset (catalog env offset files) ∧
      catalog_end offset (catalog env offset files) =
        offset + (files.map (fun path => (env.file path).data.length)).sum ∧
      ∀ p ∈ catalog env offset files, ∃ path ∈ files, p.stream = some path ∧
        (env.file path).data.length = p.stop + 1 - p.start ∧ p.start ≤ p.stop := by
  intro files
  induction files with
  | nil =>
    intro offset _ _
    simp [catalog, ContiguousFrom, catalog_end]
  | cons path files ih =>
    intro offset hpos hsum
    have h1 : 1 ≤ (env.file path).data.length := hpos path (List.mem_cons_self _ _)
    simp only [List.map_cons, List.sum_cons] at hsum
    have hadd : add64 offset (env.file path).data.length =
        offset + (env.file path).data.length := by
      unfold add64; omega
    have hsub : sub64 (offset + (env.file path).data.length) 1 =
        offset + (env.file path).data.length - 1 := by
      unfold sub64; omega
    have hsucc : offset + (env.file path).data.length - 1 + 1 =
        offset + (env.file path).data.length := by omega
    obtain ⟨hc, he, hp⟩ := ih (offset + (env.file path).data.length)
      (fun q hq => hpos q (List.mem_cons_of_mem _ hq)) (by omega)
    simp only [catalog, hadd, hsub]
    refine ⟨?_, ?_, ?_⟩
    · simp only [ContiguousFrom, hsucc]
      exact ⟨trivial, by omega, by omega, hc⟩
    · simp only [catalog_end, hsucc, he, List.map_cons, List.sum_cons]
      omega
    · intro p hmem
      rcases List.mem_cons.mp hmem with hp0 | hp1
      · subst hp0
        exact ⟨path, List.mem_cons_self _ _, rfl, by simp only []; omega, by simp only []; omega⟩
      · obtain ⟨q, hq, hs, hl, hle⟩ := hp p hp1
        exact ⟨q, List.mem_cons_of_mem _ hq, hs, hl, hle⟩

theorem virtual_bytes_length (env : Env) (parts : List GstFilePart) :
    (virtual_bytes env parts).length = (parts.map (fun p => (part_bytes env p).length)).sum := by
  unfold virtual_bytes
  rw [List.length_flatten, List.map_map]
  rfl

theorem part_bytes_mem_catalog (env : Env) (offset : Nat) (files : List GStr) (path : GStr)
    (h : path ∈ files) :
    ∃ p ∈ catalog env offset files, part_bytes env p = (env.file path).data := by
  induction files generalizing offset with
  | nil => simp at h
  | cons f files ih =>
    rcases List.mem_cons.mp h with h0 | h1
    · subst h0
      exact ⟨_, List.mem_cons_self _ _, rfl⟩
    · obtain ⟨p, hp, hb⟩ := ih _ h1
      exact ⟨p, List.mem_cons_of_mem _ hp, hb⟩

/-- What a successful start over non-empty files whose sizes total below
`2 ^ 64` builds: a catalog contiguous from 0 that ends at the length of the
concatenated files and records the size of every file. -/
theorem start_built (env : Env) (src : GstSplitFileSrc) (r : StartResult)
    (h : gst_split_file_src_start env src = some r) (hret : r.ret = true)
    (hsizes : ∀ p ∈ r.src.parts, 1 ≤ (part_bytes env p).length)
    (htotal : (virtual_bytes env r.src.parts).length < 2 ^ 64) :
    r.src.parts ≠ [] ∧ ContiguousFrom 0 r.src.parts ∧
      catalog_end 0 r.src.parts = (virtual_bytes env r.src.parts).length ∧
      ∀ p ∈ r.src.parts, ∃ stream, p.stream = some stream ∧
        (env.file stream).data.length = p.stop + 1 - p.start ∧ p.start ≤ p.stop := by
  obtain ⟨files, hne, hparts, -⟩ := start_ok env src r h hret
  rw [virtual_bytes_length, hparts, catalog_sizes] at htotal
  rw [hparts] at hsizes
  have hpos : ∀ path ∈ files, 1 ≤ (env.file path).data.length := by
    intro path hmem
    obtain ⟨p, hp, hb⟩ := part_bytes_mem_catalog env 0 files path hmem
    rw [← hb]
    exact hsizes p hp
  obtain ⟨hc, he, hp⟩ := catalog_spec env files 0 hpos (by omega)
  rw [virtual_bytes_length, hparts, catalog_sizes]
  refine ⟨?_, hc, by omega, ?_⟩
  · intro hnil
    have := congrArg List.length hnil
    rw [catalog_length] at this
    exact hne (List.length_eq_zero.mp this)
  · intro p hmem
    obtain ⟨q, _, hs, hl, hle⟩ := hp p hmem
    exact ⟨q, hs, hl, hle⟩

/-- C7, as the code has it: `gst_split_file_src_start` makes no size check;
when every matched file holds at least one byte and the sizes total below
`2 ^ 64`, every part of the catalog it builds satisfies `stop >= start` and
spans exactly the size of its file. -/
theorem start_parts_nonempty (env : Env) (src : GstSplitFileSrc) (r : StartResult)
    (h : gst_split_file_src_start env src = some r) (hret : r.ret = true)
    (hsizes : ∀ p ∈ r.src.parts, 1 ≤ (part_bytes env p).length)
    (htotal : (virtual_bytes env r.src.parts).length < 2 ^ 64) :
    ∀ p ∈ r.src.parts, p.stop ≥ p.start ∧ p.stop + 1 - p.start = (part_bytes env p).length := by
  obtain ⟨-, -, -, hp⟩ := start_built env src r h hret hsizes htotal
  intro p hmem
  obtain ⟨stream, hs, hl, hle⟩ := hp p hmem
  refine ⟨hle, ?_⟩
  unfold part_bytes
  rw [hs]
  exact hl.symm

/-- Witness of C7 (as the code has it): part `b` of the catalog built for
`/d/?` has `stop = 19 >= start = 10` and spans the 10 bytes of its file. -/
theorem start_parts_nonempty_witness :
    19 ≥ 10 ∧ 19 + 1 - 10 = (part_bytes example_env
      { stream := some (cstr "/d/b"), path := some (cstr "/d/b"), start := 10,
        stop := 19 }).length :=
  start_parts_nonempty example_env (new_src (some (cstr "/d/?")))
    { ret := true, src := example_src 0,
      events := [.stream_new (cstr "/d/a"), .stream_new (cstr "/d/b"),
        .stream_new (cstr "/d/c"), .cancellable_new],
      posted := none } rfl rfl (by decide) (by decide)
    { stream := some (cstr "/d/b"), path := some (cstr "/d/b"), start := 10, stop := 19 }
    (List.mem_cons_of_mem _ (List.mem_cons_self _ _))

/-- C7 fails as stated: directory `/z` holds `a` (10 bytes) and the empty file
`e`; `gst_split_file_src_start` returns `TRUE` and records for `e` the part
`start = 10`, `stop = 9`. -/
theorem start_accepts_empty_file :
    (example_env.file (cstr "/z/e")).data.length = 0 ∧
      (gst_split_file_src_start example_env (new_src (some (cstr "/z/?")))).map
        (fun r => (r.ret, r.src.parts.map (fun p => (p.stream, p.start, p.stop)))) =
      some (true, [(some (cstr "/z/a"), 0, 9), (some (cstr "/z/e"), 10, 9)]) := by
  decide

/-- C8 fails on the code: directory `/y` holds `a` and `u`, and `u` cannot be
opened.  `gst_split_file_src_start` returns `FALSE` through
`open_read_error`; the stream opened on `a` has not been released (no
`stream_unref` event) and `parts[0].stream` still holds it. -/
theorem start_failure_keeps_streams :
    (gst_split_file_src_start example_env (new_src (some (cstr "/y/?")))).map
        (fun r => (r.ret, r.events, r.src.parts.map (fun p => p.stream))) =
      some (false, [.stream_new (cstr "/y/a")], [some (cstr "/y/a"), none]) := by
  decide

/-! ## Reading -/

theorem virtual_bytes_cons (env : Env) (p : GstFilePart) (parts : List GstFilePart) :
    virtual_bytes env (p :: parts) = part_bytes env p ++ virtual_bytes env parts := by
  simp [virtual_bytes]

/-- One iteration of the read loop inside a part: the 64-bit and 32-bit
computations of the source give the plain differences. -/
theorem loop_arith (cs ce offset size : Nat) (h1 : cs ≤ offset) (h2 : offset ≤ ce)
    (h3 : ce + 1 < 2 ^ 64) (h4 : size < 2 ^ 32) :
    sub64 offset cs = offset - cs ∧
      (min size (sub64 (add64 (sub64 ce cs) 1) (offset - cs))) % 2 ^ 32 =
        min size (ce + 1 - offset) ∧
      (size % 2 ^ 32 + (2 ^ 32 - min size (ce + 1 - offset) % 2 ^ 32)) % 2 ^ 32 =
        size - min size (ce + 1 - offset) ∧
      add64 offset (min size (ce + 1 - offset)) = offset + min size (ce + 1 - offset) := by
  unfold sub64 add64
  refine ⟨by omega, ?_, by omega, by omega⟩
  have e1 : (ce % 2 ^ 64 + (2 ^ 64 - cs % 2 ^ 64)) % 2 ^ 64 = ce - cs := by omega
  have e3 : (ce - cs + 1) % 2 ^ 64 = ce - cs + 1 := by omega
  have e4 : ((ce - cs + 1) % 2 ^ 64 + (2 ^ 64 - (offset - cs) % 2 ^ 64)) % 2 ^ 64 =
      ce + 1 - offset := by omega
  rw [e1, e3, e4]
  omega

theorem read_all_ok (env : Env) (stream : GFileInputStream) (pos count : Nat)
    (cancel : Option GCancellable)
    (hc : g_cancellable_set_error_if_cancelled cancel = none)
    (hr : (env.file stream).read_err = none) :
    g_input_stream_read_all env stream pos count cancel =
      .ok (((env.file stream).data.drop pos).take count) := by
  simp [g_input_stream_read_all, hc, hr]

theorem seek_ok (env : Env) (stream : GFileInputStream) (cancel : Option GCancellable)
    (hc : g_cancellable_set_error_if_cancelled cancel = none)
    (hs : (env.file stream).seek_err = none) :
    g_seekable_seek env stream cancel = none := by
  simp [g_seekable_seek, hc, hs]

/-- A read that ends inside the current part: one seek, one read, and the
bytes are those of the part's file from `offset - start` on. -/
theorem create_loop_within (env : Env) (num_parts : Nat) (cancel : Option GCancellable)
    (hc : g_cancellable_set_error_if_cancelled cancel = none) (buf_offset buf_size : Nat)
    (rest : List GstFilePart) (cur_idx : Nat) (cur : GstFilePart) (stream : GFileInputStream)
    (size offset : Nat) (data : List Nat) (io : List IoCall)
    (hstream : cur.stream = some stream)
    (hlen : (env.file stream).data.length = cur.stop + 1 - cur.start)
    (hseek : (env.file stream).seek_err = none) (hread : (env.file stream).read_err = none)
    (h1 : cur.start ≤ offset) (h2 : offset + size ≤ cur.stop + 1) (h3 : cur.stop + 1 < 2 ^ 64)
    (h4 : size < 2 ^ 32) (h5 : 0 < size) :
    create_loop env num_parts cancel buf_offset buf_size rest cur_idx cur size offset data io =
      some { ret := .GST_FLOW_OK,
             buffer := some { size := buf_size,
                              data := data ++ (((env.file stream).data.drop
                                (offset - cur.start)).take size),
                              offset := buf_offset, offset_end := offset + size },
             cur_part := cur_idx,
             io := io ++ [.seek cur_idx stream (offset - cur.start),
                          .read cur_idx stream size],
             posted := none, buf_unref := false } := by
  obtain ⟨a1, a2, a3, a4⟩ := loop_arith cur.start cur.stop offset size h1 (by omega) h3 h4
  have hmin : min size (cur.stop + 1 - offset) = size := by omega
  rw [hmin] at a2 a3 a4
  have a5 : size - size = 0 := by omega
  have hbytes : (((env.file stream).data.drop (offset - cur.start)).take size).length = size := by
    rw [List.length_take, List.length_drop, hlen]
    omega
  have hs0 : ¬ size = 0 := by omega
  rw [create_loop]
  simp only [hstream, a1, a2, seek_ok env stream cancel hc hseek,
    read_all_ok env stream _ _ cancel hc hread, hbytes, a3, a4, a5, hs0, if_false, if_true,
    List.append_assoc, List.singleton_append]

/-- With nothing left to read the loop is not entered. -/
theorem create_loop_zero (env : Env) (num_parts : Nat) (cancel : Option GCancellable)
    (buf_offset buf_size : Nat) (rest : List GstFilePart) (cur_idx : Nat) (cur : GstFilePart)
    (offset : Nat) (data : List Nat) (io : List IoCall) :
    create_loop env num_parts cancel buf_offset buf_size rest cur_idx cur 0 offset data io =
      some { ret := .GST_FLOW_OK,
             buffer := some { size := buf_size, data := data, offset := buf_offset,
                              offset_end := offset },
             cur_part := cur_idx, io := io, posted := none, buf_unref := false } := by
  rw [create_loop]
  simp only [if_true]

/-- The read loop on an unchanged contiguous catalog, for a range that ends
inside the catalog: it returns `GST_FLOW_OK` and has stored `size` further
bytes of the concatenation of the remaining part files. -/
theorem create_loop_ok (env : Env) (num_parts : Nat) (cancel : Option GCancellable)
    (hc : g_cancellable_set_error_if_cancelled cancel = none) (buf_offset buf_size : Nat) :
    ∀ (rest : List GstFilePart) (cur_idx : Nat) (cur : GstFilePart) (size offset : Nat)
      (data : List Nat) (io : List IoCall),
      ContiguousFrom cur.start (cur :: rest) → Unchanged env (cur :: rest) →
      cur.start ≤ offset → offset ≤ cur.stop → size < 2 ^ 32 →
      offset + size ≤ catalog_end cur.start (cur :: rest) →
      ∃ r, create_loop env num_parts cancel buf_offset buf_size rest cur_idx cur size offset
          data io = some r ∧
        r.ret = .GST_FLOW_OK ∧
        r.buffer = some { size := buf_size,
                          data := data ++ ((virtual_bytes env (cur :: rest)).drop
                            (offset - cur.start)).take size,
                          offset := buf_offset, offset_end := offset + size } := by
  intro rest
  induction rest with
  | nil =>
    intro cur_idx cur size offset data io hcont hunch h1 h2 h4 hend
    obtain ⟨stream, hstream, hlen, hseek, hread⟩ := hunch cur (List.mem_cons_self _ _)
    simp only [ContiguousFrom] at hcont
    simp only [catalog_end] at hend
    by_cases hs0 : size = 0
    · subst hs0
      refine ⟨_, create_loop_zero _ _ _ _ _ _ _ _ _ _ _, rfl, ?_⟩
      simp
    · have hw := create_loop_within env num_parts cancel hc buf_offset buf_size [] cur_idx cur
        stream size offset data io hstream hlen hseek hread h1 hend hcont.2.2.1 h4 (by omega)
      refine ⟨_, hw, rfl, ?_⟩
      simp [virtual_bytes, part_bytes, hstream]
  | cons next rest ih =>
    intro cur_idx cur size offset data io hcont hunch h1 h2 h4 hend
    obtain ⟨stream, hstream, hlen, hseek, hread⟩ := hunch cur (List.mem_cons_self _ _)
    have hcont0 := hcont
    simp only [ContiguousFrom] at hcont
    obtain ⟨-, hle, hlt, hnext, hnle, hnlt, hrest⟩ := hcont
    by_cases hs0 : size = 0
    · subst hs0
      refine ⟨_, create_loop_zero _ _ _ _ _ _ _ _ _ _ _, rfl, ?_⟩
      simp
    · by_cases hin : offset + size ≤ cur.stop + 1
      · have hw := create_loop_within env num_parts cancel hc buf_offset buf_size (next :: rest)
          cur_idx cur stream size offset data io hstream hlen hseek hread h1 hin hlt h4
          (by omega)
        refine ⟨_, hw, rfl, ?_⟩
        have hb : part_bytes env cur = (env.file stream).data := by simp [part_bytes, hstream]
        rw [virtual_bytes_cons, hb, List.drop_append_of_le_length (by omega),
          List.take_append_of_le_length (by rw [List.length_drop]; omega)]
      · obtain ⟨a1, a2, a3, a4⟩ := loop_arith cur.start cur.stop offset size h1 h2 hlt h4
        have hmin : min size (cur.stop + 1 - offset) = cur.stop + 1 - offset := by omega
        rw [hmin] at a2 a3 a4
        have hdrop : ((env.file stream).data.drop (offset - cur.start)).length =
            cur.stop + 1 - offset := by
          rw [List.length_drop, hlen]; omega
        have htake : ((env.file stream).data.drop (offset - cur.start)).take
            (cur.stop + 1 - offset) = (env.file stream).data.drop (offset - cur.start) :=
          List.take_of_length_le (by omega)
        have hsz : ¬ size - (cur.stop + 1 - offset) = 0 := by omega
        have hnlt2 : ¬ cur.stop + 1 - offset < cur.stop + 1 - offset := by omega
        have hcont1 : ContiguousFrom next.start (next :: rest) := by
          simp only [ContiguousFrom]
          exact ⟨trivial, hnle, hnlt, hrest⟩
        have hend1 : offset + (cur.stop + 1 - offset) + (size - (cur.stop + 1 - offset)) ≤
            catalog_end next.start (next :: rest) := by
          simp only [catalog_end] at hend ⊢
          omega
        obtain ⟨r, hr, hret, hbuf⟩ := ih (cur_idx + 1) next (size - (cur.stop + 1 - offset))
          (offset + (cur.stop + 1 - offset))
          (data ++ (env.file stream).data.drop (offset - cur.start))
          (io ++ [.seek cur_idx stream (offset - cur.start)] ++
            [.read cur_idx stream (cur.stop + 1 - offset)])
          hcont1 (fun p hp => hunch p (List.mem_cons_of_mem _ hp)) (by omega) (by omega)
          (by omega) hend1
        refine ⟨r, ?_, hret, ?_⟩
        · rw [create_loop]
          simp only [hstream, a1, a2, seek_ok env stream cancel hc hseek,
            read_all_ok env stream _ _ cancel hc hread, htake, hdrop, a3, a4, hs0, hsz, hnlt2,
            if_false]
          exact hr
        · rw [hbuf]
          have hb : part_bytes env cur = (env.file stream).data := by
            simp [part_bytes, hstream]
          have e0 : offset + (cur.stop + 1 - offset) - next.start = 0 := by omega
          have e1 : offset + (cur.stop + 1 - offset) + (size - (cur.stop + 1 - offset)) =
              offset + size := by omega
          have e2 : (offset - cur.start) ≤ (env.file stream).data.length := by omega
          have e3 : ((env.file stream).data.drop (offset - cur.start)).take size =
              (env.file stream).data.drop (offset - cur.start) :=
            List.take_of_length_le (by omega)
          rw [virtual_bytes_cons env cur, hb, List.drop_append_of_le_length e2,
            List.take_append_eq_append_take, hdrop, e3, e0, e1, List.drop_zero,
            List.append_assoc]

/-! ## Locating the part of an offset -/

theorem catalog_end_ge : ∀ (parts : List GstFilePart) (first : Nat),
    ContiguousFrom first parts → first ≤ catalog_end first parts := by
  intro parts
  induction parts with
  | nil => intro first _; exact Nat.le_refl _
  | cons p parts ih =>
    intro first h
    simp only [ContiguousFrom] at h
    have := ih (p.stop + 1) h.2.2.2
    simp only [catalog_end]
    omega

/-- Splitting a contiguous catalog before one of its parts: the tail is
contiguous from that part's `start` and ends where the whole catalog ends. -/
theorem contiguous_split : ∀ (pre : List GstFilePart) (first : Nat) (cur : GstFilePart)
    (rest : List GstFilePart), ContiguousFrom first (pre ++ cur :: rest) →
    ContiguousFrom cur.start (cur :: rest) ∧
      catalog_end cur.start (cur :: rest) = catalog_end first (pre ++ cur :: rest) ∧
      first ≤ cur.start ∧ (∀ p ∈ pre, p.stop < cur.start) := by
  intro pre
  induction pre with
  | nil =>
    intro first cur rest h
    have h0 := h
    simp only [List.nil_append, ContiguousFrom] at h
    refine ⟨?_, rfl, by omega, by simp⟩
    simp only [ContiguousFrom]
    exact ⟨trivial, h.2.1, h.2.2.1, h.2.2.2⟩
  | cons p pre ih =>
    intro first cur rest h
    simp only [List.cons_append, ContiguousFrom] at h
    obtain ⟨hc, he, hle, hlt⟩ := ih (p.stop + 1) cur rest h.2.2.2
    refine ⟨hc, ?_, by omega, ?_⟩
    · rw [he]; rfl
    · intro q hq
      rcases List.mem_cons.mp hq with h0 | h1
      · subst h0; omega
      · exact hlt q h1

/-- The bytes before a part of an unchanged contiguous catalog number as many
as the part's `start` is past the first offset. -/
theorem virtual_bytes_prefix (env : Env) : ∀ (pre : List GstFilePart) (first : Nat)
    (cur : GstFilePart) (rest : List GstFilePart),
    ContiguousFrom first (pre ++ cur :: rest) → Unchanged env pre →
    first + (virtual_bytes env pre).length = cur.start := by
  intro pre
  induction pre with
  | nil =>
    intro first cur rest h _
    simp only [List.nil_append, ContiguousFrom] at h
    simp [virtual_bytes, h.1]
  | cons p pre ih =>
    intro first cur rest h hun
    simp only [List.cons_append, ContiguousFrom] at h
    have := ih (p.stop + 1) cur rest h.2.2.2 (fun q hq => hun q (List.mem_cons_of_mem _ hq))
    obtain ⟨stream, hs, hl, -⟩ := hun p (List.mem_cons_self _ _)
    rw [virtual_bytes_cons, List.length_append]
    have hb : (part_bytes env p).length = p.stop + 1 - p.start := by
      simp [part_bytes, hs, hl]
    omega

/-- The scan finds the part that holds the offset: no earlier part of a
contiguous catalog reaches it. -/
theorem find_part_at : ∀ (pre : List GstFilePart) (first : Nat) (cur : GstFilePart)
    (rest : List GstFilePart) (offset i : Nat), ContiguousFrom first (pre ++ cur :: rest) →
    cur.start ≤ offset → offset ≤ cur.stop →
    find_part_loop offset (pre ++ cur :: rest) i = some (i + pre.length) := by
  intro pre
  induction pre with
  | nil =>
    intro first cur rest offset i _ h1 h2
    simp [find_part_loop, h1, h2]
  | cons p pre ih =>
    intro first cur rest offset i h h1 h2
    have hsplit := contiguous_split (p :: pre) first cur rest h
    have hp : p.stop < cur.start := hsplit.2.2.2 p (List.mem_cons_self _ _)
    simp only [List.cons_append, ContiguousFrom] at h
    have := ih (p.stop + 1) cur rest offset (i + 1) h.2.2.2 h1 h2
    have hno : ¬ (offset ≥ p.start ∧ offset ≤ p.stop) := by omega
    have e : i + 1 + pre.length = i + (pre.length + 1) := by omega
    simp only [List.cons_append, find_part_loop, hno, if_false, List.length_cons]
    rw [← e]
    exact this

/-- Every offset inside a contiguous catalog lies in one of its parts. -/
theorem part_of_offset : ∀ (parts : List GstFilePart) (first offset : Nat),
    ContiguousFrom first parts → first ≤ offset → offset < catalog_end first parts →
    ∃ pre cur rest, parts = pre ++ cur :: rest ∧ cur.start ≤ offset ∧ offset ≤ cur.stop := by
  intro parts
  induction parts with
  | nil =>
    intro first offset _ h1 h2
    simp only [catalog_end] at h2
    omega
  | cons p parts ih =>
    intro first offset h h1 h2
    simp only [ContiguousFrom] at h
    by_cases hin : offset ≤ p.stop
    · exact ⟨[], p, parts, rfl, by omega, hin⟩
    · obtain ⟨pre, cur, rest, hp, hs, he⟩ := ih (p.stop + 1) offset h.2.2.2 (by omega)
        (by simpa only [catalog_end] using h2)
      exact ⟨p :: pre, cur, rest, by rw [hp]; rfl, hs, he⟩

/-- Past the end of a contiguous catalog the scan finds no part. -/
theorem find_part_none : ∀ (parts : List GstFilePart) (first offset i : Nat),
    ContiguousFrom first parts → catalog_end first parts ≤ offset →
    find_part_loop offset parts i = none := by
  intro parts
  induction parts with
  | nil => intro first offset i _ _; rfl
  | cons p parts ih =>
    intro first offset i h h1
    simp only [ContiguousFrom] at h
    simp only [catalog_end] at h1
    have hge := catalog_end_ge parts (p.stop + 1) h.2.2.2
    have hno : ¬ (offset ≥ p.start ∧ offset ≤ p.stop) := by omega
    simp only [find_part_loop, hno, if_false]
    exact ih (p.stop + 1) offset (i + 1) h.2.2.2 h1

/-- Every part of a contiguous catalog ends before the catalog does. -/
theorem stop_lt_end : ∀ (parts : List GstFilePart) (first : Nat), ContiguousFrom first parts →
    ∀ p ∈ parts, p.stop < catalog_end first parts := by
  intro parts
  induction parts with
  | nil => intro first _ p hp; simp at hp
  | cons q parts ih =>
    intro first h p hp
    simp only [ContiguousFrom] at h
    simp only [catalog_end]
    rcases List.mem_cons.mp hp with h0 | h1
    · subst h0
      have := catalog_end_ge parts (p.stop + 1) h.2.2.2
      omega
    · exact ih (q.stop + 1) h.2.2.2 p h1

theorem split_at_index (parts : List GstFilePart) (i : Nat) (cur : GstFilePart)
    (h : parts[i]? = some cur) :
    parts = parts.take i ++ cur :: parts.drop (i + 1) ∧ (parts.take i).length = i := by
  obtain ⟨hi, hget⟩ := List.getElem?_eq_some.mp h
  refine ⟨?_, by rw [List.length_take]; omega⟩
  rw [← hget, ← List.drop_eq_getElem_cons hi, List.take_append_drop]

theorem index_of_split (pre : List GstFilePart) (cur : GstFilePart) (rest : List GstFilePart) :
    (pre ++ cur :: rest)[pre.length]? = some cur ∧
      (pre ++ cur :: rest).drop (pre.length + 1) = rest := by
  constructor
  · rw [List.getElem?_append_right (Nat.le_refl _)]
    simp
  · rw [List.drop_append_eq_append_drop]
    simp

/-- On a contiguous catalog, whatever the cursor hint, the read loop is entered
on the part that holds the offset. -/
theorem create_located (env : Env) (src : GstSplitFileSrc) (offset size : Nat)
    (pre : List GstFilePart) (cur : GstFilePart) (rest : List GstFilePart)
    (hparts : src.parts = pre ++ cur :: rest) (hcont : ContiguousFrom 0 src.parts)
    (hhint : src.cur_part < src.num_parts) (h1 : cur.start ≤ offset) (h2 : offset ≤ cur.stop) :
    gst_split_file_src_create env src offset size =
      create_loop env src.num_parts src.cancellable offset size rest pre.length cur size offset
        [] [] := by
  have hfind : find_part_loop offset src.parts 0 = some pre.length := by
    have := find_part_at pre 0 cur rest offset 0 (hparts ▸ hcont) h1 h2
    rw [hparts, this, Nat.zero_add]
  have hidx := index_of_split pre cur rest
  rw [← hparts] at hidx
  unfold GstSplitFileSrc.num_parts at hhint
  obtain ⟨c0, hc0⟩ : ∃ c0, src.parts[src.cur_part]? = some c0 :=
    ⟨src.parts[src.cur_part], List.getElem?_eq_getElem hhint⟩
  unfold gst_split_file_src_create
  rw [hc0]
  by_cases hmiss : offset < c0.start ∨ offset > c0.stop
  · simp only [hmiss, if_true, gst_split_file_src_find_part_for_offset, hfind, hidx.1, hidx.2]
  · have hsplit := split_at_index src.parts src.cur_part c0 hc0
    have hcont0 : ContiguousFrom 0 (src.parts.take src.cur_part ++ c0 ::
        src.parts.drop (src.cur_part + 1)) := by
      rw [← hsplit.1]; exact hcont
    have hfind0 := find_part_at _ 0 c0 _ offset 0 hcont0 (by omega) (by omega)
    rw [← hsplit.1, hfind, Nat.zero_add, hsplit.2] at hfind0
    injection hfind0 with heq
    rw [← heq, hidx.1] at hc0
    injection hc0 with hc
    rw [← hc] at hmiss
    simp only [hmiss, if_false, ← heq, hidx.2, ← hc]

/-- Past the end of a contiguous catalog `gst_split_file_src_create` returns
`GST_FLOW_EOS` before allocating a buffer or touching a file. -/
theorem create_past_end (env : Env) (src : GstSplitFileSrc) (offset size : Nat)
    (hcont : ContiguousFrom 0 src.parts) (hhint : src.cur_part < src.num_parts)
    (hend : total_size src ≤ offset) :
    gst_split_file_src_create env src offset size =
      some { ret := .GST_FLOW_EOS, buffer := none, cur_part := src.cur_part, io := [],
             posted := none, buf_unref := false } := by
  unfold GstSplitFileSrc.num_parts at hhint
  unfold total_size at hend
  have hc0 : src.parts[src.cur_part]? = some src.parts[src.cur_part] :=
    List.getElem?_eq_getElem hhint
  have hlt := stop_lt_end src.parts 0 hcont _ (List.getElem_mem hhint)
  have hmiss : offset < src.parts[src.cur_part].start ∨ offset > src.parts[src.cur_part].stop := by
    right; omega
  unfold gst_split_file_src_create
  rw [hc0]
  simp only [hmiss, if_true, gst_split_file_src_find_part_for_offset,
    find_part_none src.parts 0 offset 0 hcont hend]

/-- The read loop never produces `GST_FLOW_EOS`. -/
theorem create_loop_not_eos (env : Env) (num_parts : Nat) (cancel : Option GCancellable)
    (buf_offset buf_size : Nat) :
    ∀ (rest : List GstFilePart) (cur_idx : Nat) (cur : GstFilePart) (size offset : Nat)
      (data : List Nat) (io : List IoCall) (r : CreateResult),
      create_loop env num_parts cancel buf_offset buf_size rest cur_idx cur size offset data io
        = some r → r.ret ≠ .GST_FLOW_EOS := by
  intro rest
  induction rest with
  | nil =>
    intro cur_idx cur size offset data io r h
    rw [create_loop] at h
    by_cases hs : size = 0
    · simp only [hs, if_true] at h
      injection h with h; subst h; simp
    · simp only [hs, if_false] at h
      cases hst : cur.stream with
      | none => simp [hst] at h
      | some stream =>
        simp only [hst] at h
        cases hsk : g_seekable_seek env stream cancel with
        | some err =>
          simp only [hsk] at h
          split at h <;> (injection h with h; subst h; simp)
        | none =>
          simp only [hsk] at h
          generalize g_input_stream_read_all _ _ _ _ _ = res at h
          cases res with
          | error err =>
            simp only at h
            split at h <;> (injection h with h; subst h; simp)
          | ok bytes =>
            simp only at h
            repeat' split at h
            all_goals first
              | (injection h with h; subst h; simp)
              | simp at h
  | cons next rest ih =>
    intro cur_idx cur size offset data io r h
    rw [create_loop] at h
    by_cases hs : size = 0
    · simp only [hs, if_true] at h
      injection h with h; subst h; simp
    · simp only [hs, if_false] at h
      cases hst : cur.stream with
      | none => simp [hst] at h
      | some stream =>
        simp only [hst] at h
        cases hsk : g_seekable_seek env stream cancel with
        | some err =>
          simp only [hsk] at h
          split at h <;> (injection h with h; subst h; simp)
        | none =>
          simp only [hsk] at h
          generalize g_input_stream_read_all _ _ _ _ _ = res at h
          cases res with
          | error err =>
            simp only at h
            split at h <;> (injection h with h; subst h; simp)
          | ok bytes =>
            simp only at h
            repeat' split at h
            all_goals first
              | (injection h with h; subst h; simp)
              | exact ih _ _ _ _ _ _ r h

theorem virtual_bytes_append (env : Env) (a b : List GstFilePart) :
    virtual_bytes env (a ++ b) = virtual_bytes env a ++ virtual_bytes env b := by
  simp [virtual_bytes]

/-- A read inside an unchanged contiguous catalog returns the requested bytes
of the concatenation of the part files, whatever the cursor hint. -/
theorem create_ok_core (env : Env) (src : GstSplitFileSrc) (offset size : Nat)
    (hcont : ContiguousFrom 0 src.parts) (hhint : src.cur_part < src.num_parts)
    (hun : Unchanged env src.parts)
    (hc : g_cancellable_set_error_if_cancelled src.cancellable = none)
    (hsize : size < 2 ^ 32) (hlt : offset < total_size src)
    (hle : offset + size ≤ total_size src) :
    ∃ res, gst_split_file_src_create env src offset size = some res ∧
      res.ret = .GST_FLOW_OK ∧
      res.buffer = some { size := size,
                          data := ((virtual_bytes env src.parts).drop offset).take size,
                          offset := offset, offset_end := offset + size } := by
  unfold total_size at hlt hle
  obtain ⟨pre, cur, rest, hparts, h1, h2⟩ :=
    part_of_offset src.parts 0 offset hcont (Nat.zero_le _) hlt
  rw [create_located env src offset size pre cur rest hparts hcont hhint h1 h2]
  rw [hparts] at hcont hun hle
  obtain ⟨hc1, he1, -, -⟩ := contiguous_split pre 0 cur rest hcont
  have hpre := virtual_bytes_prefix env pre 0 cur rest hcont
    (fun p hp => hun p (List.mem_append_left _ hp))
  obtain ⟨res, hres, hret, hbuf⟩ := create_loop_ok env src.num_parts src.cancellable hc offset
    size rest pre.length cur size offset [] [] hc1
    (fun p hp => hun p (List.mem_append_right _ hp)) h1 h2 hsize (by rw [he1]; exact hle)
  refine ⟨res, hres, hret, ?_⟩
  have e0 : (virtual_bytes env pre).drop offset = [] := List.drop_of_length_le (by omega)
  have e : offset - (virtual_bytes env pre).length = offset - cur.start := by omega
  rw [hbuf, hparts, virtual_bytes_append, List.drop_append_eq_append_drop, e0, e,
    List.nil_append, List.nil_append]

/-- C1, as the code has it: for a catalog built by
`gst_split_file_src_start` from files of at least one byte each (sizes
totalling below `2 ^ 64`) that are unchanged and readable, for every cursor
hint, every `offset < total_size` and every `size` with
`offset + size <= total_size`, `gst_split_file_src_create` returns
`GST_FLOW_OK` with a buffer of exactly `size` bytes: bytes
`[offset, offset + size)` of the concatenation of the part files in catalog
order. -/
theorem create_crossing_read (env : Env) (src : GstSplitFileSrc) (r : StartResult)
    (h : gst_split_file_src_start env src = some r) (hret : r.ret = true)
    (hsizes : ∀ p ∈ r.src.parts, 1 ≤ (part_bytes env p).length)
    (hio : ∀ p ∈ r.src.parts, ∀ stream, p.stream = some stream →
      (env.file stream).seek_err = none ∧ (env.file stream).read_err = none)
    (htotal : (virtual_bytes env r.src.parts).length < 2 ^ 64)
    (hint : Nat) (hhint : hint < r.src.num_parts) (offset size : Nat) (hsize : size < 2 ^ 32)
    (hlt : offset < (virtual_bytes env r.src.parts).length)
    (hle : offset + size ≤ (virtual_bytes env r.src.parts).length) :
    ∃ res, gst_split_file_src_create env { r.src with cur_part := hint } offset size = some res ∧
      res.ret = .GST_FLOW_OK ∧
      res.buffer = some { size := size,
                          data := ((virtual_bytes env r.src.parts).drop offset).take size,
                          offset := offset, offset_end := offset + size } ∧
      (((virtual_bytes env r.src.parts).drop offset).take size).length = size := by
  obtain ⟨-, hcont, hend, hparts⟩ := start_built env src r h hret hsizes htotal
  obtain ⟨-, -, -, -, hcancel, -⟩ := start_ok env src r h hret
  have hun : Unchanged env r.src.parts := by
    intro p hp
    obtain ⟨stream, hs, hl, -⟩ := hparts p hp
    exact ⟨stream, hs, hl, (hio p hp stream hs).1, (hio p hp stream hs).2⟩
  obtain ⟨res, hres, hok, hbuf⟩ := create_ok_core env { r.src with cur_part := hint } offset size
    hcont hhint hun (by simp [hcancel, g_cancellable_set_error_if_cancelled]) hsize
    (by unfold total_size; simp only []; omega) (by unfold total_size; simp only []; omega)
  refine ⟨res, hres, hok, hbuf, ?_⟩
  rw [List.length_take, List.length_drop]
  omega

/-- Witness of C1 (as the code has it): parts of 10, 10 and 5 bytes, cursor
hint 2, `read (8, 6)` gives bytes 8..13. -/
theorem create_crossing_read_witness :
    ∃ res, gst_split_file_src_create example_env { example_src 0 with cur_part := 2 } 8 6
        = some res ∧
      res.ret = .GST_FLOW_OK ∧
      res.buffer = some { size := 6, data := [8, 9, 10, 11, 12, 13], offset := 8,
                          offset_end := 14 } ∧
      [8, 9, 10, 11, 12, 13].length = 6 :=
  create_crossing_read example_env (new_src (some (cstr "/d/?")))
    { ret := true, src := example_src 0,
      events := [.stream_new (cstr "/d/a"), .stream_new (cstr "/d/b"),
        .stream_new (cstr "/d/c"), .cancellable_new],
      posted := none } rfl rfl (by decide) (by decide) (by decide) 2 (by decide) 8 6
    (by decide) (by decide) (by decide)

/-- C1 fails as stated at `offset = total_size`, `size = 0`: the catalog of
`/d/?` has total size 25 and `25 + 0 <= 25`, yet `read (25, 0)` returns
`GST_FLOW_EOS` and no buffer instead of `GST_FLOW_OK` with an empty buffer. -/
theorem create_zero_at_end_is_eos :
    (gst_split_file_src_start example_env (new_src (some (cstr "/d/?")))).map
        (fun r => (r.ret, r.src)) = some (true, example_src 0) ∧
      gst_split_file_src_get_size (example_src 0) = some 25 ∧
      gst_split_file_src_create example_env (example_src 0) 25 0 =
        some { ret := .GST_FLOW_EOS, buffer := none, cur_part := 0, io := [], posted := none,
               buf_unref := false } := by
  decide

/-- The example catalog is contiguous from 0 with parts of at least one byte. -/
theorem example_built (hint : Nat) (h : hint < 3) : Built (example_src hint) :=
  { contiguous := by simp [example_src, example_parts, ContiguousFrom]
    hint := h
    count := by simp [GstSplitFileSrc.num_parts, example_src, example_parts] }

/-- The files of the example are as the catalog recorded them. -/
theorem example_unchanged : Unchanged example_env example_parts := by
  intro p hp
  simp only [example_parts, List.mem_cons, List.mem_singleton, List.not_mem_nil, or_false] at hp
  rcases hp with rfl | rfl | rfl <;> exact ⟨_, rfl, by decide, rfl, rfl⟩

/-- In the last part, a request that extends past the end of the catalog makes
the loop read the part to its end (no short read), advance `src->cur_part`
and read `src->parts` outside the array. -/
theorem create_loop_overrun (env : Env) (num_parts : Nat) (cancel : Option GCancellable)
    (hc : g_cancellable_set_error_if_cancelled cancel = none) (buf_offset buf_size : Nat)
    (cur_idx : Nat) (cur : GstFilePart) (stream : GFileInputStream)
    (size offset : Nat) (data : List Nat) (io : List IoCall)
    (hstream : cur.stream = some stream)
    (hlen : (env.file stream).data.length = cur.stop + 1 - cur.start)
    (hseek : (env.file stream).seek_err = none) (hread : (env.file stream).read_err = none)
    (h1 : cur.start ≤ offset) (h2 : offset ≤ cur.stop) (h3 : cur.stop + 1 < 2 ^ 64)
    (h4 : size < 2 ^ 32) (h5 : cur.stop + 1 < offset + size) :
    create_loop env num_parts cancel buf_offset buf_size [] cur_idx cur size offset data io =
      none := by
  obtain ⟨a1, a2, a3, a4⟩ := loop_arith cur.start cur.stop offset size h1 h2 h3 h4
  have hmin : min size (cur.stop + 1 - offset) = cur.stop + 1 - offset := by omega
  rw [hmin] at a2 a3 a4
  have hdrop : ((env.file stream).data.drop (offset - cur.start)).length =
      cur.stop + 1 - offset := by
    rw [List.length_drop, hlen]; omega
  have htake : ((env.file stream).data.drop (offset - cur.start)).take
      (cur.stop + 1 - offset) = (env.file stream).data.drop (offset - cur.start) :=
    List.take_of_length_le (by omega)
  have hs0 : ¬ size = 0 := by omega
  have hsz : ¬ size - (cur.stop + 1 - offset) = 0 := by omega
  have hnlt : ¬ cur.stop + 1 - offset < cur.stop + 1 - offset := by omega
  rw [create_loop]
  simp only [hstream, a1, a2, seek_ok env stream cancel hc hseek,
    read_all_ok env stream _ _ cancel hc hread, htake, hdrop, a3, hs0, hsz, hnlt, if_false]

/-- C2 fails on the code: with parts of 10, 10 and 5 bytes (total 25) and any
cursor hint, `read (offset = 23, size = 10)` does not return the 2 bytes
`[23, 24]`: after the 2 bytes of the last part are read no short read is seen
(`read == to_read`), so `src->cur_part` is advanced to 3 and `src->parts[3]`
is read outside the array. -/
theorem create_past_total_overruns_parts :
    gst_split_file_src_create example_env (example_src 0) 23 10 = none ∧
      gst_split_file_src_create example_env (example_src 1) 23 10 = none ∧
      gst_split_file_src_create example_env (example_src 2) 23 10 = none := by
  decide

/-- C3: in a built catalog with unchanged files, a read of `size >= 1` bytes
that lies inside part `i` (`parts[i].start <= offset` and
`offset + size - 1 <= parts[i].stop`) returns `GST_FLOW_OK` with exactly the
`size` bytes at positions `[offset - start, offset - start + size)` of that
part's file, and issues exactly one seek and one read, both on part `i`. -/
theorem create_within_part (env : Env) (src : GstSplitFileSrc) (hb : Built src)
    (hun : Unchanged env src.parts)
    (hc : g_cancellable_set_error_if_cancelled src.cancellable = none)
    (i : Nat) (part : GstFilePart) (stream : GFileInputStream)
    (hi : src.parts[i]? = some part) (hstream : part.stream = some stream)
    (offset size : Nat) (h1 : part.start ≤ offset) (h2 : offset + size - 1 ≤ part.stop)
    (h3 : 1 ≤ size) (h4 : size < 2 ^ 32) :
    gst_split_file_src_create env src offset size =
        some { ret := .GST_FLOW_OK,
               buffer := some { size := size,
                                data := ((env.file stream).data.drop
                                  (offset - part.start)).take size,
                                offset := offset, offset_end := offset + size },
               cur_part := i,
               io := [.seek i stream (offset - part.start), .read i stream size],
               posted := none, buf_unref := false } ∧
      (((env.file stream).data.drop (offset - part.start)).take size).length = size := by
  obtain ⟨hsplit, hlen⟩ := split_at_index src.parts i part hi
  have hcont := hb.contiguous
  obtain ⟨hc1, -, -, -⟩ := contiguous_split (src.parts.take i) 0 part (src.parts.drop (i + 1))
    (hsplit ▸ hcont)
  simp only [ContiguousFrom] at hc1
  obtain ⟨stream1, hs1, hl, hseek, hread⟩ := hun part (List.getElem?_mem hi)
  rw [hstream] at hs1
  injection hs1 with hs1
  subst hs1
  have hloc := create_located env src offset size (src.parts.take i) part
    (src.parts.drop (i + 1)) hsplit hcont hb.hint h1 (by omega)
  rw [hlen] at hloc
  rw [hloc, create_loop_within env src.num_parts src.cancellable hc offset size
    (src.parts.drop (i + 1)) i part stream size offset [] [] hstream hl hseek hread h1
    (by omega) hc1.2.2.1 h4 (by omega)]
  refine ⟨by simp, ?_⟩
  rw [List.length_take, List.length_drop, hl]
  omega

/-- Witness of C3: `read (12, 5)` with cursor hint 2 lies in part 1 (`b`). -/
theorem create_within_part_witness :
    gst_split_file_src_create example_env (example_src 2) 12 5 =
        some { ret := .GST_FLOW_OK,
               buffer := some { size := 5, data := [12, 13, 14, 15, 16], offset := 12,
                                offset_end := 17 },
               cur_part := 1,
               io := [.seek 1 (cstr "/d/b") 2, .read 1 (cstr "/d/b") 5],
               posted := none, buf_unref := false } ∧
      [12, 13, 14, 15, 16].length = 5 :=
  create_within_part example_env (example_src 2) (example_built 2 (by decide))
    example_unchanged rfl 1
    { stream := some (cstr "/d/b"), path := some (cstr "/d/b"), start := 10, stop := 19 }
    (cstr "/d/b") rfl rfl 12 5 (by decide) (by decide) (by decide) (by decide)

/-- C4: on a built catalog (contiguous from 0, every part of at least one
byte), for every cursor hint below `num_parts`, `gst_split_file_src_create`
returns `GST_FLOW_EOS` with no buffer (and no I/O) for every
`offset >= total_size`, and does not return `GST_FLOW_EOS` for any
`offset < total_size`. -/
theorem create_eos (env : Env) (src : GstSplitFileSrc) (hb : Built src) (offset size : Nat) :
    (total_size src ≤ offset →
      gst_split_file_src_create env src offset size =
        some { ret := .GST_FLOW_EOS, buffer := none, cur_part := src.cur_part, io := [],
               posted := none, buf_unref := false }) ∧
    (offset < total_size src →
      ∀ r, gst_split_file_src_create env src offset size = some r → r.ret ≠ .GST_FLOW_EOS) := by
  constructor
  · intro hend
    exact create_past_end env src offset size hb.contiguous hb.hint hend
  · intro hlt r hr
    obtain ⟨pre, cur, rest, hparts, h1, h2⟩ :=
      part_of_offset src.parts 0 offset hb.contiguous (Nat.zero_le _) hlt
    rw [create_located env src offset size pre cur rest hparts hb.contiguous hb.hint h1 h2] at hr
    exact create_loop_not_eos env _ _ _ _ _ _ _ _ _ _ _ r hr

/-- Witness of C4: with parts of 10, 10 and 5 bytes and cursor hint 1,
`read (25, 1)` reports end of stream and `read (24, 1)` does not. -/
theorem create_eos_witness :
    gst_split_file_src_create example_env (example_src 1) 25 1 =
        some { ret := .GST_FLOW_EOS, buffer := none, cur_part := 1, io := [],
               posted := none, buf_unref := false } ∧
      ∀ r, gst_split_file_src_create example_env (example_src 1) 24 1 = some r →
        r.ret ≠ .GST_FLOW_EOS :=
  ⟨(create_eos example_env (example_src 1) (example_built 1 (by decide)) 25 1).1 (by decide),
   (create_eos example_env (example_src 1) (example_built 1 (by decide)) 24 1).2 (by decide)⟩

/-- The defect behind C2 in general: on every built catalog with unchanged
files, a read that starts in the last part and extends past `total_size` has
no defined result, because `src->parts[num_parts]` is read. -/
theorem create_overrun (env : Env) (src : GstSplitFileSrc) (hb : Built src)
    (hun : Unchanged env src.parts)
    (hc : g_cancellable_set_error_if_cancelled src.cancellable = none)
    (pre : List GstFilePart) (last : GstFilePart) (hparts : src.parts = pre ++ [last])
    (offset size : Nat) (h1 : last.start ≤ offset) (h2 : offset ≤ last.stop)
    (h4 : size < 2 ^ 32) (h5 : total_size src < offset + size) :
    gst_split_file_src_create env src offset size = none := by
  have hcont := hb.contiguous
  obtain ⟨hc1, he1, -, -⟩ := contiguous_split pre 0 last [] (hparts ▸ hcont)
  obtain ⟨stream, hs, hl, hseek, hread⟩ := hun last (by rw [hparts]; simp)
  simp only [ContiguousFrom] at hc1
  unfold total_size at h5
  rw [hparts, ← he1] at h5
  simp only [catalog_end] at h5
  rw [create_located env src offset size pre last [] hparts hcont hb.hint h1 h2]
  exact create_loop_overrun env _ _ hc _ _ _ last stream size offset [] [] hs hl hseek hread
    h1 h2 hc1.2.2.1 h4 h5

/-! ## Locate, and the failures of discovery -/

/-- C20: on a catalog that is contiguous from 0 with every part of at least
one byte, `gst_split_file_src_find_part_for_offset` returns `TRUE` with the
unique index `i` such that `parts[i].start <= offset <= parts[i].stop` when
`offset < total_size`, and returns `FALSE` leaving `*part_number` unchanged
when `offset >= total_size`. -/
theorem find_part_for_offset_spec (src : GstSplitFileSrc)
    (hcont : ContiguousFrom 0 src.parts) (offset part_number : Nat) :
    (offset < total_size src →
      ∃ i part, gst_split_file_src_find_part_for_offset src offset part_number = (true, i) ∧
        src.parts[i]? = some part ∧ part.start ≤ offset ∧ offset ≤ part.stop ∧
        ∀ j part1, src.parts[j]? = some part1 → part1.start ≤ offset → offset ≤ part1.stop →
          j = i) ∧
    (total_size src ≤ offset →
      gst_split_file_src_find_part_for_offset src offset part_number =
        (false, part_number)) := by
  constructor
  · intro hlt
    obtain ⟨pre, cur, rest, hparts, h1, h2⟩ :=
      part_of_offset src.parts 0 offset hcont (Nat.zero_le _) hlt
    have hfind : find_part_loop offset src.parts 0 = some pre.length := by
      have := find_part_at pre 0 cur rest offset 0 (hparts ▸ hcont) h1 h2
      rw [hparts, this, Nat.zero_add]
    have hidx := (index_of_split pre cur rest).1
    rw [← hparts] at hidx
    refine ⟨pre.length, cur, ?_, hidx, h1, h2, ?_⟩
    · simp only [gst_split_file_src_find_part_for_offset, hfind]
    · intro j part1 hj hs he
      obtain ⟨hsplit, hlen⟩ := split_at_index src.parts j part1 hj
      have hcont1 : ContiguousFrom 0 (src.parts.take j ++ part1 :: src.parts.drop (j + 1)) := by
        rw [← hsplit]; exact hcont
      have := find_part_at _ 0 part1 _ offset 0 hcont1 hs he
      rw [← hsplit, hfind, Nat.zero_add, hlen] at this
      injection this with this
      exact this.symm
  · intro hge
    simp only [gst_split_file_src_find_part_for_offset,
      find_part_none src.parts 0 offset 0 hcont hge]

/-- Witness of C20: in the catalog of 10, 10 and 5 bytes offset 12 is found in
part 1 and offset 25 is not found, `*part_number` keeping its value 7. -/
theorem find_part_for_offset_spec_witness :
    (∃ i part, gst_split_file_src_find_part_for_offset (example_src 0) 12 7 = (true, i) ∧
        (example_src 0).parts[i]? = some part ∧ part.start ≤ 12 ∧ 12 ≤ part.stop ∧
        ∀ j part1, (example_src 0).parts[j]? = some part1 → part1.start ≤ 12 →
          12 ≤ part1.stop → j = i) ∧
      gst_split_file_src_find_part_for_offset (example_src 0) 25 7 = (false, 7) :=
  ⟨(find_part_for_offset_spec (example_src 0) (example_built 0 (by decide)).contiguous 12 7).1
      (by decide),
   (find_part_for_offset_spec (example_src 0) (example_built 0 (by decide)).contiguous 25 7).2
      (by decide)⟩

/-- C12: with a directory that opens and a valid pattern,
`gst_split_file_src_find_files` fails with the error "Found no files matching
the pattern." if and only if no directory entry matches the pattern; and
whenever it succeeds the returned list holds at least one path. -/
theorem find_files_no_matches (env : Env) (dirname basename : GStr) (names : List GStr)
    (hdir : env.g_dir_open dirname = .ok names)
    (hutf8 : env.G_OS_WIN32 = true → env.g_utf8_validate basename = true) :
    (gst_split_file_src_find_files env (some dirname) (some basename) =
        .error ⟨.G_FILE_ERROR, G_FILE_ERROR_NOENT, "Found no files matching the pattern."⟩ ↔
      ∀ name ∈ names, env.pattern_match_string basename name = false) ∧
    (∀ files, gst_split_file_src_find_files env (some dirname) (some basename) = .ok files →
      files ≠ []) := by
  have hw : (env.G_OS_WIN32 && !env.g_utf8_validate basename) = false := by
    cases hW : env.G_OS_WIN32
    · simp
    · simp [hutf8 hW]
  constructor
  · simp only [gst_split_file_src_find_files, hdir, hw, find_files_loop_eq, List.nil_append]
    by_cases hnil : names.filter (env.pattern_match_string basename) = []
    · have hnone : ∀ name ∈ names, env.pattern_match_string basename name = false := by
        intro name hmem
        cases hm : env.pattern_match_string basename name
        · rfl
        · have : name ∈ names.filter (env.pattern_match_string basename) :=
            List.mem_filter.mpr ⟨hmem, hm⟩
          rw [hnil] at this
          simp at this
      simp only [hnil, List.map_nil, List.length_nil, if_true, true_iff, Bool.false_eq_true,
        if_false]
      exact hnone
    · have hsome : ¬ ∀ name ∈ names, env.pattern_match_string basename name = false := by
        intro hall
        apply hnil
        rw [List.filter_eq_nil_iff]
        intro name hmem
        simp [hall name hmem]
      have hlen : ¬ ((names.filter (env.pattern_match_string basename)).map
          (env.g_build_filename dirname)).length = 0 := by
        simpa using hnil
      simp only [hlen, if_false, Bool.false_eq_true]
      constructor
      · intro h; cases h
      · intro h; exact absurd h hsome
  · intro files h
    obtain ⟨d, b, names1, -, -, -, hfiles, hne⟩ := find_files_ok env _ _ files h
    intro hnil
    have hp := g_ptr_array_sort_perm ((names1.filter (env.pattern_match_string b)).map
      (env.g_build_filename d))
    rw [← hfiles, hnil] at hp
    have := hp.symm.eq_nil
    rw [List.map_eq_nil_iff] at this
    exact hne this

/-- Witness of C12: directory `/n` holds only `readme`, which pattern `?` does
not match. -/
theorem find_files_no_matches_witness :
    (gst_split_file_src_find_files example_env (some (cstr "/n")) (some (cstr "?")) =
        .error ⟨.G_FILE_ERROR, G_FILE_ERROR_NOENT, "Found no files matching the pattern."⟩ ↔
      ∀ name ∈ [cstr "readme"], example_env.pattern_match_string (cstr "?") name = false) ∧
    (∀ files, gst_split_file_src_find_files example_env (some (cstr "/n")) (some (cstr "?"))
        = .ok files → files ≠ []) :=
  find_files_no_matches example_env (cstr "/n") (cstr "?") [cstr "readme"] rfl (by decide)

/-- What `gst_split_file_src_start` does when discovery fails: it returns
`FALSE` at once, with the element state as it was. -/
theorem start_no_files (env : Env) (src : GstSplitFileSrc) (err : GError)
    (h : gst_split_file_src_find_files env (start_dirname env src) (start_basename env src) =
      .error err) :
    gst_split_file_src_start env src =
      some { ret := false, src := src, events := [],
             posted := if err.code = G_IO_ERROR_CANCELLED then none else some .OPEN_READ } := by
  have hd : (if (match src.location with
      | some location => decide (location ≠ [])
      | none => false) = true then src.location.map env.g_path_get_dirname else none) =
      start_dirname env src := by
    unfold start_dirname
    cases src.location with
    | none => rfl
    | some location => by_cases hne : location = [] <;> simp [hne]
  have hb : (if (match src.location with
      | some location => decide (location ≠ [])
      | none => false) = true then src.location.map env.g_path_get_basename else none) =
      start_basename env src := by
    unfold start_basename
    cases src.location with
    | none => rfl
    | some location => by_cases hne : location = [] <;> simp [hne]
  unfold gst_split_file_src_start
  simp only []
  rw [hd, hb, h]

/-- C13, as the code has it: `gst_split_file_src_find_files` fails with the
invalid-location error "No filename specified." whenever the directory or the
pattern is absent (`NULL`), whatever the environment (the directory is not
consulted); and `gst_split_file_src_start` passes `NULL` for both when the
location is `NULL` or the empty string, so that it fails with that error.  An
empty but non-`NULL` directory or pattern is not rejected by
`gst_split_file_src_find_files` itself. -/
theorem find_files_invalid_location (env : Env) (src : GstSplitFileSrc)
    (dirname basename : Option GStr) :
    ((dirname = none ∨ basename = none) →
      gst_split_file_src_find_files env dirname basename =
        .error ⟨.G_FILE_ERROR, G_FILE_ERROR_INVAL, "No filename specified."⟩) ∧
    ((src.location = none ∨ src.location = some []) →
      start_dirname env src = none ∧ start_basename env src = none ∧
      gst_split_file_src_start env src =
        some { ret := false, src := src, events := [], posted := some .OPEN_READ }) := by
  constructor
  · intro h
    rcases h with h | h
    · subst h; rfl
    · subst h
      cases dirname <;> rfl
  · intro h
    have hd : start_dirname env src = none := by
      rcases h with h | h <;> simp [start_dirname, h]
    have hb : start_basename env src = none := by
      rcases h with h | h <;> simp [start_basename, h]
    refine ⟨hd, hb, ?_⟩
    have := start_no_files env src
      ⟨.G_FILE_ERROR, G_FILE_ERROR_INVAL, "No filename specified."⟩ (by rw [hd, hb]; rfl)
    rw [this]
    rfl

/-- Witness of C13 (as the code has it): an absent pattern, and an element
whose location is the empty string. -/
theorem find_files_invalid_location_witness :
    gst_split_file_src_find_files example_env (some (cstr "/d")) none =
        .error ⟨.G_FILE_ERROR, G_FILE_ERROR_INVAL, "No filename specified."⟩ ∧
      gst_split_file_src_start example_env (new_src (some [])) =
        some { ret := false, src := new_src (some []), events := [],
               posted := some .OPEN_READ } :=
  ⟨(find_files_invalid_location example_env (new_src (some [])) (some (cstr "/d")) none).1
      (Or.inr rfl),
   ((find_files_invalid_location example_env (new_src (some [])) none none).2
      (Or.inr rfl)).2.2⟩

/-- C13 fails as stated for the empty string: with the empty directory name
`gst_split_file_src_find_files` does try to open the directory and returns the
error of `g_dir_open`; with the empty pattern it opens `/d`, matches nothing and
returns "Found no files matching the pattern."; neither is the
invalid-location error. -/
theorem find_files_empty_string_not_invalid :
    gst_split_file_src_find_files example_env (some []) (some (cstr "?")) =
        .error ⟨.G_FILE_ERROR, G_FILE_ERROR_NOENT, "No such file or directory"⟩ ∧
      gst_split_file_src_find_files example_env (some (cstr "/d")) (some []) =
        .error ⟨.G_FILE_ERROR, G_FILE_ERROR_NOENT, "Found no files matching the pattern."⟩ :=
  ⟨rfl, rfl⟩

/-- C14: whenever discovery fails inside `gst_split_file_src_start` (location
`NULL` or empty, directory that cannot be opened, no matching entry, or any
other failure of `gst_split_file_src_find_files`), start returns `FALSE` and
`parts`, `num_parts`, `cur_part` and the cancellation token are exactly as
they were before the call; no object is created or released. -/
theorem start_discovery_failure (env : Env) (src : GstSplitFileSrc) (err : GError)
    (h : gst_split_file_src_find_files env (start_dirname env src) (start_basename env src) =
      .error err) :
    ∃ r, gst_split_file_src_start env src = some r ∧ r.ret = false ∧
      r.src.parts = src.parts ∧ r.src.num_parts = src.num_parts ∧
      r.src.cur_part = src.cur_part ∧ r.src.cancellable = src.cancellable ∧
      r.src = src ∧ r.events = [] :=
  ⟨_, start_no_files env src err h, rfl, rfl, rfl, rfl, rfl, rfl, rfl⟩

/-- Witness of C14: an element holding the example catalog, cursor hint 2 and a
token, whose location `/n/?` matches no entry of `/n`. -/
theorem start_discovery_failure_witness :
    ∃ r, gst_split_file_src_start example_env
        { example_src 2 with location := some (cstr "/n/?") } = some r ∧ r.ret = false ∧
      r.src.parts = example_parts ∧ r.src.num_parts = 3 ∧
      r.src.cur_part = 2 ∧ r.src.cancellable = some ⟨false⟩ ∧
      r.src = { example_src 2 with location := some (cstr "/n/?") } ∧ r.events = [] :=
  start_discovery_failure example_env { example_src 2 with location := some (cstr "/n/?") }
    ⟨.G_FILE_ERROR, G_FILE_ERROR_NOENT, "Found no files matching the pattern."⟩ rfl

/-! ## Determinism of discovery -/

/-- Sorting two rearrangements of the same paths gives the same array. -/
theorem g_ptr_array_sort_congr (files files1 : List GStr) (hp : files.Perm files1) :
    g_ptr_array_sort files gst_split_file_src_array_sortfunc =
      g_ptr_array_sort files1 gst_split_file_src_array_sortfunc :=
  g_ptr_array_sort_unique files1 _ ((g_ptr_array_sort_perm files).trans hp)
    (g_ptr_array_sort_sorted files)

/-- The paths found do not depend on the order in which the directory
enumerates its entries. -/
theorem find_files_listing (env : Env) (dir_open : GStr → Except GError (List GStr))
    (h : ∀ dirname, SameListing (env.g_dir_open dirname) (dir_open dirname))
    (dirname basename : Option GStr) :
    gst_split_file_src_find_files { env with g_dir_open := dir_open } dirname basename =
      gst_split_file_src_find_files env dirname basename := by
  cases dirname with
  | none => rfl
  | some d =>
    cases basename with
    | none => rfl
    | some b =>
      have hd := h d
      simp only [gst_split_file_src_find_files, find_files_loop_eq, List.nil_append]
      cases h1 : env.g_dir_open d with
      | error e =>
        cases h2 : dir_open d with
        | error e1 =>
          rw [h1, h2] at hd
          simp only [SameListing] at hd
          rw [hd]
        | ok names1 =>
          rw [h1, h2] at hd
          simp only [SameListing] at hd
      | ok names =>
        cases h2 : dir_open d with
        | error e1 =>
          rw [h1, h2] at hd
          simp only [SameListing] at hd
        | ok names1 =>
          rw [h1, h2] at hd
          simp only [SameListing] at hd
          have hp : ((names1.filter (env.pattern_match_string b)).map
              (env.g_build_filename d)).Perm
              ((names.filter (env.pattern_match_string b)).map (env.g_build_filename d)) :=
            ((hd.symm.filter _).map _)
          simp only [hp.length_eq, g_ptr_array_sort_congr _ _ hp]

/-- The loop of `gst_split_file_src_start` consults the environment for the
files only. -/
theorem start_loop_listing (env : Env) (dir_open : GStr → Except GError (List GStr))
    (cancel : Option GCancellable) :
    ∀ (files : List GStr) (i offset : Nat) (parts : List GstFilePart) (events : List RefEvent),
      start_loop { env with g_dir_open := dir_open } cancel files i offset parts events =
        start_loop env cancel files i offset parts events := by
  intro files
  induction files with
  | nil => intro i offset parts events; rfl
  | cons path files ih =>
    intro i offset parts events
    simp only [start_loop, g_file_read, g_file_input_stream_query_info, ih]

/-- C11: discovery and catalog building do not depend on the order in which
the directory entries are enumerated: for two enumerations that are
permutations of each other, `gst_split_file_src_find_files` returns the same
path sequence and `gst_split_file_src_start` the same result, hence the same
`(start, stop)` for every part. -/
theorem discovery_deterministic (env : Env) (dir_open : GStr → Except GError (List GStr))
    (h : ∀ dirname, SameListing (env.g_dir_open dirname) (dir_open dirname))
    (src : GstSplitFileSrc) :
    (∀ dirname basename,
      gst_split_file_src_find_files { env with g_dir_open := dir_open } dirname basename =
        gst_split_file_src_find_files env dirname basename) ∧
    gst_split_file_src_start { env with g_dir_open := dir_open } src =
      gst_split_file_src_start env src ∧
    (gst_split_file_src_start { env with g_dir_open := dir_open } src).map
        (fun r => r.src.parts.map (fun p => (p.path, p.start, p.stop))) =
      (gst_split_file_src_start env src).map
        (fun r => r.src.parts.map (fun p => (p.path, p.start, p.stop))) := by
  have hstart : gst_split_file_src_start { env with g_dir_open := dir_open } src =
      gst_split_file_src_start env src := by
    simp only [gst_split_file_src_start, find_files_listing env dir_open h,
      start_loop_listing env dir_open]
  exact ⟨find_files_listing env dir_open h, hstart, by rw [hstart]⟩

/-- The permuted enumeration of the example holds the same entries. -/
theorem example_same_listing (dirname : GStr) :
    SameListing (example_env.g_dir_open dirname) (example_dir_open_permuted dirname) := by
  unfold example_dir_open_permuted
  by_cases hd : dirname = cstr "/d"
  · subst hd
    simp only [if_true]
    show List.Perm [cstr "c", cstr "readme", cstr "a", cstr "b"]
      [cstr "a", cstr "b", cstr "readme", cstr "c"]
    decide
  · simp only [hd, if_false]
    cases h : example_env.g_dir_open dirname with
    | error e => simp [SameListing]
    | ok names => simp [SameListing]

/-- Witness of C11: enumerating `/d` as `a`, `b`, `readme`, `c` instead of `c`,
`readme`, `a`, `b` gives the same catalog: `a` at 0..9, `b` at 10..19, `c` at
20..24. -/
theorem discovery_deterministic_witness :
    (gst_split_file_src_start { example_env with g_dir_open := example_dir_open_permuted }
        (new_src (some (cstr "/d/?")))).map
        (fun r => r.src.parts.map (fun p => (p.path, p.start, p.stop))) =
      some [(some (cstr "/d/a"), 0, 9), (some (cstr "/d/b"), 10, 19),
        (some (cstr "/d/c"), 20, 24)] ∧
    (gst_split_file_src_start { example_env with g_dir_open := example_dir_open_permuted }
        (new_src (some (cstr "/d/?")))).map
        (fun r => r.src.parts.map (fun p => (p.path, p.start, p.stop))) =
      (gst_split_file_src_start example_env (new_src (some (cstr "/d/?")))).map
        (fun r => r.src.parts.map (fun p => (p.path, p.start, p.stop))) :=
  ⟨by decide,
   (discovery_deterministic example_env example_dir_open_permuted example_same_listing
    (new_src (some (cstr "/d/?")))).2.2⟩

/-! ## The offset range of a returned buffer -/

/-- A read stores at most the number of bytes asked for. -/
theorem read_all_length (env : Env) (stream : GFileInputStream) (pos count : Nat)
    (cancel : Option GCancellable) (bytes : List Nat)
    (h : g_input_stream_read_all env stream pos count cancel = .ok bytes) :
    bytes.length ≤ count := by
  unfold g_input_stream_read_all at h
  split at h
  · simp at h
  · split at h
    · simp at h
    · injection h with h
      rw [← h, List.length_take]
      exact Nat.min_le_left _ _

/-- Invariant of the read loop: the bytes stored so far and the bytes still
to read add up to the allocated size, and `offset` is the buffer offset
advanced by the bytes stored.  Every `GST_FLOW_OK` exit then returns a buffer
whose size and offset range describe exactly the bytes stored. -/
theorem create_loop_range (env : Env) (num_parts : Nat) (cancel : Option GCancellable)
    (buf_offset buf_size : Nat) (hbs : buf_size < 2 ^ 32) :
    ∀ (rest : List GstFilePart) (cur_idx : Nat) (cur : GstFilePart) (size offset : Nat)
      (data : List Nat) (io : List IoCall) (r : CreateResult),
      size + data.length = buf_size → offset = (buf_offset + data.length) % 2 ^ 64 →
      create_loop env num_parts cancel buf_offset buf_size rest cur_idx cur size offset data io
        = some r → r.ret = .GST_FLOW_OK →
      ∃ b, r.buffer = some b ∧ b.offset = buf_offset ∧
        b.offset_end = (buf_offset + b.data.length) % 2 ^ 64 ∧ b.size = b.data.length ∧
        b.size = sub64 b.offset_end b.offset ∧ b.data.length ≤ buf_size := by
  have key : ∀ (data : List Nat), data.length ≤ buf_size →
      data.length = sub64 ((buf_offset + data.length) % 2 ^ 64) buf_offset := by
    intro data hd
    unfold sub64
    omega
  intro rest
  induction rest with
  | nil =>
    intro cur_idx cur size offset data io r hinv hoff h hok
    rw [create_loop] at h
    by_cases hs : size = 0
    · simp only [hs, if_true] at h
      injection h with h; subst h
      have hd : data.length = buf_size := by omega
      exact ⟨_, rfl, rfl, hoff, hd.symm, by simp only []; rw [hoff, ← key data (by omega), hd],
        by simp only []; omega⟩
    · simp only [hs, if_false] at h
      cases hst : cur.stream with
      | none => simp [hst] at h
      | some stream =>
        simp only [hst] at h
        cases hsk : g_seekable_seek env stream cancel with
        | some err =>
          simp only [hsk] at h
          split at h <;> (injection h with h; subst h; simp at hok)
        | none =>
          simp only [hsk] at h
          generalize hrd : g_input_stream_read_all _ _ _ _ _ = res at h
          cases res with
          | error err =>
            simp only at h
            split at h <;> (injection h with h; subst h; simp at hok)
          | ok bytes =>
            have hlen := read_all_length _ _ _ _ _ _ hrd
            have hle : bytes.length ≤ size := by omega
            simp only at h
            split at h
            · injection h with h; subst h
              rename_i hz
              have hd : (data ++ bytes).length = buf_size := by
                rw [List.length_append]; omega
              refine ⟨_, rfl, rfl, ?_, hd.symm, ?_, by simp only []; omega⟩
              · simp only [add64, List.length_append]; omega
              · simp only []
                have e : add64 offset bytes.length =
                    (buf_offset + (data ++ bytes).length) % 2 ^ 64 := by
                  simp only [add64, List.length_append]; omega
                rw [e, ← key (data ++ bytes) (by omega), hd]
            · split at h
              · split at h
                · injection h with h; subst h
                  have hd : (data ++ bytes).length ≤ buf_size := by
                    rw [List.length_append]; omega
                  have e : add64 offset bytes.length =
                      (buf_offset + (data ++ bytes).length) % 2 ^ 64 := by
                    simp only [add64, List.length_append]; omega
                  refine ⟨_, rfl, rfl, e, ?_, ?_, hd⟩
                  · simp only []; rw [e]; exact (key _ hd).symm
                  · simp only []
                · injection h with h; subst h; simp at hok
              · simp at h
  | cons next rest ih =>
    intro cur_idx cur size offset data io r hinv hoff h hok
    rw [create_loop] at h
    by_cases hs : size = 0
    · simp only [hs, if_true] at h
      injection h with h; subst h
      have hd : data.length = buf_size := by omega
      exact ⟨_, rfl, rfl, hoff, hd.symm, by simp only []; rw [hoff, ← key data (by omega), hd],
        by simp only []; omega⟩
    · simp only [hs, if_false] at h
      cases hst : cur.stream with
      | none => simp [hst] at h
      | some stream =>
        simp only [hst] at h
        cases hsk : g_seekable_seek env stream cancel with
        | some err =>
          simp only [hsk] at h
          split at h <;> (injection h with h; subst h; simp at hok)
        | none =>
          simp only [hsk] at h
          generalize hrd : g_input_stream_read_all _ _ _ _ _ = res at h
          cases res with
          | error err =>
            simp only at h
            split at h <;> (injection h with h; subst h; simp at hok)
          | ok bytes =>
            have hlen := read_all_length _ _ _ _ _ _ hrd
            have hle : bytes.length ≤ size := by omega
            simp only at h
            split at h
            · injection h with h; subst h
              rename_i hz
              have hd : (data ++ bytes).length = buf_size := by
                rw [List.length_append]; omega
              refine ⟨_, rfl, rfl, ?_, hd.symm, ?_, by simp only []; omega⟩
              · simp only [add64, List.length_append]; omega
              · simp only []
                have e : add64 offset bytes.length =
                    (buf_offset + (data ++ bytes).length) % 2 ^ 64 := by
                  simp only [add64, List.length_append]; omega
                rw [e, ← key (data ++ bytes) (by omega), hd]
            · split at h
              · split at h
                · injection h with h; subst h
                  have hd : (data ++ bytes).length ≤ buf_size := by
                    rw [List.length_append]; omega
                  have e : add64 offset bytes.length =
                      (buf_offset + (data ++ bytes).length) % 2 ^ 64 := by
                    simp only [add64, List.length_append]; omega
                  refine ⟨_, rfl, rfl, e, ?_, ?_, hd⟩
                  · simp only []; rw [e]; exact (key _ hd).symm
                  · simp only []
                · injection h with h; subst h; simp at hok
              · refine ih _ _ _ _ _ _ r ?_ ?_ h hok
                · rw [List.length_append]; omega
                · simp only [add64, List.length_append]; omega

/-- C19: for every call of `gst_split_file_src_create` that returns
`GST_FLOW_OK`, the returned buffer's `OFFSET` is the requested offset, its
`OFFSET_END` is the requested offset plus the number of bytes actually read
(in 64-bit arithmetic), and the buffer's size is that number of bytes, which
is `OFFSET_END - OFFSET`; also when the buffer was truncated and when
`size == 0`. -/
theorem create_offset_range (env : Env) (src : GstSplitFileSrc) (offset size : Nat)
    (r : CreateResult) (hoff : offset < 2 ^ 64) (hsize : size < 2 ^ 32)
    (h : gst_split_file_src_create env src offset size = some r)
    (hok : r.ret = .GST_FLOW_OK) :
    ∃ b, r.buffer = some b ∧ b.offset = offset ∧
      b.offset_end = (offset + b.data.length) % 2 ^ 64 ∧ b.size = b.data.length ∧
      b.size = sub64 b.offset_end b.offset ∧ b.data.length ≤ size := by
  have hmod : offset = (offset + ([] : List Nat).length) % 2 ^ 64 := by
    simp only [List.length_nil]; omega
  unfold gst_split_file_src_create at h
  split at h
  · simp at h
  · split at h
    · split at h
      · injection h with h; subst h; simp at hok
      · split at h
        · simp at h
        · exact create_loop_range env _ _ offset size hsize _ _ _ _ _ _ _ r (by simp) hmod h hok
    · exact create_loop_range env _ _ offset size hsize _ _ _ _ _ _ _ r (by simp) hmod h hok

/-- Witness of C19: `read (8, 6)` on the parts of 10, 10 and 5 bytes returns a
buffer of 6 bytes with `OFFSET = 8` and `OFFSET_END = 14`. -/
theorem create_offset_range_witness :
    ∃ b, (some { size := 6, data := [8, 9, 10, 11, 12, 13], offset := 8, offset_end := 14 }
        : Option GstBuffer) = some b ∧ b.offset = 8 ∧
      b.offset_end = (8 + b.data.length) % 2 ^ 64 ∧ b.size = b.data.length ∧
      b.size = sub64 b.offset_end b.offset ∧ b.data.length ≤ 6 :=
  create_offset_range example_env (example_src 0) 8 6
    { ret := .GST_FLOW_OK,
      buffer := some { size := 6, data := [8, 9, 10, 11, 12, 13], offset := 8,
                       offset_end := 14 },
      cur_part := 1,
      io := [.seek 0 (cstr "/d/a") 8, .read 0 (cstr "/d/a") 2, .seek 1 (cstr "/d/b") 0,
        .read 1 (cstr "/d/b") 4],
      posted := none, buf_unref := false }
    (by decide) (by decide) (by decide) rfl

/-! ## Reads that meet a changed or failing part -/

/-- One full iteration of the read loop: an unchanged part is read to its end
and the loop goes on with the next part. -/
theorem create_loop_step (env : Env) (num_parts : Nat) (cancel : Option GCancellable)
    (hc : g_cancellable_set_error_if_cancelled cancel = none) (buf_offset buf_size : Nat)
    (next : GstFilePart) (rest : List GstFilePart) (cur_idx : Nat) (cur : GstFilePart)
    (stream : GFileInputStream) (size offset : Nat) (data : List Nat) (io : List IoCall)
    (hstream : cur.stream = some stream)
    (hlen : (env.file stream).data.length = cur.stop + 1 - cur.start)
    (hseek : (env.file stream).seek_err = none) (hread : (env.file stream).read_err = none)
    (h1 : cur.start ≤ offset) (h2 : offset ≤ cur.stop) (h3 : cur.stop + 1 < 2 ^ 64)
    (h4 : size < 2 ^ 32) (h5 : cur.stop + 1 < offset + size) :
    create_loop env num_parts cancel buf_offset buf_size (next :: rest) cur_idx cur size offset
        data io =
      create_loop env num_parts cancel buf_offset buf_size rest (cur_idx + 1) next
        (size - (cur.stop + 1 - offset)) (cur.stop + 1)
        (data ++ (env.file stream).data.drop (offset - cur.start))
        (io ++ [.seek cur_idx stream (offset - cur.start)] ++
          [.read cur_idx stream (cur.stop + 1 - offset)]) := by
  obtain ⟨a1, a2, a3, a4⟩ := loop_arith cur.start cur.stop offset size h1 h2 h3 h4
  have hmin : min size (cur.stop + 1 - offset) = cur.stop + 1 - offset := by omega
  rw [hmin] at a2 a3 a4
  have hdrop : ((env.file stream).data.drop (offset - cur.start)).length =
      cur.stop + 1 - offset := by
    rw [List.length_drop, hlen]; omega
  have htake : ((env.file stream).data.drop (offset - cur.start)).take
      (cur.stop + 1 - offset) = (env.file stream).data.drop (offset - cur.start) :=
    List.take_of_length_le (by omega)
  have hs0 : ¬ size = 0 := by omega
  have hsz : ¬ size - (cur.stop + 1 - offset) = 0 := by omega
  have hnlt : ¬ cur.stop + 1 - offset < cur.stop + 1 - offset := by omega
  have e : offset + (cur.stop + 1 - offset) = cur.stop + 1 := by omega
  rw [create_loop]
  simp only [hstream, a1, a2, seek_ok env stream cancel hc hseek,
    read_all_ok env stream _ _ cancel hc hread, htake, hdrop, a3, a4, hs0, hsz, hnlt,
    if_false, e]

/-- Across unchanged parts: a read that starts in `cur` and extends into the
part `bad` that follows the unchanged parts `goods` arrives at `bad` with the
bytes of `cur` and `goods` stored. -/
theorem create_loop_through (env : Env) (num_parts : Nat) (cancel : Option GCancellable)
    (hc : g_cancellable_set_error_if_cancelled cancel = none) (buf_offset buf_size : Nat)
    (bad : GstFilePart) (rest : List GstFilePart) :
    ∀ (goods : List GstFilePart) (cur_idx : Nat) (cur : GstFilePart) (size offset : Nat)
      (data : List Nat) (io : List IoCall),
      ContiguousFrom cur.start (cur :: goods ++ bad :: rest) → Unchanged env (cur :: goods) →
      cur.start ≤ offset → offset ≤ cur.stop → size < 2 ^ 32 → bad.start < offset + size →
      ∃ io1, create_loop env num_parts cancel buf_offset buf_size (goods ++ bad :: rest)
          cur_idx cur size offset data io =
        create_loop env num_parts cancel buf_offset buf_size rest (cur_idx + goods.length + 1)
          bad (size - (bad.start - offset)) bad.start
          (data ++ (virtual_bytes env (cur :: goods)).drop (offset - cur.start)) io1 := by
  intro goods
  induction goods with
  | nil =>
    intro cur_idx cur size offset data io hcont hun h1 h2 h4 h5
    obtain ⟨stream, hstream, hlen, hseek, hread⟩ := hun cur (List.mem_cons_self _ _)
    simp only [List.nil_append, ContiguousFrom] at hcont
    obtain ⟨-, -, hlt, hnext, -⟩ := hcont
    refine ⟨io ++ [.seek cur_idx stream (offset - cur.start)] ++
      [.read cur_idx stream (cur.stop + 1 - offset)], ?_⟩
    rw [List.nil_append, create_loop_step env num_parts cancel hc buf_offset buf_size bad rest
      cur_idx cur stream size offset data io hstream hlen hseek hread h1 h2 hlt h4 (by omega)]
    have hv : virtual_bytes env [cur] = (env.file stream).data := by
      simp [virtual_bytes, part_bytes, hstream]
    simp only [hv, List.length_nil, Nat.add_zero, hnext]
  | cons g goods ih =>
    intro cur_idx cur size offset data io hcont hun h1 h2 h4 h5
    obtain ⟨stream, hstream, hlen, hseek, hread⟩ := hun cur (List.mem_cons_self _ _)
    have hcont0 := hcont
    simp only [List.cons_append, ContiguousFrom] at hcont
    obtain ⟨-, -, hlt, hnext, hgle, hglt, hrest⟩ := hcont
    have hcg : ContiguousFrom g.start (g :: goods ++ bad :: rest) := by
      simp only [List.cons_append, ContiguousFrom]
      exact ⟨trivial, hgle, hglt, hrest⟩
    obtain ⟨-, -, -, hbefore⟩ := contiguous_split (g :: goods) g.start bad rest hcg
    have hgb : g.stop < bad.start := hbefore g (List.mem_cons_self _ _)
    obtain ⟨io1, hio⟩ := ih (cur_idx + 1) g (size - (cur.stop + 1 - offset)) (cur.stop + 1)
      (data ++ (env.file stream).data.drop (offset - cur.start))
      (io ++ [.seek cur_idx stream (offset - cur.start)] ++
        [.read cur_idx stream (cur.stop + 1 - offset)])
      hcg (fun p hp => hun p (List.mem_cons_of_mem _ hp)) (by omega) (by omega) (by omega)
      (by omega)
    refine ⟨io1, ?_⟩
    rw [List.cons_append, create_loop_step env num_parts cancel hc buf_offset buf_size g
      (goods ++ bad :: rest) cur_idx cur stream size offset data io hstream hlen hseek hread
      h1 h2 hlt h4 (by omega), hio]
    have hb : part_bytes env cur = (env.file stream).data := by simp [part_bytes, hstream]
    have e1 : cur_idx + 1 + goods.length + 1 = cur_idx + (g :: goods).length + 1 := by
      simp only [List.length_cons]; omega
    have e2 : size - (cur.stop + 1 - offset) - (bad.start - (cur.stop + 1)) =
        size - (bad.start - offset) := by omega
    have e3 : cur.stop + 1 - g.start = 0 := by omega
    have e4 : offset - cur.start ≤ (env.file stream).data.length := by omega
    rw [e1, e2, e3, List.drop_zero, virtual_bytes_cons env cur, hb,
      List.drop_append_of_le_length e4, List.append_assoc]

/-- A read that starts in the first of the parts `goods ++ [bad]`, the `goods`
being unchanged, and that needs bytes of `bad`, arrives at `bad` with the
bytes of the `goods` stored; `size1` and `offset1` are what is left to read
and where. -/
theorem create_loop_reach (env : Env) (num_parts : Nat) (cancel : Option GCancellable)
    (buf_offset buf_size : Nat) (bad : GstFilePart) (rest : List GstFilePart)
    (goods : List GstFilePart) (first : GstFilePart) (tail : List GstFilePart)
    (cur_idx size offset : Nat) (data : List Nat) (io : List IoCall)
    (hchain : goods ++ bad :: rest = first :: tail)
    (hcont : ContiguousFrom first.start (first :: tail)) (hun : Unchanged env goods)
    (hc : goods ≠ [] → g_cancellable_set_error_if_cancelled cancel = none)
    (h1 : first.start ≤ offset) (h2 : offset ≤ first.stop) (h4 : size < 2 ^ 32)
    (h0 : 0 < size) (h5 : bad.start < offset + size) :
    ∃ size1 offset1 io1,
      create_loop env num_parts cancel buf_offset buf_size tail cur_idx first size offset data io
        = create_loop env num_parts cancel buf_offset buf_size rest (cur_idx + goods.length) bad
            size1 offset1 (data ++ (virtual_bytes env goods).drop (offset - first.start)) io1 ∧
      bad.start ≤ offset1 ∧ offset1 ≤ bad.stop ∧ bad.stop + 1 < 2 ^ 64 ∧ 0 < size1 ∧
      size1 < 2 ^ 32 ∧ offset1 + size1 = offset + size ∧
      offset1 = offset + ((virtual_bytes env goods).drop (offset - first.start)).length ∧
      offset1 - bad.start = offset - first.start - (virtual_bytes env goods).length := by
  cases goods with
  | nil =>
    simp only [List.nil_append] at hchain
    injection hchain with hb ht
    subst hb ht
    simp only [ContiguousFrom] at hcont
    refine ⟨size, offset, io, ?_, h1, h2, hcont.2.2.1, h0, h4, rfl, ?_, ?_⟩
    · simp [virtual_bytes]
    · simp [virtual_bytes]
    · simp [virtual_bytes]
  | cons g goods =>
    simp only [List.cons_append] at hchain
    injection hchain with hg ht
    subst hg ht
    obtain ⟨hcb, -, -, hbefore⟩ := contiguous_split (g :: goods) g.start bad rest hcont
    have hgb : g.stop < bad.start := hbefore g (List.mem_cons_self _ _)
    simp only [ContiguousFrom] at hcb
    have hpre := virtual_bytes_prefix env (g :: goods) g.start bad rest hcont hun
    obtain ⟨io1, hio⟩ := create_loop_through env num_parts cancel (hc (by simp)) buf_offset
      buf_size bad rest goods cur_idx g size offset data io hcont hun h1 h2 h4 h5
    refine ⟨size - (bad.start - offset), bad.start, io1, ?_, Nat.le_refl _, hcb.2.1,
      hcb.2.2.1, by omega, by omega, by omega, ?_, ?_⟩
    · rw [hio]
      have e : cur_idx + goods.length + 1 = cur_idx + (g :: goods).length := by
        simp only [List.length_cons]; omega
      rw [e]
    · rw [List.length_drop]; omega
    · omega

/-- The iteration on a part whose file delivers fewer bytes than asked for (it
is shorter than recorded and the request needs more than it holds): the buffer
is truncated when the part is the last one, and the read fails otherwise. -/
theorem create_loop_short (env : Env) (num_parts : Nat) (cancel : Option GCancellable)
    (hc : g_cancellable_set_error_if_cancelled cancel = none) (buf_offset buf_size : Nat)
    (rest : List GstFilePart) (cur_idx : Nat) (cur : GstFilePart) (stream : GFileInputStream)
    (size offset : Nat) (data : List Nat) (io : List IoCall)
    (hstream : cur.stream = some stream)
    (hseek : (env.file stream).seek_err = none) (hread : (env.file stream).read_err = none)
    (hshort : (env.file stream).data.length < cur.stop + 1 - cur.start)
    (h1 : cur.start ≤ offset) (h2 : offset ≤ cur.stop) (h3 : cur.stop + 1 < 2 ^ 64)
    (h4 : size < 2 ^ 32) (h0 : 0 < size)
    (hneed : cur.start + (env.file stream).data.length < offset + size) :
    create_loop env num_parts cancel buf_offset buf_size rest cur_idx cur size offset data io =
      if cur_idx = (num_parts + (2 ^ 32 - 1)) % 2 ^ 32 then
        some { ret := .GST_FLOW_OK,
               buffer := some {
                 size := sub64 (add64 offset
                   ((env.file stream).data.drop (offset - cur.start)).length) buf_offset,
                 data := data ++ (env.file stream).data.drop (offset - cur.start),
                 offset := buf_offset,
                 offset_end := add64 offset
                   ((env.file stream).data.drop (offset - cur.start)).length },
               cur_part := cur_idx,
               io := io ++ [.seek cur_idx stream (offset - cur.start)] ++
                 [.read cur_idx stream (min size (cur.stop + 1 - offset))],
               posted := none, buf_unref := false }
      else
        some { ret := .GST_FLOW_ERROR, buffer := none, cur_part := cur_idx,
               io := io ++ [.seek cur_idx stream (offset - cur.start)] ++
                 [.read cur_idx stream (min size (cur.stop + 1 - offset))],
               posted := some .READ, buf_unref := true } := by
  obtain ⟨a1, a2, -, -⟩ := loop_arith cur.start cur.stop offset size h1 h2 h3 h4
  have hk : ((env.file stream).data.drop (offset - cur.start)).length <
      min size (cur.stop + 1 - offset) := by
    rw [List.length_drop]; omega
  have htake : ((env.file stream).data.drop (offset - cur.start)).take
      (min size (cur.stop + 1 - offset)) = (env.file stream).data.drop (offset - cur.start) :=
    List.take_of_length_le (by omega)
  have hs0 : ¬ size = 0 := by omega
  have hsz : ¬ (size % 2 ^ 32 + (2 ^ 32 -
      ((env.file stream).data.drop (offset - cur.start)).length % 2 ^ 32)) % 2 ^ 32 = 0 := by
    omega
  rw [create_loop]
  simp only [hstream, a1, a2, seek_ok env stream cancel hc hseek,
    read_all_ok env stream _ _ cancel hc hread, htake, hs0, hsz, hk, if_false, if_true]

theorem head_split (goods : List GstFilePart) (bad first : GstFilePart)
    (rest : List GstFilePart) (h : (goods ++ [bad]).head? = some first) :
    ∃ tail, goods ++ bad :: rest = first :: tail := by
  cases goods with
  | nil =>
    simp only [List.nil_append, List.head?_cons] at h
    injection h with h
    exact ⟨rest, by rw [h]; rfl⟩
  | cons g goods =>
    simp only [List.cons_append, List.head?_cons] at h
    injection h with h
    exact ⟨goods ++ bad :: rest, by rw [h]; rfl⟩

/-- On a built catalog `pre ++ goods ++ bad :: rest` whose parts `goods` are
unchanged, a read that starts in the first part of `goods ++ [bad]` and needs
bytes of `bad` enters the loop iteration of `bad` with the bytes of the
`goods` stored. -/
theorem create_reach (env : Env) (src : GstSplitFileSrc) (hb : Built src)
    (pre goods : List GstFilePart) (bad : GstFilePart) (rest : List GstFilePart)
    (first : GstFilePart) (hparts : src.parts = pre ++ goods ++ bad :: rest)
    (hfirst : (goods ++ [bad]).head? = some first) (hun : Unchanged env goods)
    (hc : goods ≠ [] → g_cancellable_set_error_if_cancelled src.cancellable = none)
    (offset size : Nat) (h1 : first.start ≤ offset) (h2 : offset ≤ first.stop)
    (h4 : size < 2 ^ 32) (h0 : 0 < size) (h5 : bad.start < offset + size) :
    ∃ size1 offset1 io1,
      gst_split_file_src_create env src offset size =
        create_loop env src.num_parts src.cancellable offset size rest
          (pre.length + goods.length) bad size1 offset1
          ((virtual_bytes env goods).drop (offset - first.start)) io1 ∧
      bad.start ≤ offset1 ∧ offset1 ≤ bad.stop ∧ bad.stop + 1 < 2 ^ 64 ∧ 0 < size1 ∧
      size1 < 2 ^ 32 ∧ offset1 + size1 = offset + size ∧
      offset1 = offset + ((virtual_bytes env goods).drop (offset - first.start)).length ∧
      offset1 - bad.start = offset - first.start - (virtual_bytes env goods).length := by
  obtain ⟨tail, htail⟩ := head_split goods bad first rest hfirst
  have hparts1 : src.parts = pre ++ first :: tail := by
    rw [hparts, List.append_assoc, htail]
  have hcont := hb.contiguous
  obtain ⟨hcf, -, -, -⟩ := contiguous_split pre 0 first tail (hparts1 ▸ hcont)
  obtain ⟨size1, offset1, io1, hloop, hrest⟩ := create_loop_reach env src.num_parts
    src.cancellable offset size bad rest goods first tail pre.length size offset [] [] htail hcf
    hun hc h1 h2 h4 h0 h5
  refine ⟨size1, offset1, io1, ?_, hrest⟩
  rw [create_located env src offset size pre first tail hparts1 hcont hb.hint h1 h2, hloop,
    List.nil_append]

/-- C15: when a part that is not the last one of the catalog delivers fewer
bytes than the `to_read` requested from it (its file is shorter than recorded
and the request needs more than it holds), `gst_split_file_src_create`
returns `GST_FLOW_ERROR`, releases the buffer and hands none to the caller,
whatever number of unchanged parts `goods` were read before it. -/
theorem create_truncated_part (env : Env) (src : GstSplitFileSrc) (hb : Built src)
    (hc : g_cancellable_set_error_if_cancelled src.cancellable = none)
    (pre goods : List GstFilePart) (bad : GstFilePart) (rest : List GstFilePart)
    (first : GstFilePart) (stream : GFileInputStream)
    (hparts : src.parts = pre ++ goods ++ bad :: rest) (hrest : rest ≠ [])
    (hfirst : (goods ++ [bad]).head? = some first) (hun : Unchanged env goods)
    (hstream : bad.stream = some stream)
    (hseek : (env.file stream).seek_err = none) (hread : (env.file stream).read_err = none)
    (hshort : (env.file stream).data.length < bad.stop + 1 - bad.start)
    (offset size : Nat) (h1 : first.start ≤ offset) (h2 : offset ≤ first.stop)
    (h4 : size < 2 ^ 32) (h0 : 0 < size)
    (hneed : bad.start + (env.file stream).data.length < offset + size) :
    ∃ r, gst_split_file_src_create env src offset size = some r ∧
      r.ret = .GST_FLOW_ERROR ∧ r.buffer = none ∧ r.buf_unref = true ∧
      r.posted = some .READ := by
  obtain ⟨size1, offset1, io1, hcreate, hs, he, hlt, hpos, hsz, hsum, -, -⟩ :=
    create_reach env src hb pre goods bad rest first hparts hfirst hun (fun _ => hc) offset size
      h1 h2 h4 h0 (by omega)
  have hidx : ¬ pre.length + goods.length = (src.num_parts + (2 ^ 32 - 1)) % 2 ^ 32 := by
    have hcount := hb.count
    have hlen : src.num_parts = pre.length + goods.length + (rest.length + 1) := by
      unfold GstSplitFileSrc.num_parts
      rw [hparts]
      simp only [List.length_append, List.length_cons]
    have hr : 0 < rest.length := List.length_pos.mpr hrest
    omega
  rw [hcreate, create_loop_short env src.num_parts src.cancellable hc offset size rest
    (pre.length + goods.length) bad stream size1 offset1 _ io1 hstream hseek hread hshort hs he
    hlt hsz hpos (by omega)]
  simp only [hidx, if_false]
  exact ⟨_, rfl, rfl, rfl, rfl, rfl⟩

/-- C16: when the last part of the catalog delivers fewer bytes than the
`to_read` requested from it, `gst_split_file_src_create` returns
`GST_FLOW_OK` with the buffer's size set to exactly the number of bytes
produced in this call, the bytes of the unchanged parts `goods` read before it
followed by the short read, in order. -/
theorem create_short_final_part (env : Env) (src : GstSplitFileSrc) (hb : Built src)
    (hc : g_cancellable_set_error_if_cancelled src.cancellable = none)
    (pre goods : List GstFilePart) (bad first : GstFilePart) (stream : GFileInputStream)
    (hparts : src.parts = pre ++ goods ++ [bad])
    (hfirst : (goods ++ [bad]).head? = some first) (hun : Unchanged env goods)
    (hstream : bad.stream = some stream)
    (hseek : (env.file stream).seek_err = none) (hread : (env.file stream).read_err = none)
    (hshort : (env.file stream).data.length < bad.stop + 1 - bad.start)
    (offset size : Nat) (h1 : first.start ≤ offset) (h2 : offset ≤ first.stop)
    (h4 : size < 2 ^ 32) (h0 : 0 < size)
    (hneed : bad.start + (env.file stream).data.length < offset + size) :
    ∃ r, gst_split_file_src_create env src offset size = some r ∧
      r.ret = .GST_FLOW_OK ∧
      r.buffer = some {
        size := ((virtual_bytes env (goods ++ [bad])).drop (offset - first.start)).length,
        data := (virtual_bytes env (goods ++ [bad])).drop (offset - first.start),
        offset := offset,
        offset_end := offset +
          ((virtual_bytes env (goods ++ [bad])).drop (offset - first.start)).length } ∧
      ((virtual_bytes env (goods ++ [bad])).drop (offset - first.start)).length < size ∧
      r.cur_part = src.num_parts - 1 := by
  obtain ⟨size1, offset1, io1, hcreate, hs, he, hlt, hpos, hsz, hsum, hoff, hrel⟩ :=
    create_reach env src hb pre goods bad [] first hparts hfirst hun (fun _ => hc) offset size
      h1 h2 h4 h0 (by omega)
  have hlen : src.num_parts = pre.length + goods.length + 1 := by
    unfold GstSplitFileSrc.num_parts
    rw [hparts]
    simp only [List.length_append, List.length_cons, List.length_nil]
  have hidx : pre.length + goods.length = (src.num_parts + (2 ^ 32 - 1)) % 2 ^ 32 := by
    have hcount := hb.count
    omega
  have hvb : virtual_bytes env [bad] = (env.file stream).data := by
    simp [virtual_bytes, part_bytes, hstream]
  have hprod : (virtual_bytes env (goods ++ [bad])).drop (offset - first.start) =
      (virtual_bytes env goods).drop (offset - first.start) ++
        (env.file stream).data.drop (offset1 - bad.start) := by
    rw [virtual_bytes_append, hvb, List.drop_append_eq_append_drop, hrel]
  have hplen : ((virtual_bytes env (goods ++ [bad])).drop (offset - first.start)).length =
      offset1 - offset + ((env.file stream).data.drop (offset1 - bad.start)).length := by
    rw [hprod, List.length_append]; omega
  have hk : ((env.file stream).data.drop (offset1 - bad.start)).length =
      (env.file stream).data.length - (offset1 - bad.start) := List.length_drop _ _
  rw [hcreate, create_loop_short env src.num_parts src.cancellable hc offset size []
    (pre.length + goods.length) bad stream size1 offset1 _ io1 hstream hseek hread hshort hs he
    hlt hsz hpos (by omega)]
  simp only [hidx, if_true]
  refine ⟨_, rfl, rfl, ?_, by rw [hplen, hk]; omega, by simp only []; omega⟩
  simp only [Option.some.injEq]
  have e1 : add64 offset1 ((env.file stream).data.drop (offset1 - bad.start)).length =
      offset + ((virtual_bytes env (goods ++ [bad])).drop (offset - first.start)).length := by
    rw [hplen, hk]; unfold add64; omega
  have e2 : sub64 (offset +
      ((virtual_bytes env (goods ++ [bad])).drop (offset - first.start)).length) offset =
      ((virtual_bytes env (goods ++ [bad])).drop (offset - first.start)).length := by
    rw [hplen, hk]; unfold sub64; omega
  rw [e1, e2, ← hprod]

/-- Changing the file of another part leaves a part of the example unchanged. -/
theorem example_unchanged_a (last : Nat) (change : GFile → GFile) (h : last ≠ 97) :
    Unchanged (with_file example_env last change)
      [{ stream := some (cstr "/d/a"), path := some (cstr "/d/a"), start := 0, stop := 9 }] := by
  intro p hp
  simp only [List.mem_singleton] at hp
  subst hp
  have hl : (cstr "/d/a").getLast? = some 97 := by decide
  have hne : ¬ (some 97 : Option Nat) = some last := by
    intro he; injection he with he; exact h he.symm
  refine ⟨cstr "/d/a", rfl, ?_, ?_, ?_⟩ <;> simp only [with_file, hl, hne, if_false] <;> decide

/-- Changing the file of another part leaves part `b` of the example
unchanged. -/
theorem example_unchanged_b (last : Nat) (change : GFile → GFile) (h : last ≠ 98) :
    Unchanged (with_file example_env last change)
      [{ stream := some (cstr "/d/b"), path := some (cstr "/d/b"), start := 10,
         stop := 19 }] := by
  intro p hp
  simp only [List.mem_singleton] at hp
  subst hp
  have hl : (cstr "/d/b").getLast? = some 98 := by decide
  have hne : ¬ (some 98 : Option Nat) = some last := by
    intro he; injection he with he; exact h he.symm
  refine ⟨cstr "/d/b", rfl, ?_, ?_, ?_⟩ <;> simp only [with_file, hl, hne, if_false] <;> decide

/-- Witness of C15: file `b` has shrunk to 4 bytes; `read (8, 8)` takes 2 bytes
of `a`, asks 6 of `b`, gets 4, and fails. -/
theorem create_truncated_part_witness :
    ∃ r, gst_split_file_src_create
        (with_file example_env 98 (fun f => { f with data := f.data.take 4 }))
        (example_src 0) 8 8 = some r ∧
      r.ret = .GST_FLOW_ERROR ∧ r.buffer = none ∧ r.buf_unref = true ∧
      r.posted = some .READ :=
  create_truncated_part (with_file example_env 98 (fun f => { f with data := f.data.take 4 }))
    (example_src 0) (example_built 0 (by decide)) rfl []
    [{ stream := some (cstr "/d/a"), path := some (cstr "/d/a"), start := 0, stop := 9 }]
    { stream := some (cstr "/d/b"), path := some (cstr "/d/b"), start := 10, stop := 19 }
    [{ stream := some (cstr "/d/c"), path := some (cstr "/d/c"), start := 20, stop := 24 }]
    { stream := some (cstr "/d/a"), path := some (cstr "/d/a"), start := 0, stop := 9 }
    (cstr "/d/b") rfl (by decide) rfl (example_unchanged_a 98 _ (by decide)) rfl
    (by decide) (by decide) (by decide) 8 8 (by decide) (by decide) (by decide) (by decide)
    (by decide)

/-- Witness of C16: file `c` has shrunk to 4 bytes; `read (18, 7)` with cursor
hint 1 returns the 6 bytes `18..23` in a buffer of size 6. -/
theorem create_short_final_part_witness :
    ∃ r, gst_split_file_src_create
        (with_file example_env 99 (fun f => { f with data := f.data.take 4 }))
        (example_src 1) 18 7 = some r ∧
      r.ret = .GST_FLOW_OK ∧
      r.buffer = some { size := 6, data := [18, 19, 20, 21, 22, 23], offset := 18,
                        offset_end := 24 } ∧
      6 < 7 ∧ r.cur_part = 2 :=
  create_short_final_part
    (with_file example_env 99 (fun f => { f with data := f.data.take 4 }))
    (example_src 1) (example_built 1 (by decide)) rfl
    [{ stream := some (cstr "/d/a"), path := some (cstr "/d/a"), start := 0, stop := 9 }]
    [{ stream := some (cstr "/d/b"), path := some (cstr "/d/b"), start := 10, stop := 19 }]
    { stream := some (cstr "/d/c"), path := some (cstr "/d/c"), start := 20, stop := 24 }
    { stream := some (cstr "/d/b"), path := some (cstr "/d/b"), start := 10, stop := 19 }
    (cstr "/d/c") rfl rfl (example_unchanged_b 99 _ (by decide)) rfl
    (by decide) (by decide) (by decide) 18 7 (by decide) (by decide) (by decide) (by decide)
    (by decide)

/-- C17, as the code has it: `gst_split_file_src_unlock` has no effect (its
body is compiled out): it returns `TRUE` and leaves the element state, the
cancellation token included, as it was.  Hence on a built catalog with
unchanged files and a token that is not cancelled, the next
`gst_split_file_src_create` after the unlock completes its I/O and returns
`GST_FLOW_OK` with the requested bytes, not `GST_FLOW_FLUSHING`. -/
theorem unlock_no_effect (env : Env) (src : GstSplitFileSrc) (hb : Built src)
    (hun : Unchanged env src.parts)
    (hc : g_cancellable_set_error_if_cancelled src.cancellable = none)
    (offset size : Nat) (hsize : size < 2 ^ 32) (hlt : offset < total_size src)
    (hle : offset + size ≤ total_size src) :
    (gst_split_file_src_unlock src).1 = true ∧ (gst_split_file_src_unlock src).2 = src ∧
      (gst_split_file_src_unlock src).2.cancellable = src.cancellable ∧
      ∃ res, gst_split_file_src_create env (gst_split_file_src_unlock src).2 offset size
          = some res ∧
        res.ret = .GST_FLOW_OK ∧
        res.buffer = some { size := size,
                            data := ((virtual_bytes env src.parts).drop offset).take size,
                            offset := offset, offset_end := offset + size } :=
  ⟨rfl, rfl, rfl, create_ok_core env src offset size hb.contiguous hb.hint hun hc hsize hlt hle⟩

/-- Witness of C17 (as the code has it): after an unlock of the started
example, `read (8, 6)` still returns bytes 8..13. -/
theorem unlock_no_effect_witness :
    (gst_split_file_src_unlock (example_src 0)).1 = true ∧
      (gst_split_file_src_unlock (example_src 0)).2 = example_src 0 ∧
      (gst_split_file_src_unlock (example_src 0)).2.cancellable = some ⟨false⟩ ∧
      ∃ res, gst_split_file_src_create example_env
          (gst_split_file_src_unlock (example_src 0)).2 8 6 = some res ∧
        res.ret = .GST_FLOW_OK ∧
        res.buffer = some { size := 6, data := [8, 9, 10, 11, 12, 13], offset := 8,
                            offset_end := 14 } :=
  unlock_no_effect example_env (example_src 0) (example_built 0 (by decide))
    example_unchanged rfl 8 6 (by decide) (by decide) (by decide)

/-- C17 fails as stated: after `gst_split_file_src_unlock` on the started
example the cancellation token is still not set, and the next `read (8, 6)`
performs its two seeks and two reads and returns `GST_FLOW_OK`, not
`GST_FLOW_FLUSHING`. -/
theorem unlock_does_not_cancel :
    (gst_split_file_src_unlock (example_src 0)).2.cancellable = some ⟨false⟩ ∧
      gst_split_file_src_create example_env (gst_split_file_src_unlock (example_src 0)).2 8 6 =
        some { ret := .GST_FLOW_OK,
               buffer := some { size := 6, data := [8, 9, 10, 11, 12, 13], offset := 8,
                                offset_end := 14 },
               cur_part := 1,
               io := [.seek 0 (cstr "/d/a") 8, .read 0 (cstr "/d/a") 2,
                 .seek 1 (cstr "/d/b") 0, .read 1 (cstr "/d/b") 4],
               posted := none, buf_unref := false } := by
  decide

/-! ## Teardown -/

/-- When the loop of `gst_split_file_src_start` runs to its end it has opened
one stream per path and released none. -/
theorem start_loop_events (env : Env) (cancel : Option GCancellable) :
    ∀ (files : List GStr) (i offset : Nat) (parts0 : List GstFilePart)
      (events : List RefEvent) (parts : List GstFilePart) (events1 : List RefEvent),
      start_loop env cancel files i offset parts0 events = .done parts events1 →
      events1 = events ++ files.map RefEvent.stream_new := by
  intro files
  induction files with
  | nil =>
    intro i offset parts0 events parts events1 h
    simp only [start_loop] at h
    injection h with h1 h2
    simp [← h2]
  | cons path files ih =>
    intro i offset parts0 events parts events1 h
    simp only [start_loop] at h
    split at h
    · simp at h
    · rename_i stream hopen
      have hs := g_file_read_ok env path cancel stream hopen
      subst hs
      split at h
      · simp at h
      · have := ih _ _ _ _ parts events1 h
        rw [this]
        simp

/-- The events of a successful `gst_split_file_src_start`: one stream opened
per discovered path, then the new cancellation token. -/
theorem start_ok_events (env : Env) (src : GstSplitFileSrc) (r : StartResult)
    (h : gst_split_file_src_start env src = some r) (hret : r.ret = true) :
    ∃ files, r.src.parts = catalog env 0 files ∧
      r.events = files.map RefEvent.stream_new ++ [.cancellable_new] ∧
      r.src.cancellable = some ⟨false⟩ := by
  unfold gst_split_file_src_start at h
  simp only at h
  split at h
  · injection h with h; subst h; simp at hret
  · simp at h
  · rename_i file files _
    split at h
    · rename_i parts events hloop
      injection h with h
      subst h
      have hp := start_loop_done env src.cancellable (file :: files) 0 0 []
        (List.replicate (file :: files).length GstFilePart.zero) [] parts events rfl
        (by simp) (by simpa using hloop)
      have he := start_loop_events env src.cancellable (file :: files) 0 0 _ [] parts events
        hloop
      refine ⟨file :: files, ?_, ?_, rfl⟩
      · simp only [hp]; simp
      · simp only [he]; simp
    · injection h with h; subst h; simp at hret
    · injection h with h; subst h; simp at hret

/-- The releases of `gst_split_file_src_stop` on a catalog built by start: one
per part, on the stream opened for its path. -/
theorem stop_loop_catalog (env : Env) (offset : Nat) (files : List GStr) :
    stop_loop (catalog env offset files) = files.map RefEvent.stream_unref := by
  induction files generalizing offset with
  | nil => rfl
  | cons path files ih => simp [catalog, stop_loop, ih]

theorem count_stream_new (files : List GStr) (s : GFileInputStream) :
    (files.map RefEvent.stream_new ++ [RefEvent.cancellable_new]).count (.stream_new s) =
      files.count s := by
  induction files with
  | nil => simp
  | cons path files ih =>
    simp only [List.map_cons, List.cons_append, List.count_cons, ih]
    by_cases hp : path = s <;> simp [hp]

theorem count_stream_unref (files : List GStr) (s : GFileInputStream)
    (c : Option GCancellable) :
    (files.map RefEvent.stream_unref ++ [RefEvent.cancellable_unref c]).count
        (.stream_unref s) = files.count s := by
  induction files with
  | nil => simp
  | cons path files ih =>
    simp only [List.map_cons, List.cons_append, List.count_cons, ih]
    by_cases hp : path = s <;> simp [hp]

/-- C21: after `gst_split_file_src_stop` on a started stream, every stream
opened by the preceding `gst_split_file_src_start` has been released exactly
once (the releases of stop are the streams start opened, one for one), the
token created by start has been released once, the catalog is empty
(`parts == NULL`, `num_parts == 0`) and the cancellation token is cleared. -/
theorem stop_after_start (env : Env) (src : GstSplitFileSrc) (r : StartResult)
    (h : gst_split_file_src_start env src = some r) (hret : r.ret = true) :
    ∃ files : List GStr,
      r.events = files.map RefEvent.stream_new ++ [.cancellable_new] ∧
      gst_split_file_src_stop r.src =
        (true, { r.src with parts := [], cancellable := none },
         files.map RefEvent.stream_unref ++ [.cancellable_unref (some ⟨false⟩)]) ∧
      (∀ s, (gst_split_file_src_stop r.src).2.2.count (.stream_unref s) =
        r.events.count (.stream_new s)) ∧
      (gst_split_file_src_stop r.src).2.2.count (.cancellable_unref (some ⟨false⟩)) = 1 ∧
      (gst_split_file_src_stop r.src).2.1.parts = [] ∧
      (gst_split_file_src_stop r.src).2.1.num_parts = 0 ∧
      (gst_split_file_src_stop r.src).2.1.cancellable = none := by
  obtain ⟨files, hparts, hev, hcancel⟩ := start_ok_events env src r h hret
  have hstop : gst_split_file_src_stop r.src =
      (true, { r.src with parts := [], cancellable := none },
       files.map RefEvent.stream_unref ++ [.cancellable_unref (some ⟨false⟩)]) := by
    unfold gst_split_file_src_stop
    rw [hparts, stop_loop_catalog, hcancel]
  refine ⟨files, hev, hstop, ?_, ?_, ?_, ?_, ?_⟩
  · intro s
    rw [hstop, hev]
    simp only []
    rw [count_stream_unref, count_stream_new]
  · rw [hstop]
    simp only []
    rw [List.count_append]
    have : (files.map RefEvent.stream_unref).count (.cancellable_unref (some ⟨false⟩)) = 0 := by
      rw [List.count_eq_zero]
      intro hm
      obtain ⟨_, _, hx⟩ := List.mem_map.mp hm
      cases hx
    rw [this]
    simp
  · rw [hstop]
  · rw [hstop]; rfl
  · rw [hstop]

/-- Witness of C21: stopping the element started on `/d/?` releases the
streams of `a`, `b` and `c` once each, and the token. -/
theorem stop_after_start_witness :
    ∃ files : List GStr,
      [RefEvent.stream_new (cstr "/d/a"), .stream_new (cstr "/d/b"),
        .stream_new (cstr "/d/c"), .cancellable_new] =
        files.map RefEvent.stream_new ++ [.cancellable_new] ∧
      gst_split_file_src_stop (example_src 0) =
        (true, { example_src 0 with parts := [], cancellable := none },
         files.map RefEvent.stream_unref ++ [.cancellable_unref (some ⟨false⟩)]) ∧
      (∀ s, (gst_split_file_src_stop (example_src 0)).2.2.count (.stream_unref s) =
        [RefEvent.stream_new (cstr "/d/a"), .stream_new (cstr "/d/b"),
          .stream_new (cstr "/d/c"), .cancellable_new].count (.stream_new s)) ∧
      (gst_split_file_src_stop (example_src 0)).2.2.count
        (.cancellable_unref (some ⟨false⟩)) = 1 ∧
      (gst_split_file_src_stop (example_src 0)).2.1.parts = [] ∧
      (gst_split_file_src_stop (example_src 0)).2.1.num_parts = 0 ∧
      (gst_split_file_src_stop (example_src 0)).2.1.cancellable = none :=
  stop_after_start example_env (new_src (some (cstr "/d/?")))
    { ret := true, src := example_src 0,
      events := [.stream_new (cstr "/d/a"), .stream_new (cstr "/d/b"),
        .stream_new (cstr "/d/c"), .cancellable_new],
      posted := none } rfl rfl

/-- C22 fails on the code: a second `gst_split_file_src_stop` in a row leaves
the state as the first did and releases no stream, but it calls
`g_object_unref (src->cancellable)` although the first call has set the token
to `NULL`: a release of an absent object. -/
theorem stop_twice_unrefs_null :
    gst_split_file_src_stop (example_src 0) =
        (true, { example_src 0 with parts := [], cancellable := none },
         [.stream_unref (cstr "/d/a"), .stream_unref (cstr "/d/b"),
           .stream_unref (cstr "/d/c"), .cancellable_unref (some ⟨false⟩)]) ∧
      gst_split_file_src_stop (gst_split_file_src_stop (example_src 0)).2.1 =
        (true, { example_src 0 with parts := [], cancellable := none },
         [.cancellable_unref none]) := by
  decide

/-! ## The cursor hint -/

/-- C24: the cursor hint is a pure optimisation.  On a catalog contiguous from
0 with every part of at least one byte, for every offset and every two cursor
hints below `num_parts`, `gst_split_file_src_create` gives the same flow
result, the same buffer and the same I/O calls; for `offset < total_size` the
part it starts on, whatever the hint, is the one found by the linear scan
`gst_split_file_src_find_part_for_offset`. -/
theorem create_hint_independent (env : Env) (src : GstSplitFileSrc)
    (hcont : ContiguousFrom 0 src.parts) (offset size : Nat) :
    (∀ h1 h2, h1 < src.num_parts → h2 < src.num_parts →
      (gst_split_file_src_create env { src with cur_part := h1 } offset size).map
          (fun r => (r.ret, r.buffer, r.io, r.posted, r.buf_unref)) =
        (gst_split_file_src_create env { src with cur_part := h2 } offset size).map
          (fun r => (r.ret, r.buffer, r.io, r.posted, r.buf_unref))) ∧
    (offset < total_size src →
      ∃ i part, (∀ part_number,
          gst_split_file_src_find_part_for_offset src offset part_number = (true, i)) ∧
        src.parts[i]? = some part ∧
        ∀ hint, hint < src.num_parts →
          gst_split_file_src_create env { src with cur_part := hint } offset size =
            create_loop env src.num_parts src.cancellable offset size (src.parts.drop (i + 1))
              i part size offset [] []) := by
  have hfound : offset < total_size src →
      ∃ i part, (∀ part_number,
          gst_split_file_src_find_part_for_offset src offset part_number = (true, i)) ∧
        src.parts[i]? = some part ∧
        ∀ hint, hint < src.num_parts →
          gst_split_file_src_create env { src with cur_part := hint } offset size =
            create_loop env src.num_parts src.cancellable offset size (src.parts.drop (i + 1))
              i part size offset [] [] := by
    intro hlt
    obtain ⟨pre, cur, rest, hparts, h1, h2⟩ :=
      part_of_offset src.parts 0 offset hcont (Nat.zero_le _) hlt
    have hfind : find_part_loop offset src.parts 0 = some pre.length := by
      have := find_part_at pre 0 cur rest offset 0 (hparts ▸ hcont) h1 h2
      rw [hparts, this, Nat.zero_add]
    have hidx := index_of_split pre cur rest
    rw [← hparts] at hidx
    refine ⟨pre.length, cur, ?_, hidx.1, ?_⟩
    · intro part_number
      simp only [gst_split_file_src_find_part_for_offset, hfind]
    · intro hint hhint
      rw [hidx.2]
      exact create_located env { src with cur_part := hint } offset size pre cur rest hparts
        hcont hhint h1 h2
  refine ⟨?_, hfound⟩
  intro h1 h2 hh1 hh2
  by_cases hlt : offset < total_size src
  · obtain ⟨i, part, -, -, hall⟩ := hfound hlt
    rw [hall h1 hh1, hall h2 hh2]
  · rw [create_past_end env { src with cur_part := h1 } offset size hcont hh1 (by
        unfold total_size at hlt ⊢; simp only []; omega),
      create_past_end env { src with cur_part := h2 } offset size hcont hh2 (by
        unfold total_size at hlt ⊢; simp only []; omega)]
    rfl

/-- Witness of C24: hints 0 and 2 give the same result for `read (12, 5)`,
and the part read is part 1, the one the scan finds. -/
theorem create_hint_independent_witness :
    (gst_split_file_src_create example_env { example_src 1 with cur_part := 0 } 12 5).map
        (fun r => (r.ret, r.buffer, r.io, r.posted, r.buf_unref)) =
      (gst_split_file_src_create example_env { example_src 1 with cur_part := 2 } 12 5).map
        (fun r => (r.ret, r.buffer, r.io, r.posted, r.buf_unref)) ∧
    gst_split_file_src_find_part_for_offset (example_src 1) 12 0 = (true, 1) :=
  ⟨(create_hint_independent example_env (example_src 1)
      (example_built 1 (by decide)).contiguous 12 5).1 0 2 (by decide) (by decide),
   by decide⟩

/-- The loop never leaves `src->cur_part` beyond the parts it has read: it
ends between the index it started on and the last index of the array. -/
theorem create_loop_cur_part_le (env : Env) (num_parts : Nat) (cancel : Option GCancellable)
    (buf_offset buf_size : Nat) :
    ∀ (rest : List GstFilePart) (cur_idx : Nat) (cur : GstFilePart) (size offset : Nat)
      (data : List Nat) (io : List IoCall) (r : CreateResult),
      create_loop env num_parts cancel buf_offset buf_size rest cur_idx cur size offset data io
        = some r → cur_idx ≤ r.cur_part ∧ r.cur_part ≤ cur_idx + rest.length := by
  intro rest
  induction rest with
  | nil =>
    intro cur_idx cur size offset data io r h
    rw [create_loop] at h
    by_cases hs : size = 0
    · simp only [hs, if_true] at h
      injection h with h; subst h; simp
    · simp only [hs, if_false] at h
      cases hst : cur.stream with
      | none => simp [hst] at h
      | some stream =>
        simp only [hst] at h
        cases hsk : g_seekable_seek env stream cancel with
        | some err =>
          simp only [hsk] at h
          split at h <;> (injection h with h; subst h; simp)
        | none =>
          simp only [hsk] at h
          generalize g_input_stream_read_all _ _ _ _ _ = res at h
          cases res with
          | error err =>
            simp only at h
            split at h <;> (injection h with h; subst h; simp)
          | ok bytes =>
            simp only at h
            repeat' split at h
            all_goals first
              | (injection h with h; subst h; simp)
              | simp at h
  | cons next rest ih =>
    intro cur_idx cur size offset data io r h
    rw [create_loop] at h
    by_cases hs : size = 0
    · simp only [hs, if_true] at h
      injection h with h; subst h; simp
    · simp only [hs, if_false] at h
      cases hst : cur.stream with
      | none => simp [hst] at h
      | some stream =>
        simp only [hst] at h
        cases hsk : g_seekable_seek env stream cancel with
        | some err =>
          simp only [hsk] at h
          split at h <;> (injection h with h; subst h; simp)
        | none =>
          simp only [hsk] at h
          generalize g_input_stream_read_all _ _ _ _ _ = res at h
          cases res with
          | error err =>
            simp only at h
            split at h <;> (injection h with h; subst h; simp)
          | ok bytes =>
            simp only at h
            repeat' split at h
            all_goals first
              | (injection h with h; subst h; simp)
              | (have hle := ih _ _ _ _ _ _ r h
                 simp only [List.length_cons]
                 omega)

/-- Every completed call of `gst_split_file_src_create` leaves the cursor
hint inside the catalog, whatever the files do and whatever the flow
result. -/
theorem create_cur_part_lt (env : Env) (src : GstSplitFileSrc) (offset size : Nat)
    (r : CreateResult) (hhint : src.cur_part < src.num_parts)
    (h : gst_split_file_src_create env src offset size = some r) :
    r.cur_part < src.num_parts := by
  unfold GstSplitFileSrc.num_parts at hhint ⊢
  unfold gst_split_file_src_create at h
  split at h
  · simp at h
  · split at h
    · split at h
      · injection h with h; subst h; exact hhint
      · rename_i found _
        split at h
        · simp at h
        · rename_i cur hcur
          obtain ⟨hlt, -⟩ := List.getElem?_eq_some.mp hcur
          have := (create_loop_cur_part_le env _ _ _ _ _ _ _ _ _ _ _ r h).2
          rw [List.length_drop] at this
          omega
    · have := (create_loop_cur_part_le env _ _ _ _ _ _ _ _ _ _ _ r h).2
      rw [List.length_drop] at this
      omega

/-- C28: the cursor hint stays in range.  `cur_part < num_parts` holds after
every successful `gst_split_file_src_start`; on a built catalog with unchanged
files every `gst_split_file_src_create` with `offset + size <= total_size`
returns (no access outside `parts`) and leaves `cur_part < num_parts`; and no
completed call, whatever its flow result, leaves the hint out of range. -/
theorem cur_part_in_range (env : Env) (src : GstSplitFileSrc) (hb : Built src)
    (hun : Unchanged env src.parts)
    (hc : g_cancellable_set_error_if_cancelled src.cancellable = none)
    (offset size : Nat) (hsize : size < 2 ^ 32) (hle : offset + size ≤ total_size src) :
    (∀ src0 r0, gst_split_file_src_start env src0 = some r0 → r0.ret = true →
      r0.src.cur_part < r0.src.num_parts) ∧
    (∃ r, gst_split_file_src_create env src offset size = some r ∧
      r.cur_part < src.num_parts ∧ Built (src.after r)) ∧
    (∀ env1 offset1 size1 r1, gst_split_file_src_create env1 src offset1 size1 = some r1 →
      r1.cur_part < src.num_parts) := by
  refine ⟨?_, ?_, ?_⟩
  · intro src0 r0 h0 hret
    obtain ⟨files, hne, hparts, hcur, -⟩ := start_ok env src0 r0 h0 hret
    unfold GstSplitFileSrc.num_parts
    rw [hcur, hparts, catalog_length]
    exact List.length_pos.mpr hne
  · have hex : ∃ r, gst_split_file_src_create env src offset size = some r := by
      by_cases hlt : offset < total_size src
      · obtain ⟨r, hr, -⟩ := create_ok_core env src offset size hb.contiguous hb.hint hun hc
          hsize hlt hle
        exact ⟨r, hr⟩
      · exact ⟨_, create_past_end env src offset size hb.contiguous hb.hint (by omega)⟩
    obtain ⟨r, hr⟩ := hex
    have hlt := create_cur_part_lt env src offset size r hb.hint hr
    exact ⟨r, hr, hlt, { contiguous := hb.contiguous, hint := hlt, count := hb.count }⟩
  · intro env1 offset1 size1 r1 h1
    exact create_cur_part_lt env1 src offset1 size1 r1 hb.hint h1

/-- Witness of C28: `read (8, 17)`, which runs to the end of the last part,
leaves the hint at 2, below the 3 parts. -/
theorem cur_part_in_range_witness :
    ∃ r, gst_split_file_src_create example_env (example_src 0) 8 17 = some r ∧
      r.cur_part < (example_src 0).num_parts ∧ Built ((example_src 0).after r) :=
  (cur_part_in_range example_env (example_src 0) (example_built 0 (by decide))
    example_unchanged rfl 8 17 (by decide) (by decide)).2.1

/-! ## The parts a read visits -/

/-- The read loop on an unchanged contiguous catalog, for a range of at least
one byte that ends inside the catalog: it runs `n` iterations, on consecutive
parts, each a seek and a read; the first seek goes to `offset - start`, every
later one to 0; and `src->cur_part` is left on the part that holds the last
byte read. -/
theorem create_loop_visits (env : Env) (num_parts : Nat) (cancel : Option GCancellable)
    (hc : g_cancellable_set_error_if_cancelled cancel = none) (buf_offset buf_size : Nat) :
    ∀ (rest : List GstFilePart) (cur_idx : Nat) (cur : GstFilePart) (size offset : Nat)
      (data : List Nat) (io : List IoCall),
      ContiguousFrom cur.start (cur :: rest) → Unchanged env (cur :: rest) →
      cur.start ≤ offset → offset ≤ cur.stop → size < 2 ^ 32 → 0 < size →
      offset + size ≤ catalog_end cur.start (cur :: rest) →
      ∃ (r : CreateResult) (t : List IoCall) (n : Nat),
        create_loop env num_parts cancel buf_offset buf_size rest cur_idx cur size offset
          data io = some r ∧
        r.ret = .GST_FLOW_OK ∧ r.io = io ++ t ∧ t.length = 2 * n ∧ 1 ≤ n ∧
        n ≤ (cur :: rest).length ∧ r.cur_part = cur_idx + (n - 1) ∧
        (∃ last, (cur :: rest)[n - 1]? = some last ∧ last.start ≤ offset + size - 1 ∧
          offset + size - 1 ≤ last.stop) ∧
        ∀ j, j < n → ∃ part stream count, (cur :: rest)[j]? = some part ∧
          part.stream = some stream ∧
          t[2 * j]? = some (.seek (cur_idx + j) stream
            (if j = 0 then offset - cur.start else 0)) ∧
          t[2 * j + 1]? = some (.read (cur_idx + j) stream count) := by
  have hwithin : ∀ (rest : List GstFilePart) (cur_idx : Nat) (cur : GstFilePart)
      (size offset : Nat) (data : List Nat) (io : List IoCall),
      ContiguousFrom cur.start (cur :: rest) → Unchanged env (cur :: rest) →
      cur.start ≤ offset → size < 2 ^ 32 → 0 < size → offset + size ≤ cur.stop + 1 →
      ∃ (r : CreateResult) (t : List IoCall) (n : Nat),
        create_loop env num_parts cancel buf_offset buf_size rest cur_idx cur size offset
          data io = some r ∧
        r.ret = .GST_FLOW_OK ∧ r.io = io ++ t ∧ t.length = 2 * n ∧ 1 ≤ n ∧
        n ≤ (cur :: rest).length ∧ r.cur_part = cur_idx + (n - 1) ∧
        (∃ last, (cur :: rest)[n - 1]? = some last ∧ last.start ≤ offset + size - 1 ∧
          offset + size - 1 ≤ last.stop) ∧
        ∀ j, j < n → ∃ part stream count, (cur :: rest)[j]? = some part ∧
          part.stream = some stream ∧
          t[2 * j]? = some (.seek (cur_idx + j) stream
            (if j = 0 then offset - cur.start else 0)) ∧
          t[2 * j + 1]? = some (.read (cur_idx + j) stream count) := by
    intro rest cur_idx cur size offset data io hcont hun h1 h4 h0 hin
    obtain ⟨stream, hstream, hlen, hseek, hread⟩ := hun cur (List.mem_cons_self _ _)
    simp only [ContiguousFrom] at hcont
    have hw := create_loop_within env num_parts cancel hc buf_offset buf_size rest cur_idx cur
      stream size offset data io hstream hlen hseek hread h1 hin hcont.2.2.1 h4 h0
    refine ⟨_, [.seek cur_idx stream (offset - cur.start), .read cur_idx stream size], 1, hw,
      rfl, rfl, rfl, Nat.le_refl _, by simp, rfl, ⟨cur, by simp, by omega, by omega⟩, ?_⟩
    intro j hj
    have hj0 : j = 0 := by omega
    subst hj0
    exact ⟨cur, stream, size, by simp, hstream, by simp, by simp⟩
  intro rest
  induction rest with
  | nil =>
    intro cur_idx cur size offset data io hcont hun h1 h2 h4 h0 hend
    exact hwithin [] cur_idx cur size offset data io hcont hun h1 h4 h0
      (by simpa only [catalog_end] using hend)
  | cons next rest ih =>
    intro cur_idx cur size offset data io hcont hun h1 h2 h4 h0 hend
    by_cases hin : offset + size ≤ cur.stop + 1
    · exact hwithin (next :: rest) cur_idx cur size offset data io hcont hun h1 h4 h0 hin
    · obtain ⟨stream, hstream, hlen, hseek, hread⟩ := hun cur (List.mem_cons_self _ _)
      have hcont0 := hcont
      simp only [ContiguousFrom] at hcont
      obtain ⟨-, hle, hlt, hnext, hnle, hnlt, hrest⟩ := hcont
      have hcont1 : ContiguousFrom next.start (next :: rest) := by
        simp only [ContiguousFrom]
        exact ⟨trivial, hnle, hnlt, hrest⟩
      have hend1 : cur.stop + 1 + (size - (cur.stop + 1 - offset)) ≤
          catalog_end next.start (next :: rest) := by
        simp only [catalog_end] at hend ⊢
        omega
      obtain ⟨r, t, n, hr, hret, hio, hlen1, hn1, hn2, hcp, ⟨last, hlast, hl1, hl2⟩, hall⟩ :=
        ih (cur_idx + 1) next (size - (cur.stop + 1 - offset)) (cur.stop + 1)
          (data ++ (env.file stream).data.drop (offset - cur.start))
          (io ++ [.seek cur_idx stream (offset - cur.start)] ++
            [.read cur_idx stream (cur.stop + 1 - offset)])
          hcont1 (fun p hp => hun p (List.mem_cons_of_mem _ hp)) (by omega) (by omega)
          (by omega) (by omega) hend1
      refine ⟨r, .seek cur_idx stream (offset - cur.start) ::
        .read cur_idx stream (cur.stop + 1 - offset) :: t, n + 1, ?_, hret, ?_, ?_, by omega,
        ?_, ?_, ⟨last, ?_, by omega, by omega⟩, ?_⟩
      · rw [create_loop_step env num_parts cancel hc buf_offset buf_size next rest cur_idx cur
          stream size offset data io hstream hlen hseek hread h1 h2 hlt h4 (by omega)]
        exact hr
      · rw [hio]; simp
      · simp only [List.length_cons, hlen1]; omega
      · simp only [List.length_cons] at hn2 ⊢; omega
      · rw [hcp]; omega
      · have e : n + 1 - 1 = (n - 1) + 1 := by omega
        rw [e, List.getElem?_cons_succ]
        exact hlast
      · intro j hj
        cases j with
        | zero =>
          exact ⟨cur, stream, cur.stop + 1 - offset, by simp, hstream, by simp, by simp⟩
        | succ j1 =>
          obtain ⟨part, s1, count, hp, hs, hsk, hrd⟩ := hall j1 (by omega)
          refine ⟨part, s1, count, ?_, hs, ?_, ?_⟩
          · rw [List.getElem?_cons_succ]; exact hp
          · have e : 2 * (j1 + 1) = 2 * j1 + 1 + 1 := by omega
            have e0 : cur.stop + 1 - next.start = 0 := by omega
            rw [e, List.getElem?_cons_succ, List.getElem?_cons_succ, hsk]
            have e1 : cur_idx + 1 + j1 = cur_idx + (j1 + 1) := by omega
            rw [e1, e0]
            simp
          · have e : 2 * (j1 + 1) + 1 = 2 * j1 + 1 + 1 + 1 := by omega
            rw [e, List.getElem?_cons_succ, List.getElem?_cons_succ, hrd]
            have e1 : cur_idx + 1 + j1 = cur_idx + (j1 + 1) := by omega
            rw [e1]

/-- A read of at least one byte that ends inside a built catalog with
unchanged files: the part `k` it starts on, the number `n` of iterations, the
trace and the final cursor hint. -/
theorem create_visits_core (env : Env) (src : GstSplitFileSrc) (hb : Built src)
    (hun : Unchanged env src.parts)
    (hc : g_cancellable_set_error_if_cancelled src.cancellable = none)
    (offset size : Nat) (hsize : size < 2 ^ 32) (h0 : 0 < size)
    (hle : offset + size ≤ total_size src) :
    ∃ (r : CreateResult) (k n : Nat),
      gst_split_file_src_create env src offset size = some r ∧
      (∀ part_number,
        gst_split_file_src_find_part_for_offset src offset part_number = (true, k)) ∧
      r.ret = .GST_FLOW_OK ∧ r.io.length = 2 * n ∧ 1 ≤ n ∧ k + n ≤ src.num_parts ∧
      r.cur_part = k + (n - 1) ∧
      (∃ last, src.parts[k + (n - 1)]? = some last ∧ last.start ≤ offset + size - 1 ∧
        offset + size - 1 ≤ last.stop) ∧
      ∀ j, j < n → ∃ part stream count, src.parts[k + j]? = some part ∧
        part.stream = some stream ∧
        r.io[2 * j]? = some (.seek (k + j) stream (if j = 0 then offset - part.start else 0)) ∧
        r.io[2 * j + 1]? = some (.read (k + j) stream count) := by
  unfold total_size at hle
  obtain ⟨pre, cur, rest, hparts, h1, h2⟩ :=
    part_of_offset src.parts 0 offset hb.contiguous (Nat.zero_le _) (by omega)
  have hfind : find_part_loop offset src.parts 0 = some pre.length := by
    have := find_part_at pre 0 cur rest offset 0 (hparts ▸ hb.contiguous) h1 h2
    rw [hparts, this, Nat.zero_add]
  have hcont := hb.contiguous
  rw [hparts] at hcont hun hle
  obtain ⟨hc1, he1, -, -⟩ := contiguous_split pre 0 cur rest hcont
  obtain ⟨r, t, n, hr, hret, hio, hlen, hn1, hn2, hcp, ⟨last, hlast, hl1, hl2⟩, hall⟩ :=
    create_loop_visits env src.num_parts src.cancellable hc offset size rest pre.length cur
      size offset [] [] hc1 (fun p hp => hun p (List.mem_append_right _ hp)) h1 h2 hsize h0
      (by rw [he1]; exact hle)
  have hidx : ∀ j, src.parts[pre.length + j]? = (cur :: rest)[j]? := by
    intro j
    rw [hparts, List.getElem?_append_right (by omega)]
    congr 1
    omega
  rw [List.nil_append] at hio
  refine ⟨r, pre.length, n, ?_, ?_, hret, by rw [hio]; exact hlen, hn1, ?_, hcp,
    ⟨last, by rw [hidx]; exact hlast, hl1, hl2⟩, ?_⟩
  · rw [create_located env src offset size pre cur rest hparts hb.contiguous hb.hint h1 h2]
    exact hr
  · intro part_number
    simp only [gst_split_file_src_find_part_for_offset, hfind]
  · unfold GstSplitFileSrc.num_parts
    rw [hparts, List.length_append]
    omega
  · intro j hj
    obtain ⟨part, stream, count, hp, hs, hsk, hrd⟩ := hall j hj
    refine ⟨part, stream, count, by rw [hidx]; exact hp, hs, ?_, by rw [hio]; exact hrd⟩
    rw [hio, hsk]
    cases j with
    | zero =>
      simp only [List.getElem?_cons_zero, Option.some.injEq] at hp
      rw [hp]
    | succ j1 => simp

/-- C25: on a built catalog with unchanged files, after a read of
`size >= 1` bytes with `offset + size <= total_size` has returned
`GST_FLOW_OK`, the cursor hint `cur_part` is the index of the part that
contains byte `offset + size - 1`; when the read ends exactly on the last byte
of a part the hint stays on that part. -/
theorem create_cur_part_last (env : Env) (src : GstSplitFileSrc) (hb : Built src)
    (hun : Unchanged env src.parts)
    (hc : g_cancellable_set_error_if_cancelled src.cancellable = none)
    (offset size : Nat) (hsize : size < 2 ^ 32) (h0 : 1 ≤ size)
    (hle : offset + size ≤ total_size src) :
    ∃ r part, gst_split_file_src_create env src offset size = some r ∧
      r.ret = .GST_FLOW_OK ∧ src.parts[r.cur_part]? = some part ∧
      part.start ≤ offset + size - 1 ∧ offset + size - 1 ≤ part.stop ∧
      (∀ part_number, gst_split_file_src_find_part_for_offset src (offset + size - 1)
        part_number = (true, r.cur_part)) := by
  obtain ⟨r, k, n, hr, -, hret, -, -, -, hcp, ⟨last, hlast, hl1, hl2⟩, -⟩ :=
    create_visits_core env src hb hun hc offset size hsize h0 hle
  rw [← hcp] at hlast
  refine ⟨r, last, hr, hret, hlast, hl1, hl2, ?_⟩
  intro part_number
  obtain ⟨hsplit, hlen⟩ := split_at_index src.parts r.cur_part last hlast
  have hcont1 : ContiguousFrom 0 (src.parts.take r.cur_part ++ last ::
      src.parts.drop (r.cur_part + 1)) := by
    rw [← hsplit]; exact hb.contiguous
  have := find_part_at _ 0 last _ (offset + size - 1) 0 hcont1 hl1 hl2
  rw [← hsplit, Nat.zero_add, hlen] at this
  simp only [gst_split_file_src_find_part_for_offset, this]

/-- Witness of C25: `read (8, 2)` ends on the last byte of part 0 and leaves
the hint at 0, although the hint was 2 before. -/
theorem create_cur_part_last_witness :
    ∃ r part, gst_split_file_src_create example_env (example_src 2) 8 2 = some r ∧
      r.ret = .GST_FLOW_OK ∧ (example_src 2).parts[r.cur_part]? = some part ∧
      part.start ≤ 8 + 2 - 1 ∧ 8 + 2 - 1 ≤ part.stop ∧
      (∀ part_number, gst_split_file_src_find_part_for_offset (example_src 2) (8 + 2 - 1)
        part_number = (true, r.cur_part)) :=
  create_cur_part_last example_env (example_src 2) (example_built 2 (by decide))
    example_unchanged rfl 8 2 (by decide) (by decide) (by decide)

/-- C26: on a built catalog with unchanged files, for every read with
`offset + size <= total_size`, `gst_split_file_src_create` returns, and the
parts it seeks and reads on are the consecutive indices `k, k+1, ...` starting
at the part `k` that contains `offset`, each visited by exactly one seek and
one read; the first seek goes to `offset - parts[k].start`, every later seek
to position 0; the loop runs `n <= num_parts - k` iterations (none when
`size == 0`, and none when `offset == total_size`, where the result is end of
stream). -/
theorem create_visits_successors (env : Env) (src : GstSplitFileSrc) (hb : Built src)
    (hun : Unchanged env src.parts)
    (hc : g_cancellable_set_error_if_cancelled src.cancellable = none)
    (offset size : Nat) (hsize : size < 2 ^ 32) (hle : offset + size ≤ total_size src) :
    (total_size src ≤ offset →
      ∃ r, gst_split_file_src_create env src offset size = some r ∧ r.io = []) ∧
    (offset < total_size src →
      ∃ (r : CreateResult) (k n : Nat),
        gst_split_file_src_create env src offset size = some r ∧
        (∀ part_number,
          gst_split_file_src_find_part_for_offset src offset part_number = (true, k)) ∧
        r.io.length = 2 * n ∧ k + n ≤ src.num_parts ∧ (size = 0 → n = 0) ∧
        (0 < size → 1 ≤ n ∧ r.cur_part = k + (n - 1)) ∧
        ∀ j, j < n → ∃ part stream count, src.parts[k + j]? = some part ∧
          part.stream = some stream ∧
          r.io[2 * j]? =
            some (.seek (k + j) stream (if j = 0 then offset - part.start else 0)) ∧
          r.io[2 * j + 1]? = some (.read (k + j) stream count)) := by
  constructor
  · intro hend
    exact ⟨_, create_past_end env src offset size hb.contiguous hb.hint hend, rfl⟩
  · intro hlt
    by_cases h0 : size = 0
    · subst h0
      obtain ⟨pre, cur, rest, hparts, h1, h2⟩ :=
        part_of_offset src.parts 0 offset hb.contiguous (Nat.zero_le _) hlt
      have hfind : find_part_loop offset src.parts 0 = some pre.length := by
        have := find_part_at pre 0 cur rest offset 0 (hparts ▸ hb.contiguous) h1 h2
        rw [hparts, this, Nat.zero_add]
      refine ⟨{ ret := .GST_FLOW_OK,
                buffer := some { size := 0, data := [], offset := offset,
                                 offset_end := offset },
                cur_part := pre.length, io := [], posted := none, buf_unref := false },
        pre.length, 0, ?_, ?_, rfl, ?_, fun _ => rfl, fun h => absurd h (by omega),
        fun j hj => absurd hj (by omega)⟩
      · rw [create_located env src offset 0 pre cur rest hparts hb.contiguous hb.hint h1 h2]
        exact create_loop_zero _ _ _ _ _ _ _ _ _ _ _
      · intro part_number
        simp only [gst_split_file_src_find_part_for_offset, hfind]
      · unfold GstSplitFileSrc.num_parts
        rw [hparts, List.length_append]
        omega
    · obtain ⟨r, k, n, hr, hk, -, hlen, hn1, hn2, hcp, -, hall⟩ :=
        create_visits_core env src hb hun hc offset size hsize (by omega) hle
      exact ⟨r, k, n, hr, hk, hlen, hn2, fun h => absurd h h0, fun _ => ⟨hn1, hcp⟩, hall⟩

/-- Witness of C26: `read (8, 17)` starts on part 0 and visits parts 0, 1
and 2, seeking to 8, 0 and 0. -/
theorem create_visits_successors_witness :
    gst_split_file_src_create example_env (example_src 0) 8 17 =
        some { ret := .GST_FLOW_OK,
               buffer := some { size := 17,
                                data := [8, 9, 10, 11, 12, 13, 14, 15, 16, 17, 18, 19, 20, 21,
                                  22, 23, 24],
                                offset := 8, offset_end := 25 },
               cur_part := 2,
               io := [.seek 0 (cstr "/d/a") 8, .read 0 (cstr "/d/a") 2,
                 .seek 1 (cstr "/d/b") 0, .read 1 (cstr "/d/b") 10,
                 .seek 2 (cstr "/d/c") 0, .read 2 (cstr "/d/c") 5],
               posted := none, buf_unref := false } ∧
      ∃ (r : CreateResult) (k n : Nat),
        gst_split_file_src_create example_env (example_src 0) 8 17 = some r ∧
        (∀ part_number,
          gst_split_file_src_find_part_for_offset (example_src 0) 8 part_number = (true, k)) ∧
        r.io.length = 2 * n ∧ k + n ≤ (example_src 0).num_parts ∧ (17 = 0 → n = 0) ∧
        (0 < 17 → 1 ≤ n ∧ r.cur_part = k + (n - 1)) ∧
        ∀ j, j < n → ∃ part stream count, (example_src 0).parts[k + j]? = some part ∧
          part.stream = some stream ∧
          r.io[2 * j]? = some (.seek (k + j) stream (if j = 0 then 8 - part.start else 0)) ∧
          r.io[2 * j + 1]? = some (.read (k + j) stream count) :=
  ⟨by decide,
   (create_visits_successors example_env (example_src 0) (example_built 0 (by decide))
    example_unchanged rfl 8 17 (by decide) (by decide)).2 (by decide)⟩

/-! ## Reads stay inside the part and inside the buffer -/

/-- Invariant of the read loop on a contiguous catalog, whatever the files
deliver: when an iteration begins with `offset` inside the current part, the
calls made from there on stay inside the parts. -/
theorem create_loop_bounds (env : Env) (num_parts : Nat) (cancel : Option GCancellable)
    (buf_offset buf_size : Nat) (parts : List GstFilePart) :
    ∀ (rest pre : List GstFilePart) (cur_idx : Nat) (cur : GstFilePart) (size offset : Nat)
      (data : List Nat) (io : List IoCall) (r : CreateResult),
      parts = pre ++ cur :: rest → pre.length = cur_idx →
      ContiguousFrom cur.start (cur :: rest) → cur.start ≤ offset → offset ≤ cur.stop →
      size < 2 ^ 32 →
      create_loop env num_parts cancel buf_offset buf_size rest cur_idx cur size offset data io
        = some r →
      ∃ t, r.io = io ++ t ∧ trace_in_bounds parts size t := by
  intro rest
  induction rest with
  | nil =>
    intro pre cur_idx cur size offset data io r hparts hidx hcont h1 h2 h4 h
    have hcur : parts[cur_idx]? = some cur := by
      rw [hparts, ← hidx]; exact (index_of_split pre cur []).1
    simp only [ContiguousFrom] at hcont
    obtain ⟨a1, a2, -, -⟩ := loop_arith cur.start cur.stop offset size h1 h2 hcont.2.2.1 h4
    have hcount : min size (cur.stop + 1 - offset) =
        min size (cur.stop + 1 - cur.start - (offset - cur.start)) := by omega
    rw [create_loop] at h
    by_cases hs : size = 0
    · simp only [hs, if_true] at h
      injection h with h; subst h
      exact ⟨[], by simp, by simp only [trace_in_bounds]⟩
    · simp only [hs, if_false] at h
      cases hst : cur.stream with
      | none => simp [hst] at h
      | some stream =>
        simp only [hst, a1, a2] at h
        cases hsk : g_seekable_seek env stream cancel with
        | some err =>
          simp only [hsk] at h
          split at h <;>
          · injection h with h; subst h
            exact ⟨[.seek cur_idx stream (offset - cur.start)], rfl, by
              simp only [trace_in_bounds]; exact ⟨cur, hcur, by omega⟩⟩
        | none =>
          simp only [hsk] at h
          have hpair : trace_in_bounds parts size
              [.seek cur_idx stream (offset - cur.start),
               .read cur_idx stream (min size (cur.stop + 1 - offset))] := by
            simp only [trace_in_bounds]
            exact ⟨trivial, ⟨cur, hcur, by omega, hcount⟩, trivial⟩
          generalize g_input_stream_read_all _ _ _ _ _ = res at h
          cases res with
          | error err =>
            simp only at h
            split at h <;>
            · injection h with h; subst h
              exact ⟨_, by simp only [List.append_assoc]; rfl, hpair⟩
          | ok bytes =>
            simp only at h
            repeat' split at h
            all_goals first
              | (injection h with h; subst h
                 exact ⟨_, by simp only [List.append_assoc]; rfl, hpair⟩)
              | simp at h
  | cons next rest ih =>
    intro pre cur_idx cur size offset data io r hparts hidx hcont h1 h2 h4 h
    have hcur : parts[cur_idx]? = some cur := by
      rw [hparts, ← hidx]; exact (index_of_split pre cur (next :: rest)).1
    simp only [ContiguousFrom] at hcont
    obtain ⟨-, hle, hlt, hnext, hnle, hnlt, hrest⟩ := hcont
    have hcont1 : ContiguousFrom next.start (next :: rest) := by
      simp only [ContiguousFrom]
      exact ⟨trivial, hnle, hnlt, hrest⟩
    obtain ⟨a1, a2, -, -⟩ := loop_arith cur.start cur.stop offset size h1 h2 hlt h4
    have hcount : min size (cur.stop + 1 - offset) =
        min size (cur.stop + 1 - cur.start - (offset - cur.start)) := by omega
    rw [create_loop] at h
    by_cases hs : size = 0
    · simp only [hs, if_true] at h
      injection h with h; subst h
      exact ⟨[], by simp, by simp only [trace_in_bounds]⟩
    · simp only [hs, if_false] at h
      cases hst : cur.stream with
      | none => simp [hst] at h
      | some stream =>
        simp only [hst, a1, a2] at h
        cases hsk : g_seekable_seek env stream cancel with
        | some err =>
          simp only [hsk] at h
          split at h <;>
          · injection h with h; subst h
            exact ⟨[.seek cur_idx stream (offset - cur.start)], rfl, by
              simp only [trace_in_bounds]; exact ⟨cur, hcur, by omega⟩⟩
        | none =>
          simp only [hsk] at h
          have hpair : trace_in_bounds parts size
              [.seek cur_idx stream (offset - cur.start),
               .read cur_idx stream (min size (cur.stop + 1 - offset))] := by
            simp only [trace_in_bounds]
            exact ⟨trivial, ⟨cur, hcur, by omega, hcount⟩, trivial⟩
          generalize hrd : g_input_stream_read_all _ _ _ _ _ = res at h
          cases res with
          | error err =>
            simp only at h
            split at h <;>
            · injection h with h; subst h
              exact ⟨_, by simp only [List.append_assoc]; rfl, hpair⟩
          | ok bytes =>
            have hlen := read_all_length _ _ _ _ _ _ hrd
            simp only at h
            split at h
            · injection h with h; subst h
              exact ⟨_, by simp only [List.append_assoc]; rfl, hpair⟩
            · rename_i hsz
              split at h
              · split at h <;>
                · injection h with h; subst h
                  exact ⟨_, by simp only [List.append_assoc]; rfl, hpair⟩
              · rename_i hnshort
                have hparts1 : parts = (pre ++ [cur]) ++ next :: rest := by
                  rw [hparts]; simp
                obtain ⟨t, ht, hb⟩ := ih (pre ++ [cur]) (cur_idx + 1) next _ _ _ _ r hparts1
                  (by simp [hidx]) hcont1 (by unfold add64; omega) (by unfold add64; omega)
                  (by omega) h
                refine ⟨.seek cur_idx stream (offset - cur.start) ::
                  .read cur_idx stream (min size (cur.stop + 1 - offset)) :: t, ?_, ?_⟩
                · rw [ht]; simp
                · simp only [trace_in_bounds]
                  refine ⟨trivial, ⟨cur, hcur, by omega, hcount⟩, ?_⟩
                  have e : (size % 2 ^ 32 + (2 ^ 32 - bytes.length % 2 ^ 32)) % 2 ^ 32 =
                      size - min size (cur.stop + 1 - offset) := by omega
                  rw [← e]
                  exact hb


/-- The counts of a trace that stays in bounds add up to at most the size the
loop began with. -/
theorem trace_requested_le (parts : List GstFilePart) :
    ∀ (n : Nat) (t : List IoCall) (size : Nat), t.length ≤ n →
      trace_in_bounds parts size t → requested t ≤ size := by
  intro n
  induction n with
  | zero =>
    intro t size hn _
    have : t = [] := List.length_eq_zero.mp (by omega)
    subst this; simp [requested]
  | succ n ih =>
    intro t size hn h
    match t, h with
    | [], _ => simp [requested]
    | [.seek _ _ _], _ => simp [requested]
    | .seek i s pos :: .read j s2 count :: calls, h =>
      simp only [trace_in_bounds] at h
      obtain ⟨-, ⟨part, -, -, hcount⟩, hrest⟩ := h
      have := ih calls (size - count) (by simp only [List.length_cons] at hn; omega) hrest
      simp only [requested]
      omega
    | .read _ _ _ :: _, h => simp only [trace_in_bounds] at h
    | .seek _ _ _ :: .seek _ _ _ :: _, h => simp only [trace_in_bounds] at h

/-- What holds of the calls that complete: on a catalog as `start` builds it,
whatever the part files deliver (short reads, seek or read errors included),
every call of `create` that returns keeps its I/O inside bounds: each seek goes to a position between 0
and the recorded size of the part it addresses, each read follows a seek on
the same part and asks for the minimum of what is still wanted and what the
part holds from that position on, so its end position stays within the
recorded size; the counts asked for add up to at most `size`, and the buffer
returned on success holds at most `size` bytes. -/
theorem create_reads_in_bounds (env : Env) (src : GstSplitFileSrc) (hb : Built src)
    (offset size : Nat) (hoff : offset < 2 ^ 64) (hsize : size < 2 ^ 32) (r : CreateResult)
    (h : gst_split_file_src_create env src offset size = some r) :
    trace_in_bounds src.parts size r.io ∧ requested r.io ≤ size ∧
      (r.ret = .GST_FLOW_OK → ∃ b, r.buffer = some b ∧ b.data.length ≤ size) := by
  have hmod : offset = (offset + ([] : List Nat).length) % 2 ^ 64 := by
    simp only [List.length_nil]; omega
  have htrace : trace_in_bounds src.parts size r.io := by
    by_cases hlt : offset < total_size src
    · obtain ⟨pre, cur, rest, hparts, h1, h2⟩ :=
        part_of_offset src.parts 0 offset hb.contiguous (Nat.zero_le _) hlt
      rw [create_located env src offset size pre cur rest hparts hb.contiguous hb.hint h1 h2] at h
      have hc : ContiguousFrom cur.start (cur :: rest) := by
        have := hb.contiguous
        rw [hparts] at this
        exact (contiguous_split pre 0 cur rest this).1
      obtain ⟨t, ht, hin⟩ := create_loop_bounds env _ _ offset size src.parts rest pre pre.length
        cur size offset [] [] r hparts rfl hc h1 h2 hsize h
      rw [ht]; simpa using hin
    · rw [create_past_end env src offset size hb.contiguous hb.hint (by omega)] at h
      injection h with h; subst h
      simp only [trace_in_bounds]
  refine ⟨htrace, trace_requested_le src.parts _ r.io size (Nat.le_refl _) htrace, ?_⟩
  intro hok
  have hrange : ∃ b, r.buffer = some b ∧ b.offset = offset ∧
      b.offset_end = (offset + b.data.length) % 2 ^ 64 ∧ b.size = b.data.length ∧
      b.size = sub64 b.offset_end b.offset ∧ b.data.length ≤ size := by
    unfold gst_split_file_src_create at h
    split at h
    · simp at h
    · split at h
      · split at h
        · injection h with h; subst h; simp at hok
        · split at h
          · simp at h
          · exact create_loop_range env _ _ offset size hsize _ _ _ _ _ _ _ r (by simp) hmod h hok
      · exact create_loop_range env _ _ offset size hsize _ _ _ _ _ _ _ r (by simp) hmod h hok
  obtain ⟨b, hbuf, -, -, -, -, hlen⟩ := hrange
  exact ⟨b, hbuf, hlen⟩

theorem create_reads_in_bounds_witness :
    trace_in_bounds (example_src 0).parts 6
        [.seek 0 (cstr "/d/a") 8, .read 0 (cstr "/d/a") 2, .seek 1 (cstr "/d/b") 0,
          .read 1 (cstr "/d/b") 4] ∧
      requested [.seek 0 (cstr "/d/a") 8, .read 0 (cstr "/d/a") 2, .seek 1 (cstr "/d/b") 0,
          .read 1 (cstr "/d/b") 4] ≤ 6 ∧
      ((GstFlowReturn.GST_FLOW_OK = .GST_FLOW_OK) →
        ∃ b, (some { size := 6, data := [8, 9, 10, 11, 12, 13], offset := 8, offset_end := 14 }
          : Option GstBuffer) = some b ∧ b.data.length ≤ 6) :=
  create_reads_in_bounds example_env (example_src 0) (example_built 0 (by decide)) 8 6
    (by decide) (by decide)
    { ret := .GST_FLOW_OK,
      buffer := some { size := 6, data := [8, 9, 10, 11, 12, 13], offset := 8,
                       offset_end := 14 },
      cur_part := 1,
      io := [.seek 0 (cstr "/d/a") 8, .read 0 (cstr "/d/a") 2, .seek 1 (cstr "/d/b") 0,
        .read 1 (cstr "/d/b") 4],
      posted := none, buf_unref := false }
    (by decide)

/-- C29 fails on the code: on every built catalog with unchanged files, for a
read whose offset lies in the last part and whose size reaches past
`total_size`, the iteration on the last part is in bounds (the same read cut
to the `total_size - offset` bytes that are left completes with one seek and
one read on it), but then `read == to_read`, the remaining size is not 0,
`src->cur_part` is advanced to `num_parts`, and the next iteration takes its
`start`, `stop` and `stream` from `src->parts[num_parts]`, outside the array:
its `read_offset` and `to_read` are bound by no recorded size, and the call
has no defined result. -/
theorem create_iterates_outside_catalog (env : Env) (src : GstSplitFileSrc) (hb : Built src)
    (hun : Unchanged env src.parts)
    (hc : g_cancellable_set_error_if_cancelled src.cancellable = none)
    (pre : List GstFilePart) (last : GstFilePart) (hparts : src.parts = pre ++ [last])
    (offset size : Nat) (h1 : last.start ≤ offset) (h2 : offset ≤ last.stop)
    (h4 : size < 2 ^ 32) (h5 : total_size src < offset + size) :
    ContiguousFrom 0 src.parts ∧ src.parts[pre.length]? = some last ∧
      (∀ part_number,
        gst_split_file_src_find_part_for_offset src offset part_number = (true, pre.length)) ∧
      (∃ stream, last.stream = some stream ∧
        gst_split_file_src_create env src offset (total_size src - offset) =
          some { ret := .GST_FLOW_OK,
                 buffer := some { size := total_size src - offset,
                                  data := ((env.file stream).data.drop
                                    (offset - last.start)).take (total_size src - offset),
                                  offset := offset, offset_end := total_size src },
                 cur_part := pre.length,
                 io := [.seek pre.length stream (offset - last.start),
                        .read pre.length stream (total_size src - offset)],
                 posted := none, buf_unref := false }) ∧
      pre.length + 1 = src.num_parts ∧ src.parts[pre.length + 1]? = none ∧
      gst_split_file_src_create env src offset size = none := by
  have hcont := hb.contiguous
  obtain ⟨hc1, he1, -, -⟩ := contiguous_split pre 0 last [] (hparts ▸ hcont)
  obtain ⟨stream, hs, hl, hseek, hread⟩ := hun last (by rw [hparts]; simp)
  have htot : total_size src = last.stop + 1 := by
    unfold total_size
    rw [hparts, ← he1]
    simp only [catalog_end]
  simp only [ContiguousFrom] at hc1
  refine ⟨hcont, ?_, ?_, ⟨stream, hs, ?_⟩, ?_, ?_, ?_⟩
  · rw [hparts]; exact (index_of_split pre last []).1
  · intro part_number
    have hf := find_part_at pre 0 last [] offset 0 (hparts ▸ hcont) h1 h2
    unfold gst_split_file_src_find_part_for_offset
    rw [hparts, hf]
    simp
  · rw [create_located env src offset _ pre last [] hparts hcont hb.hint h1 h2]
    have hw := create_loop_within env src.num_parts src.cancellable hc offset
      (total_size src - offset) [] pre.length last stream (total_size src - offset) offset [] []
      hs hl hseek hread h1 (by omega) hc1.2.2.1 (by omega) (by omega)
    rw [hw]
    have e : offset + (total_size src - offset) = total_size src := by omega
    simp only [List.nil_append, e]
  · unfold GstSplitFileSrc.num_parts
    rw [hparts]; simp
  · rw [hparts]; simp
  · exact create_overrun env src hb hun hc pre last hparts offset size h1 h2 h4 h5

theorem create_iterates_outside_catalog_witness :
    ContiguousFrom 0 (example_src 0).parts ∧
      (example_src 0).parts[2]? =
        some { stream := some (cstr "/d/c"), path := some (cstr "/d/c"), start := 20,
               stop := 24 } ∧
      (∀ part_number,
        gst_split_file_src_find_part_for_offset (example_src 0) 23 part_number = (true, 2)) ∧
      (∃ stream, (some (cstr "/d/c") : Option GFileInputStream) = some stream ∧
        gst_split_file_src_create example_env (example_src 0) 23
            (total_size (example_src 0) - 23) =
          some { ret := .GST_FLOW_OK,
                 buffer := some { size := total_size (example_src 0) - 23,
                                  data := ((example_env.file stream).data.drop (23 - 20)).take
                                    (total_size (example_src 0) - 23),
                                  offset := 23, offset_end := total_size (example_src 0) },
                 cur_part := 2,
                 io := [.seek 2 stream (23 - 20),
                        .read 2 stream (total_size (example_src 0) - 23)],
                 posted := none, buf_unref := false }) ∧
      2 + 1 = (example_src 0).num_parts ∧ (example_src 0).parts[2 + 1]? = none ∧
      gst_split_file_src_create example_env (example_src 0) 23 10 = none :=
  create_iterates_outside_catalog example_env (example_src 0) (example_built 0 (by decide))
    example_unchanged rfl
    [{ stream := some (cstr "/d/a"), path := some (cstr "/d/a"), start := 0, stop := 9 },
     { stream := some (cstr "/d/b"), path := some (cstr "/d/b"), start := 10, stop := 19 }]
    { stream := some (cstr "/d/c"), path := some (cstr "/d/c"), start := 20, stop := 24 } rfl
    23 10 (by decide) (by decide) (by decide) (by decide)

/-! ## Two reads in a row against one read -/

/-- C30 (counterexample): on the example catalog of 25 bytes, `offset = 20`,
`a = 5`, `b = 0` satisfy `offset + a + b ≤ total_size`, the first read returns
a buffer ending at 25, and the second read, at offset 25 for 0 bytes, returns
`GST_FLOW_EOS` and no buffer at all, so there is no OFFSET of the second to
compare with. -/
theorem reads_compose_counterexample :
    Built (example_src 0) ∧ Unchanged example_env (example_src 0).parts ∧
      20 + 5 + 0 ≤ total_size (example_src 0) ∧ 5 + 0 < 2 ^ 32 ∧
      ∃ r1 r2, gst_split_file_src_create example_env (example_src 0) 20 5 = some r1 ∧
        r1.ret = .GST_FLOW_OK ∧
        gst_split_file_src_create example_env ((example_src 0).after r1) (20 + 5) 0 = some r2 ∧
        r2.ret = .GST_FLOW_EOS ∧ r2.buffer = none :=
  ⟨example_built 0 (by decide), example_unchanged, by decide, by decide, _, _, rfl, rfl, rfl,
    rfl, rfl⟩

/-- C30 (amended): on a catalog as `start` builds it, with unchanged files and
a token that is not cancelled, for `offset`, `a`, `b` with
`offset + a + b ≤ total_size`, `a + b` within 32 bits and the second read
beginning before the end (`offset + a < total_size`), the read of `a` bytes at
`offset`, the read of `b` bytes at `offset + a` made after it (with the cursor
hint the first one left) and the single read of `a + b` bytes at `offset` all
return `GST_FLOW_OK`; the bytes of the single read are the bytes of the first
followed by the bytes of the second, and OFFSET_END of the first is OFFSET of
the second. -/
theorem reads_compose (env : Env) (src : GstSplitFileSrc) (hb : Built src)
    (hun : Unchanged env src.parts)
    (hc : g_cancellable_set_error_if_cancelled src.cancellable = none)
    (offset a b : Nat) (hsize : a + b < 2 ^ 32) (hle : offset + a + b ≤ total_size src)
    (hlt : offset + a < total_size src) :
    ∃ r1 r2 r12 b1 b2 b12,
      gst_split_file_src_create env src offset a = some r1 ∧
      gst_split_file_src_create env (src.after r1) (offset + a) b = some r2 ∧
      gst_split_file_src_create env src offset (a + b) = some r12 ∧
      r1.ret = .GST_FLOW_OK ∧ r2.ret = .GST_FLOW_OK ∧ r12.ret = .GST_FLOW_OK ∧
      r1.buffer = some b1 ∧ r2.buffer = some b2 ∧ r12.buffer = some b12 ∧
      b12.data = b1.data ++ b2.data ∧ b1.offset_end = b2.offset ∧
      b12.offset = b1.offset ∧ b12.offset_end = b2.offset_end := by
  obtain ⟨r1, h1, hok1, hbuf1⟩ := create_ok_core env src offset a hb.contiguous hb.hint hun hc
    (by omega) (by omega) (by omega)
  have hhint : (src.after r1).cur_part < (src.after r1).num_parts :=
    create_cur_part_lt env src offset a r1 hb.hint h1
  obtain ⟨r2, h2, hok2, hbuf2⟩ := create_ok_core env (src.after r1) (offset + a) b
    hb.contiguous hhint hun hc (by omega) hlt hle
  obtain ⟨r12, h12, hok12, hbuf12⟩ := create_ok_core env src offset (a + b) hb.contiguous
    hb.hint hun hc hsize (by omega) (by omega)
  refine ⟨r1, r2, r12, _, _, _, h1, h2, h12, hok1, hok2, hok12, hbuf1, hbuf2, hbuf12, ?_, rfl,
    rfl, ?_⟩
  · show List.take (a + b) (List.drop offset (virtual_bytes env src.parts)) =
      List.take a (List.drop offset (virtual_bytes env src.parts)) ++
        List.take b (List.drop (offset + a) (virtual_bytes env src.parts))
    rw [List.take_add, List.drop_drop]
  · show offset + (a + b) = offset + a + b
    omega

theorem reads_compose_witness :
    ∃ r1 r2 r12 b1 b2 b12,
      gst_split_file_src_create example_env (example_src 0) 8 6 = some r1 ∧
      gst_split_file_src_create example_env ((example_src 0).after r1) (8 + 6) 9 = some r2 ∧
      gst_split_file_src_create example_env (example_src 0) 8 (6 + 9) = some r12 ∧
      r1.ret = .GST_FLOW_OK ∧ r2.ret = .GST_FLOW_OK ∧ r12.ret = .GST_FLOW_OK ∧
      r1.buffer = some b1 ∧ r2.buffer = some b2 ∧ r12.buffer = some b12 ∧
      b12.data = b1.data ++ b2.data ∧ b1.offset_end = b2.offset ∧
      b12.offset = b1.offset ∧ b12.offset_end = b2.offset_end :=
  reads_compose example_env (example_src 0) (example_built 0 (by decide)) example_unchanged rfl
    8 6 9 (by decide) (by decide) (by decide)

/-- A second `gst_split_file_src_stop` in a row, from any state: the state
stays as the first call left it, no stream is released, and the only release
is that of the absent token. -/
theorem stop_stop (src : GstSplitFileSrc) :
    gst_split_file_src_stop (gst_split_file_src_stop src).2.1 =
      (true, (gst_split_file_src_stop src).2.1, [.cancellable_unref none]) := by
  simp [gst_split_file_src_stop, stop_loop]

end SplitFileSrc

namespace AudioPanorama

/-! ## The choice of the processing function -/

/-- C27: for a channel count for which `channels - 1` is a `gint`,
`gst_audio_panorama_set_process_function` returns; it returns `FALSE` exactly
when the channel count is neither 1 nor 2, and then `process` is `NULL`;
otherwise it returns `TRUE` and `process` is the entry
`panorama_process_functions[channels - 1][is_float][method]`, with a method
outside 0 and 1 replaced by 0 (psychoacoustic), an entry that exists in the
table. The method field is left as it was. -/
theorem set_process_function_selects (filter : GstAudioPanorama) (info : GstAudioInfo)
    (hlo : -(2 ^ 31) < info.channels) (hhi : info.channels < 2 ^ 31) :
    ∃ ret after, gst_audio_panorama_set_process_function filter info = some (ret, after) ∧
      after.method = filter.method ∧
      (ret = false ↔ info.channels ≠ 1 ∧ info.channels ≠ 2) ∧
      (ret = false → after.process = none) ∧
      (ret = true → ∃ f,
        at_index3 panorama_process_functions (info.channels - 1) (if info.is_float then 1 else 0)
          (if filter.method = METHOD_PSYCHOACOUSTIC ∨ filter.method = METHOD_SIMPLE
            then filter.method else METHOD_PSYCHOACOUSTIC) = some f ∧
        after.process = some f) := by
  obtain ⟨method, process⟩ := filter
  obtain ⟨channels, is_float⟩ := info
  simp only at hlo hhi
  have hrange : ¬ (channels - 1 < -(2 ^ 31) ∨ 2 ^ 31 ≤ channels) := by omega
  by_cases hc : channels - 1 > 1 ∨ channels - 1 < 0
  · refine ⟨false, { method := method, process := none }, ?_, rfl, ?_, fun _ => rfl, ?_⟩
    · simp only [gst_audio_panorama_set_process_function, hrange, hc, if_true, if_false]
    · constructor
      · intro _; show channels ≠ 1 ∧ channels ≠ 2; omega
      · intro _; rfl
    · intro h; cases h
  · have hch : channels = 1 ∨ channels = 2 := by omega
    have hm : ∀ m : Int, (if m ≥ NUM_METHODS ∨ m < 0 then METHOD_PSYCHOACOUSTIC else m) =
        (if m = METHOD_PSYCHOACOUSTIC ∨ m = METHOD_SIMPLE then m else METHOD_PSYCHOACOUSTIC) := by
      intro m
      simp only [NUM_METHODS, METHOD_PSYCHOACOUSTIC, METHOD_SIMPLE]
      split <;> split <;> omega
    have hsel : ∃ f, at_index3 panorama_process_functions (channels - 1)
        (if is_float then 1 else 0)
        (if method = METHOD_PSYCHOACOUSTIC ∨ method = METHOD_SIMPLE
          then method else METHOD_PSYCHOACOUSTIC) = some f := by
      have hmm : (if method = METHOD_PSYCHOACOUSTIC ∨ method = METHOD_SIMPLE
          then method else METHOD_PSYCHOACOUSTIC) = 0 ∨
          (if method = METHOD_PSYCHOACOUSTIC ∨ method = METHOD_SIMPLE
          then method else METHOD_PSYCHOACOUSTIC) = 1 := by
        simp only [METHOD_PSYCHOACOUSTIC, METHOD_SIMPLE]
        split <;> omega
      rcases hch with rfl | rfl <;> rcases hmm with h | h <;> rw [h] <;>
        cases is_float <;> exact ⟨_, rfl⟩
    obtain ⟨f, hf⟩ := hsel
    refine ⟨true, { method := method, process := some f }, ?_, rfl, ?_, ?_, ?_⟩
    · simp only [gst_audio_panorama_set_process_function, hrange, hc, if_false, hm, hf]
    · constructor
      · intro h; cases h
      · intro h; exfalso; simp only at h; omega
    · intro h; cases h
    · intro _; exact ⟨f, hf, rfl⟩

theorem set_process_function_selects_witness :
    ∃ ret after, gst_audio_panorama_set_process_function { method := 7, process := none }
        { channels := 2, is_float := false } = some (ret, after) ∧
      after.method = 7 ∧
      (ret = false ↔ (2 : Int) ≠ 1 ∧ (2 : Int) ≠ 2) ∧
      (ret = false → after.process = none) ∧
      (ret = true → ∃ f,
        at_index3 panorama_process_functions (2 - 1) (if false = true then 1 else 0)
          (if (7 : Int) = METHOD_PSYCHOACOUSTIC ∨ (7 : Int) = METHOD_SIMPLE
            then 7 else METHOD_PSYCHOACOUSTIC) = some f ∧
        after.process = some f) :=
  set_process_function_selects { method := 7, process := none }
    { channels := 2, is_float := false } (by decide) (by decide)

/-! ## The simple method on 16-bit samples -/

/-- The cast `(gint16)` keeps a value of the 16-bit range. -/
theorem to_gint16_id (x : Int) (h1 : G_MININT16 ≤ x) (h2 : x ≤ G_MAXINT16) :
    to_gint16 x = x := by
  simp only [G_MININT16, G_MAXINT16] at h1 h2
  unfold to_gint16
  omega

/-- The mono to stereo loop writes, for each of its `n` passes, the pair
computed from the sample it read. -/
theorem m2s_loop_spec (body : Int → Int × Int) :
    ∀ (n : Nat) (idata : List Int), n ≤ idata.length →
      ∃ odata, m2s_loop body n idata = some odata ∧ odata.length = 2 * n ∧
        ∀ i, i < n → ∃ s, idata[i]? = some s ∧ odata[2 * i]? = some (body s).1 ∧
          odata[2 * i + 1]? = some (body s).2 := by
  intro n
  induction n with
  | zero => intro idata _; exact ⟨[], rfl, rfl, fun i hi => absurd hi (Nat.not_lt_zero i)⟩
  | succ n ih =>
    intro idata hlen
    cases idata with
    | nil => simp at hlen
    | cons s idata =>
      obtain ⟨odata, ho, hl, hall⟩ := ih idata (by simpa using hlen)
      refine ⟨(body s).1 :: (body s).2 :: odata, by simp [m2s_loop, ho], by
        simp only [List.length_cons, hl]; omega, ?_⟩
      intro i hi
      cases i with
      | zero => exact ⟨s, by simp, by simp, by simp⟩
      | succ i =>
        obtain ⟨t, h1, h2, h3⟩ := hall i (by omega)
        refine ⟨t, by simpa using h1, ?_, ?_⟩
        · have e : 2 * (i + 1) = 2 * i + 1 + 1 := by ring
          rw [e, List.getElem?_cons_succ, List.getElem?_cons_succ]; exact h2
        · have e : 2 * (i + 1) + 1 = 2 * i + 1 + 1 + 1 := by ring
          rw [e, List.getElem?_cons_succ, List.getElem?_cons_succ]; exact h3

/-- The stereo to stereo loop writes, for each of its `n` passes, the pair
computed from the two samples it read. -/
theorem s2s_loop_spec (body : Int → Int → Int × Int) :
    ∀ (n : Nat) (idata : List Int), 2 * n ≤ idata.length →
      ∃ odata, s2s_loop body n idata = some odata ∧ odata.length = 2 * n ∧
        ∀ i, i < n → ∃ l r, idata[2 * i]? = some l ∧ idata[2 * i + 1]? = some r ∧
          odata[2 * i]? = some (body l r).1 ∧ odata[2 * i + 1]? = some (body l r).2 := by
  intro n
  induction n with
  | zero => intro idata _; exact ⟨[], by simp [s2s_loop], rfl, fun i hi => absurd hi (Nat.not_lt_zero i)⟩
  | succ n ih =>
    intro idata hlen
    match idata, hlen with
    | [], hlen => simp at hlen
    | [_], hlen => simp only [List.length_singleton] at hlen; omega
    | l :: r :: idata, hlen =>
      obtain ⟨odata, ho, hl, hall⟩ := ih idata (by simp only [List.length_cons] at hlen; omega)
      refine ⟨(body l r).1 :: (body l r).2 :: odata, by simp [s2s_loop, ho], by
        simp only [List.length_cons, hl]; omega, ?_⟩
      intro i hi
      cases i with
      | zero => exact ⟨l, r, by simp, by simp, by simp, by simp⟩
      | succ i =>
        obtain ⟨a, b, h1, h2, h3, h4⟩ := hall i (by omega)
        have e : 2 * (i + 1) = 2 * i + 1 + 1 := by ring
        have e1 : 2 * (i + 1) + 1 = 2 * i + 1 + 1 + 1 := by ring
        refine ⟨a, b, ?_, ?_, ?_, ?_⟩
        · rw [e, List.getElem?_cons_succ, List.getElem?_cons_succ]; exact h1
        · rw [e1, List.getElem?_cons_succ, List.getElem?_cons_succ]; exact h2
        · rw [e, List.getElem?_cons_succ, List.getElem?_cons_succ]; exact h3
        · rw [e1, List.getElem?_cons_succ, List.getElem?_cons_succ]; exact h4

/-- C23: for an arithmetic of `gdouble` in which a 16-bit integer converted to
`gdouble` and back to `glong` is itself, for every value of `panorama` and
every input of 16-bit samples, both simple transforms return `2 * num_samples`
output samples, and in each frame exactly one channel goes through the
product with `pan`, the other being the input sample itself: when
`panorama > 0.0` the right output is the right (or mono) input and the left
output is the clamped product with `1.0 - panorama`; otherwise the left
output is the left (or mono) input and the right output is the clamped
product with `1.0 + panorama`. -/
theorem simple_pans_one_channel {D : Type} (fp : GDouble D)
    (hexact : ∀ x, G_MININT16 ≤ x → x ≤ G_MAXINT16 → fp.to_glong (fp.of_int x) = x)
    (panorama : D) (mono stereo : List Int) (num_samples : Nat)
    (hmono : ∀ s ∈ mono, G_MININT16 ≤ s ∧ s ≤ G_MAXINT16)
    (hstereo : ∀ s ∈ stereo, G_MININT16 ≤ s ∧ s ≤ G_MAXINT16)
    (hm : num_samples ≤ mono.length) (hs : 2 * num_samples ≤ stereo.length) :
    (∃ odata, gst_audio_panorama_transform_m2s_int_simple fp panorama mono num_samples
        = some odata ∧ odata.length = 2 * num_samples ∧
      ∀ i, i < num_samples → ∃ s, mono[i]? = some s ∧
        if fp.gt panorama fp.zero = true then
          odata[2 * i + 1]? = some s ∧
          odata[2 * i]? = some (to_gint16 (CLAMP
            (fp.to_glong (fp.mul (fp.of_int s) (fp.sub fp.one panorama)))
            G_MININT16 G_MAXINT16))
        else
          odata[2 * i]? = some s ∧
          odata[2 * i + 1]? = some (to_gint16 (CLAMP
            (fp.to_glong (fp.mul (fp.of_int s) (fp.add fp.one panorama)))
            G_MININT16 G_MAXINT16))) ∧
    (∃ odata, gst_audio_panorama_transform_s2s_int_simple fp panorama stereo num_samples
        = some odata ∧ odata.length = 2 * num_samples ∧
      ∀ i, i < num_samples → ∃ l r, stereo[2 * i]? = some l ∧ stereo[2 * i + 1]? = some r ∧
        if fp.gt panorama fp.zero = true then
          odata[2 * i + 1]? = some r ∧
          odata[2 * i]? = some (to_gint16 (CLAMP
            (fp.to_glong (fp.mul (fp.of_int l) (fp.sub fp.one panorama)))
            G_MININT16 G_MAXINT16))
        else
          odata[2 * i]? = some l ∧
          odata[2 * i + 1]? = some (to_gint16 (CLAMP
            (fp.to_glong (fp.mul (fp.of_int r) (fp.add fp.one panorama)))
            G_MININT16 G_MAXINT16))) := by
  constructor
  · unfold gst_audio_panorama_transform_m2s_int_simple
    by_cases hp : fp.gt panorama fp.zero = true
    · simp only [hp, if_true]
      obtain ⟨odata, ho, hl, hall⟩ := m2s_loop_spec (fun sample =>
        (to_gint16 (CLAMP (fp.to_glong (fp.mul (fp.of_int sample) (fp.sub fp.one panorama)))
          G_MININT16 G_MAXINT16), to_gint16 sample)) num_samples mono hm
      refine ⟨odata, ho, hl, ?_⟩
      intro i hi
      obtain ⟨s, h1, h2, h3⟩ := hall i hi
      have hr := hmono s (List.getElem?_mem h1)
      refine ⟨s, h1, ?_, h2⟩
      rw [h3]; simp only [to_gint16_id s hr.1 hr.2]
    · simp only [hp, if_false]
      obtain ⟨odata, ho, hl, hall⟩ := m2s_loop_spec (fun sample =>
        (to_gint16 sample,
          to_gint16 (CLAMP (fp.to_glong (fp.mul (fp.of_int sample) (fp.add fp.one panorama)))
            G_MININT16 G_MAXINT16))) num_samples mono hm
      refine ⟨odata, ho, hl, ?_⟩
      intro i hi
      obtain ⟨s, h1, h2, h3⟩ := hall i hi
      have hr := hmono s (List.getElem?_mem h1)
      refine ⟨s, h1, ?_, h3⟩
      rw [h2]; simp only [to_gint16_id s hr.1 hr.2]
  · unfold gst_audio_panorama_transform_s2s_int_simple
    by_cases hp : fp.gt panorama fp.zero = true
    · simp only [hp, if_true]
      obtain ⟨odata, ho, hl, hall⟩ := s2s_loop_spec (fun left right =>
        (to_gint16 (CLAMP (fp.to_glong (fp.mul (fp.of_int left) (fp.sub fp.one panorama)))
          G_MININT16 G_MAXINT16), to_gint16 (fp.to_glong (fp.of_int right))))
        num_samples stereo hs
      refine ⟨odata, ho, hl, ?_⟩
      intro i hi
      obtain ⟨l, r, h1, h2, h3, h4⟩ := hall i hi
      have hr := hstereo r (List.getElem?_mem h2)
      refine ⟨l, r, h1, h2, ?_, h3⟩
      rw [h4]; simp only [hexact r hr.1 hr.2, to_gint16_id r hr.1 hr.2]
    · simp only [hp, if_false]
      obtain ⟨odata, ho, hl, hall⟩ := s2s_loop_spec (fun left right =>
        (to_gint16 (fp.to_glong (fp.of_int left)),
          to_gint16 (CLAMP (fp.to_glong (fp.mul (fp.of_int right) (fp.add fp.one panorama)))
            G_MININT16 G_MAXINT16))) num_samples stereo hs
      refine ⟨odata, ho, hl, ?_⟩
      intro i hi
      obtain ⟨l, r, h1, h2, h3, h4⟩ := hall i hi
      have hr := hstereo l (List.getElem?_mem h1)
      refine ⟨l, r, h1, h2, ?_, h4⟩
      rw [h3]; simp only [hexact l hr.1 hr.2, to_gint16_id l hr.1 hr.2]

/-- The arithmetic without rounding converts an integer to `gdouble` and back
without change. -/
theorem exact_double_round_trip (x : Int) :
    exact_double.to_glong (exact_double.of_int x) = x := by
  simp [exact_double]

theorem simple_pans_one_channel_witness :
    (∃ odata, gst_audio_panorama_transform_m2s_int_simple exact_double (1 / 2) [100, -200] 2
        = some odata ∧ odata.length = 2 * 2 ∧
      ∀ i, i < 2 → ∃ s, ([100, -200] : List Int)[i]? = some s ∧
        if exact_double.gt (1 / 2) exact_double.zero = true then
          odata[2 * i + 1]? = some s ∧
          odata[2 * i]? = some (to_gint16 (CLAMP
            (exact_double.to_glong (exact_double.mul (exact_double.of_int s)
              (exact_double.sub exact_double.one (1 / 2))))
            G_MININT16 G_MAXINT16))
        else
          odata[2 * i]? = some s ∧
          odata[2 * i + 1]? = some (to_gint16 (CLAMP
            (exact_double.to_glong (exact_double.mul (exact_double.of_int s)
              (exact_double.add exact_double.one (1 / 2))))
            G_MININT16 G_MAXINT16))) ∧
    (∃ odata, gst_audio_panorama_transform_s2s_int_simple exact_double (1 / 2)
        [100, -200, 300, 32767] 2 = some odata ∧ odata.length = 2 * 2 ∧
      ∀ i, i < 2 → ∃ l r, ([100, -200, 300, 32767] : List Int)[2 * i]? = some l ∧
        ([100, -200, 300, 32767] : List Int)[2 * i + 1]? = some r ∧
        if exact_double.gt (1 / 2) exact_double.zero = true then
          odata[2 * i + 1]? = some r ∧
          odata[2 * i]? = some (to_gint16 (CLAMP
            (exact_double.to_glong (exact_double.mul (exact_double.of_int l)
              (exact_double.sub exact_double.one (1 / 2))))
            G_MININT16 G_MAXINT16))
        else
          odata[2 * i]? = some l ∧
          odata[2 * i + 1]? = some (to_gint16 (CLAMP
            (exact_double.to_glong (exact_double.mul (exact_double.of_int r)
              (exact_double.add exact_double.one (1 / 2))))
            G_MININT16 G_MAXINT16))) :=
  simple_pans_one_channel exact_double (fun x _ _ => exact_double_round_trip x) (1 / 2)
    [100, -200] [100, -200, 300, 32767] 2 (by decide) (by decide) (by decide) (by decide)

end AudioPanorama
